import Mathlib

/-!
# Opus identification header (`src/opus_header.c`)

A shallow embedding of the bounded cursor primitives, of `opus_header_parse`
and of `opus_header_to_packet`, followed by theorems about them.

Conventions of the embedding

* C `int` values (`pos`, `maxlen`, `len`, `nb_chars`, return codes) are `Int`;
  the one place where a subtraction can leave the 32-bit range, the bounds
  check `p->pos > p->maxlen - w`, is wrapped explicitly with `wrapInt32`.
* `unsigned char` values and buffer cells are `Nat`; conversions to a narrower
  unsigned type are written `u8`, `u16`, `u32`.
* A buffer is a `List Nat`; `a[k]` read is `getD k 0`, `a[k] = v` is `set k v`.
* A C function that mutates through pointers returns the mutated objects next
  to its return code.
-/

namespace OpusTools

/-! ## Machine integers -/

/-- Value of an integer expression once stored in a 32-bit two's-complement `int`. -/
def wrapInt32 (x : Int) : Int := (x + 2147483648) % 4294967296 - 2147483648

/-- Conversion to `unsigned char`. -/
def u8 (x : Nat) : Nat := x % 256

/-- Conversion to `opus_uint16`. -/
def u16 (x : Nat) : Nat := x % 65536

/-- Conversion to `opus_uint32`. -/
def u32 (x : Nat) : Nat := x % 4294967296

/-! ## Data model -/

/-- Write cursor, `Packet` (lines 22-26). -/
structure Packet where
  data : List Nat
  maxlen : Int
  pos : Int

/-- Read cursor, `ROPacket` (lines 28-32). -/
structure ROPacket where
  data : List Nat
  maxlen : Int
  pos : Int

/-- Modelled from the spec: the declaration of `OpusHeader` lives in
`opus_header.h`, which is not among the sources. The field names are the ones
`opus_header.c` uses; the widths are the ones of the spec's data model
(`version`, `multi_stream`, `channels`, `nb_streams`: 8 bits; `preskip`: 16 bits;
`input_sample_rate`: 32 bits, which is also what the `opus_uint32 *` argument of
`read_uint32` forces). `mapping` is the two-dimensional `unsigned char` array
indexed `mapping[i][0..2]`, given as a function of row and column. -/
structure OpusHeader where
  version : Nat
  input_sample_rate : Nat
  multi_stream : Nat
  channels : Nat
  preskip : Nat
  nb_streams : Nat
  mapping : Nat → Nat → Nat

/-- The store `h->mapping[i][j] = v`. -/
def OpusHeader.setMapping (h : OpusHeader) (i j v : Nat) : OpusHeader :=
  { h with mapping := fun r c => if r = i ∧ c = j then v else h.mapping r c }

/-- Every field of the header holds a value of its declared width. -/
def OpusHeader.inRange (h : OpusHeader) : Prop :=
  h.version < 256 ∧ h.input_sample_rate < 4294967296 ∧ h.multi_stream < 256 ∧
  h.channels < 256 ∧ h.preskip < 65536 ∧ h.nb_streams < 256 ∧
  ∀ i j, h.mapping i j < 256

/-- The string literal `"OpusHead"`, without its terminator. -/
def OpusHead : List Nat := [79, 112, 117, 115, 72, 101, 97, 100]

/-- The string literal `"OpusHead"` as it lies in memory, terminator included. -/
def OpusHeadZ : List Nat := OpusHead ++ [0]

/-- C `strcmp` on two character arrays: walk both while the characters agree and
are not the terminator; the result is zero exactly when the walk ends on a
common terminator. Both arguments of the one call site are terminated inside
their arrays, so the walk never leaves them. -/
def strcmp : List Nat → List Nat → Int
  | a :: as, b :: bs =>
      if a ≠ b then (a : Int) - (b : Int)
      else if a = 0 then 0
      else strcmp as bs
  | _, _ => 0

/-! ## Write cursor (lines 34-64) -/

/-- The function `write_uint32` (lines 34-44). -/
def write_uint32 (p : Packet) (val : Nat) : Int × Packet :=
  if p.pos > wrapInt32 (p.maxlen - 4) then (0, p)
  else
    let d0 := p.data.set p.pos.toNat (val &&& 0xFF)
    let d1 := d0.set (p.pos + 1).toNat ((val >>> 8) &&& 0xFF)
    let d2 := d1.set (p.pos + 2).toNat ((val >>> 16) &&& 0xFF)
    let d3 := d2.set (p.pos + 3).toNat ((val >>> 24) &&& 0xFF)
    (1, { p with data := d3, pos := p.pos + 4 })

/-- The function `write_uint16` (lines 46-54). -/
def write_uint16 (p : Packet) (val : Nat) : Int × Packet :=
  if p.pos > wrapInt32 (p.maxlen - 2) then (0, p)
  else
    let d0 := p.data.set p.pos.toNat (val &&& 0xFF)
    let d1 := d0.set (p.pos + 1).toNat ((val >>> 8) &&& 0xFF)
    (1, { p with data := d1, pos := p.pos + 2 })

/-- The copy loop of `write_chars` (lines 61-62): `n` iterations are left and
the loop counter is `i`. -/
def write_chars_loop : Nat → Nat → Packet → List Nat → Packet
  | 0, _, p, _ => p
  | n + 1, i, p, str =>
      write_chars_loop n (i + 1)
        { p with data := p.data.set p.pos.toNat (str.getD i 0), pos := p.pos + 1 } str

/-- The function `write_chars` (lines 56-64). -/
def write_chars (p : Packet) (str : List Nat) (nb_chars : Int) : Int × Packet :=
  if p.pos > wrapInt32 (p.maxlen - nb_chars) then (0, p)
  else (1, write_chars_loop nb_chars.toNat 0 p str)

/-! ## Read cursor (lines 66-96) -/

/-- The function `read_uint32` (lines 66-76); the second argument is `*val`
before the call. -/
def read_uint32 (p : ROPacket) (val : Nat) : Int × ROPacket × Nat :=
  if p.pos > wrapInt32 (p.maxlen - 4) then (0, p, val)
  else
    let v0 := u32 (p.data.getD p.pos.toNat 0)
    let v1 := u32 (v0 ||| u32 (u32 (p.data.getD (p.pos + 1).toNat 0) <<< 8))
    let v2 := u32 (v1 ||| u32 (u32 (p.data.getD (p.pos + 2).toNat 0) <<< 16))
    let v3 := u32 (v2 ||| u32 (u32 (p.data.getD (p.pos + 3).toNat 0) <<< 24))
    (1, { p with pos := p.pos + 4 }, v3)

/-- The function `read_uint16` (lines 78-86); the second argument is `*val`
before the call. -/
def read_uint16 (p : ROPacket) (val : Nat) : Int × ROPacket × Nat :=
  if p.pos > wrapInt32 (p.maxlen - 2) then (0, p, val)
  else
    let v0 := u16 (p.data.getD p.pos.toNat 0)
    let v1 := u16 (v0 ||| (u16 (p.data.getD (p.pos + 1).toNat 0) <<< 8))
    (1, { p with pos := p.pos + 2 }, v1)

/-- The copy loop of `read_chars` (lines 93-94): `n` iterations are left and
the loop counter is `i`. -/
def read_chars_loop : Nat → Nat → ROPacket → List Nat → ROPacket × List Nat
  | 0, _, p, str => (p, str)
  | n + 1, i, p, str =>
      read_chars_loop n (i + 1) { p with pos := p.pos + 1 }
        (str.set i (p.data.getD p.pos.toNat 0))

/-- The function `read_chars` (lines 88-96); `str` is the destination array before the call,
and the third component of the result is that array after the call. -/
def read_chars (p : ROPacket) (str : List Nat) (nb_chars : Int) :
    Int × ROPacket × List Nat :=
  if p.pos > wrapInt32 (p.maxlen - nb_chars) then (0, p, str)
  else (1, read_chars_loop nb_chars.toNat 0 p str)

/-! ## `opus_header_parse` (lines 98-155) -/

/-- The call `read_chars(&p, &c, 1)` whose destination is the single cell `c`;
the third component is the cell after the call. -/
def read_char (p : ROPacket) (c : Nat) : Int × ROPacket × Nat :=
  let r := read_chars p [c] 1
  (r.1, r.2.1, r.2.2.getD 0 c)

/-- The statement pattern `if (!read(&p, &x)) return 0; rest` of
`opus_header_parse`: `r` is the outcome of the read (return code, cursor, the
cell `x` after the call) and `h` the caller's header at that point. -/
def rthen {α : Type} (r : Int × ROPacket × α) (h : OpusHeader)
    (rest : ROPacket → α → Int × ROPacket × OpusHeader) : Int × ROPacket × OpusHeader :=
  if r.1 = 0 then (0, r.2.1, h) else rest r.2.1 r.2.2

/-- The mapping loop of `opus_header_parse` (lines 134-149). The loop bound
`h->nb_streams` is not written by the body, so the loop runs a fixed number of
iterations unless it returns early: `n` iterations are left and the loop
counter is `i`. The first component is `0` when the body executed `return 0`. -/
def parse_mapping_loop : Nat → Nat → ROPacket → OpusHeader → Int × ROPacket × OpusHeader
  | 0, _, p, h => (1, p, h)
  | n + 1, i, p, h =>
      rthen (read_char p (h.mapping i 0)) h fun p c =>
      let h := h.setMapping i 0 c
      if h.version = 0 ∧ h.mapping i 0 > 1 then (0, p, h)
      else
        rthen (read_char p (h.mapping i 1)) h fun p c =>
        let h := h.setMapping i 1 c
        if h.mapping i 0 = 1 then
          rthen (read_char p (h.mapping i 2)) h fun p c =>
          parse_mapping_loop n (i + 1) p (h.setMapping i 2 c)
        else parse_mapping_loop n (i + 1) p h

/-- Lines 113-150 of `opus_header_parse`: the reads of the fixed fields and of
the mapping table, from the cursor `p` left by the tag read. `h` is the
caller's header before the call. The locals `ch` and `shortval` are only read
after a successful read has written them; their initial value is taken to be
`0`. The result is a flag (`0` when a `return 0` was executed), the local
cursor and the caller's header at that point. -/
def parse_fields (p : ROPacket) (h : OpusHeader) : Int × ROPacket × OpusHeader :=
  rthen (read_char p 0) h fun p ch =>
  let h := { h with version := ch }
  rthen (read_uint32 p h.input_sample_rate) h fun p val =>
  let h := { h with input_sample_rate := val }
  rthen (read_char p ch) h fun p ch =>
  let h := { h with multi_stream := ch }
  rthen (read_char p ch) h fun p ch =>
  let h := { h with channels := ch }
  rthen (read_uint16 p 0) h fun p shortval =>
  let h := { h with preskip := shortval }
  if h.multi_stream ≠ 0 then
    rthen (read_char p ch) h fun p ch =>
    let h := { h with nb_streams := ch }
    parse_mapping_loop h.nb_streams 0 p h
  else (1, p, h)

/-- The function `opus_header_parse` with its local cursor exposed: return
code, cursor at the return, and the caller's header after the call. `h` is the
caller's header before the call and `str0` the indeterminate initial content of
the local array `str` (lines 106-112 and 152-154 are here, lines 113-150 in
`parse_fields`). -/
def opus_header_parse_run (packet : List Nat) (len : Int) (h : OpusHeader)
    (str0 : Nat → Nat) : Int × ROPacket × OpusHeader :=
  let p : ROPacket := { data := packet, maxlen := len, pos := 0 }
  let str := ((List.range 9).map str0).set 8 0
  -- the return code of this first read is not looked at
  let rt := read_chars p str 8
  if strcmp rt.2.2 OpusHeadZ ≠ 0 then (0, rt.2.1, h)
  else
    let r := parse_fields rt.2.1 h
    if r.1 = 0 then (0, r.2.1, r.2.2)
    else if r.2.2.version = 0 ∧ r.2.1.pos ≠ len then (0, r.2.1, r.2.2)
    else (1, r.2.1, r.2.2)

/-- The function `opus_header_parse` (lines 98-155): return code and the
caller's header after the call. -/
def opus_header_parse (packet : List Nat) (len : Int) (h : OpusHeader)
    (str0 : Nat → Nat) : Int × OpusHeader :=
  let r := opus_header_parse_run packet len h str0
  (r.1, r.2.2)

/-! ## `opus_header_to_packet` (lines 157-204) -/

/-- The call `write_chars(&p, &c, 1)` whose source is the single cell `c`. -/
def write_char (p : Packet) (c : Nat) : Int × Packet :=
  write_chars p [c] 1

/-- The statement pattern `if (!write(&p, x)) return 0; rest` of
`opus_header_to_packet`: `r` is the outcome of the write (return code, cursor). -/
def wthen (r : Int × Packet) (rest : Packet → Int × Packet) : Int × Packet :=
  if r.1 = 0 then (0, r.2) else rest r.2

/-- The mapping loop of `opus_header_to_packet` (lines 189-200): `n` iterations
are left and the loop counter is `i`. The first component is `0` when the body
executed `return 0`. -/
def to_packet_loop : Nat → Nat → Packet → OpusHeader → Int × Packet
  | 0, _, p, _ => (1, p)
  | n + 1, i, p, h =>
      wthen (write_char p (h.mapping i 0)) fun p =>
      wthen (write_char p (h.mapping i 1)) fun p =>
      if h.mapping i 0 = 1 then
        wthen (write_char p (h.mapping i 2)) fun p =>
        to_packet_loop n (i + 1) p h
      else to_packet_loop n (i + 1) p h

/-- The function `opus_header_to_packet` with its local cursor exposed: return
value and cursor at the return. -/
def opus_header_to_packet_run (h : OpusHeader) (packet : List Nat) (len : Int) :
    Int × Packet :=
  let p : Packet := { data := packet, maxlen := len, pos := 0 }
  wthen (write_chars p OpusHead 8) fun p =>
  wthen (write_char p 0) fun p =>
  wthen (write_uint32 p (u32 h.input_sample_rate)) fun p =>
  wthen (write_char p (u8 h.multi_stream)) fun p =>
  wthen (write_char p (u8 h.channels)) fun p =>
  wthen (write_uint16 p (u16 h.preskip)) fun p =>
  if h.multi_stream ≠ 0 then
    wthen (write_char p (u8 h.nb_streams)) fun p =>
    wthen (to_packet_loop h.nb_streams 0 p h) fun p =>
    (p.pos, p)
  else (p.pos, p)

/-- The function `opus_header_to_packet` (lines 157-204): return value and the
caller's buffer after the call. -/
def opus_header_to_packet (h : OpusHeader) (packet : List Nat) (len : Int) :
    Int × List Nat :=
  let r := opus_header_to_packet_run h packet len
  (r.1, r.2.data)

/-! ## Definitions used to state the properties -/

/-- Successive stores `d[k] = b0; d[k+1] = b1; ...` of a run of bytes. -/
def putBytes : List Nat → Nat → List Nat → List Nat
  | d, _, [] => d
  | d, k, b :: bs => putBytes (d.set k b) (k + 1) bs

/-- A write of the run `bs` through a write cursor, as one bounds check
followed by the stores. -/
def put (p : Packet) (bs : List Nat) : Int × Packet :=
  if p.pos + bs.length ≤ p.maxlen then
    (1, { data := putBytes p.data p.pos.toNat bs, maxlen := p.maxlen, pos := p.pos + bs.length })
  else (0, p)

/-- Wire image of mapping entry `i`: flag, left channel, and the right channel
only when the flag is 1. -/
def entryBytes (h : OpusHeader) (i : Nat) : List Nat :=
  if h.mapping i 0 = 1 then [h.mapping i 0, h.mapping i 1, h.mapping i 2]
  else [h.mapping i 0, h.mapping i 1]

/-- Wire image of the `n` mapping entries `i, i+1, ...`, in order. -/
def tableBytes (h : OpusHeader) : Nat → Nat → List Nat
  | 0, _ => []
  | n + 1, i => entryBytes h i ++ tableBytes h n (i + 1)

/-- The wire layout of the spec's table (section 6) for a header: tag, version
byte 0, sample rate in four bytes least significant first, family, channel
count, pre-skip in two bytes low first, and for a nonzero family the stream
count followed by the mapping entries. -/
def wireLayout (h : OpusHeader) : List Nat :=
  OpusHead ++ [0] ++
  [h.input_sample_rate % 256, h.input_sample_rate / 256 % 256,
   h.input_sample_rate / 65536 % 256, h.input_sample_rate / 16777216 % 256] ++
  [h.multi_stream, h.channels, h.preskip % 256, h.preskip / 256 % 256] ++
  (if h.multi_stream ≠ 0 then h.nb_streams :: tableBytes h h.nb_streams 0 else [])

/-- Size of the packet of a header: 17 for family 0, else 18 plus, for each of
the first `nb_streams` entries, 3 when its flag is 1 and 2 otherwise. -/
def packetSize (h : OpusHeader) : Nat :=
  if h.multi_stream = 0 then 17
  else 18 + ((List.range h.nb_streams).map (fun i => if h.mapping i 0 = 1 then 3 else 2)).sum

/-- Number of bytes of the mapping entry that starts at offset `k` of the
input `b`: 3 when its flag byte is 1, and 2 otherwise. -/
def entryWidth (b : List Nat) (k : Nat) : Nat :=
  if b.getD k 0 = 1 then 3 else 2

/-- Offset in the input `b` of the `j`-th mapping entry counted from an entry
that starts at offset `start`: the entries lie one after the other. -/
def entryOffset (b : List Nat) (start : Nat) : Nat → Nat
  | 0 => start
  | j + 1 => entryOffset b (start + entryWidth b start) j

/-- The header after the stores of one iteration of the parser's mapping loop
that reads entry `i` at offset `k` of `b` to its end. -/
def afterEntry (h : OpusHeader) (i : Nat) (b : List Nat) (k : Nat) : OpusHeader :=
  if b.getD k 0 = 1 then
    ((h.setMapping i 0 (b.getD k 0)).setMapping i 1 (b.getD (k + 1) 0)).setMapping i 2
      (b.getD (k + 2) 0)
  else (h.setMapping i 0 (b.getD k 0)).setMapping i 1 (b.getD (k + 1) 0)

/-- The two headers agree on every field but the mapping table. -/
def sameScalars (h h' : OpusHeader) : Prop :=
  h'.version = h.version ∧ h'.input_sample_rate = h.input_sample_rate ∧
  h'.multi_stream = h.multi_stream ∧ h'.channels = h.channels ∧
  h'.preskip = h.preskip ∧ h'.nb_streams = h.nb_streams

/-- The bytes `opus_header_to_packet` stores, in order, with the conversions
the code applies to each field. -/
def emitted (h : OpusHeader) : List Nat :=
  OpusHead ++ [0] ++
  [u32 h.input_sample_rate % 256, u32 h.input_sample_rate / 256 % 256,
   u32 h.input_sample_rate / 65536 % 256, u32 h.input_sample_rate / 16777216 % 256] ++
  [u8 h.multi_stream, u8 h.channels, u16 h.preskip % 256, u16 h.preskip / 256 % 256] ++
  (if h.multi_stream ≠ 0 then u8 h.nb_streams :: tableBytes h h.nb_streams 0 else [])

/-- The header after the stores of the fixed-field reads of the parser
(lines 113-126), which take the nine bytes at offsets `k .. k+8` of `d`. -/
def fixedFields (h : OpusHeader) (d : List Nat) (k : Nat) : OpusHeader :=
  { h with
    version := d.getD k 0
    input_sample_rate :=
      u32 (u32 (u32 (u32 (d.getD (k + 1) 0) ||| u32 (u32 (d.getD (k + 2) 0) <<< 8)) |||
        u32 (u32 (d.getD (k + 3) 0) <<< 16)) ||| u32 (u32 (d.getD (k + 4) 0) <<< 24))
    multi_stream := d.getD (k + 5) 0
    channels := d.getD (k + 6) 0
    preskip := u16 (u16 (d.getD (k + 7) 0) ||| (u16 (d.getD (k + 8) 0) <<< 8)) }

/-- Serialize `h` into `buf` with capacity `len`, then parse the bytes the
serializer reports as written (its return value is the length handed to the
parser); `g` is the caller's header before the parse. -/
def roundTrip (h : OpusHeader) (buf : List Nat) (len : Int) (g : OpusHeader)
    (str0 : Nat → Nat) : Int × OpusHeader :=
  opus_header_parse
    ((opus_header_to_packet h buf len).2.take (opus_header_to_packet h buf len).1.toNat)
    (opus_header_to_packet h buf len).1 g str0

/-! ## Concrete inputs -/

/-- Mapping table of the multistream example: a stereo entry (left 0, right 1)
followed by a mono entry (left 2). -/
def exampleMapping : Nat → Nat → Nat
  | 0, 0 => 1
  | 0, 1 => 0
  | 0, 2 => 1
  | 1, 0 => 0
  | 1, 1 => 2
  | _, _ => 0

/-- The multistream example of the spec: version 0, 48000 Hz, family 1, three
channels, pre-skip 312, two streams. -/
def exampleHeader : OpusHeader :=
  { version := 0, input_sample_rate := 48000, multi_stream := 1, channels := 3,
    preskip := 312, nb_streams := 2, mapping := exampleMapping }

/-- A caller's header before a call of the parser, with recognisable content. -/
def staleHeader : OpusHeader :=
  { version := 7, input_sample_rate := 7, multi_stream := 7, channels := 7,
    preskip := 7, nb_streams := 7, mapping := fun _ _ => 7 }

/-- An initial content of the local array `str` that has nothing of the tag. -/
def blankStr : Nat → Nat := fun _ => 0

/-- An initial content of the local array `str` that happens to spell the tag. -/
def tagStr : Nat → Nat := fun i => OpusHead.getD i 0

/-- A 30-byte destination buffer. -/
def exampleBuffer : List Nat := List.replicate 30 255

/-- The 23 bytes of the multistream example on the wire. -/
def examplePacket : List Nat :=
  [79, 112, 117, 115, 72, 101, 97, 100, 0, 128, 187, 0, 0, 1, 3, 56, 1, 2, 1, 0, 1, 0, 2]

/-- A 17-byte version-1 packet of family 0. -/
def version1Packet : List Nat :=
  [79, 112, 117, 115, 72, 101, 97, 100, 1, 128, 187, 0, 0, 0, 1, 56, 1]

/-- A 17-byte version-0 packet of family 0. -/
def version0Packet : List Nat :=
  [79, 112, 117, 115, 72, 101, 97, 100, 0, 128, 187, 0, 0, 0, 1, 56, 1]

/-- Seventeen bytes whose first eight differ from the tag by a zero byte. -/
def zeroTagPacket : List Nat :=
  [79, 112, 117, 115, 0, 101, 97, 100, 0, 128, 187, 0, 0, 0, 1, 56, 1]

/-- A version-0 packet of family 1 with one mapping entry whose flag byte is 2. -/
def badFlagPacket : List Nat :=
  [79, 112, 117, 115, 72, 101, 97, 100, 0, 128, 187, 0, 0, 1, 1, 56, 1, 1, 2, 0]

/-- A single-stream header: version 0, 48000 Hz, family 0, one channel,
pre-skip 312. -/
def monoHeader : OpusHeader :=
  { version := 0, input_sample_rate := 48000, multi_stream := 0, channels := 1,
    preskip := 312, nb_streams := 0, mapping := fun _ _ => 0 }

/-- A header of family 1 whose single mapping entry has flag 2. -/
def flag2Header : OpusHeader :=
  { version := 0, input_sample_rate := 48000, multi_stream := 1, channels := 1,
    preskip := 312, nb_streams := 1, mapping := fun _ c => if c = 0 then 2 else 0 }

/-- The write cursor `q` is a later state of the write cursor `p` of the same
call: same capacity, a buffer of the same length that agrees with the one of
`p` from the capacity on, and an offset between 0 and the capacity. -/
def Frame (p q : Packet) : Prop :=
  q.maxlen = p.maxlen ∧ q.data.length = p.data.length ∧
  (∀ j : Nat, p.maxlen ≤ (j : Int) → q.data.getD j 0 = p.data.getD j 0) ∧
  0 ≤ q.pos ∧ q.pos ≤ q.maxlen

/-! ## Arithmetic of the machine integers -/

theorem wrapInt32_of_range (x : Int) (h1 : -2147483648 ≤ x) (h2 : x ≤ 2147483647) :
    wrapInt32 x = x := by
  unfold wrapInt32; omega

theorem and_255 (x : Nat) : x &&& 255 = x % 256 := by
  have := Nat.and_pow_two_sub_one_eq_mod x 8
  simpa using this

theorem or_shift8 (a b : Nat) (ha : a < 256) : a ||| (b <<< 8) = a + 256 * b := by
  have := Nat.mul_add_lt_is_or (i := 8) (b := a) (by simpa using ha) b
  rw [Nat.or_comm, Nat.shiftLeft_eq]
  simp only [Nat.reducePow] at this ⊢
  rw [Nat.mul_comm b 256, ← this]; omega

theorem or_shift16 (a b : Nat) (ha : a < 65536) : a ||| (b <<< 16) = a + 65536 * b := by
  have := Nat.mul_add_lt_is_or (i := 16) (b := a) (by simpa using ha) b
  rw [Nat.or_comm, Nat.shiftLeft_eq]
  simp only [Nat.reducePow] at this ⊢
  rw [Nat.mul_comm b 65536, ← this]; omega

theorem or_shift24 (a b : Nat) (ha : a < 16777216) : a ||| (b <<< 24) = a + 16777216 * b := by
  have := Nat.mul_add_lt_is_or (i := 24) (b := a) (by simpa using ha) b
  rw [Nat.or_comm, Nat.shiftLeft_eq]
  simp only [Nat.reducePow] at this ⊢
  rw [Nat.mul_comm b 16777216, ← this]; omega

/-- Little-endian assembly of `read_uint16` on two bytes. -/
theorem le16_eq (a b : Nat) (ha : a < 256) (hb : b < 256) :
    u16 (u16 a ||| (u16 b <<< 8)) = a + 256 * b := by
  have h1 : u16 a = a := by unfold u16; omega
  have h2 : u16 b = b := by unfold u16; omega
  rw [h1, h2, or_shift8 a b ha]; unfold u16; omega

/-- Little-endian assembly of `read_uint32` on four bytes. -/
theorem le32_eq (a b c d : Nat) (ha : a < 256) (hb : b < 256) (hc : c < 256) (hd : d < 256) :
    u32 (u32 (u32 (u32 a ||| u32 (u32 b <<< 8)) ||| u32 (u32 c <<< 16)) ||| u32 (u32 d <<< 24))
      = a + 256 * b + 65536 * c + 16777216 * d := by
  have e1 : u32 a = a := by unfold u32; omega
  have e2 : u32 b = b := by unfold u32; omega
  have e3 : u32 c = c := by unfold u32; omega
  have e4 : u32 d = d := by unfold u32; omega
  have s2 : u32 (b <<< 8) = b <<< 8 := by rw [Nat.shiftLeft_eq]; unfold u32; omega
  have s3 : u32 (c <<< 16) = c <<< 16 := by rw [Nat.shiftLeft_eq]; unfold u32; omega
  have s4 : u32 (d <<< 24) = d <<< 24 := by rw [Nat.shiftLeft_eq]; unfold u32; omega
  rw [e1, e2, e3, e4, s2, s3, s4, or_shift8 a b ha]
  have m1 : u32 (a + 256 * b) = a + 256 * b := by unfold u32; omega
  rw [m1, or_shift16 _ c (by omega)]
  have m2 : u32 (a + 256 * b + 65536 * c) = a + 256 * b + 65536 * c := by unfold u32; omega
  rw [m2, or_shift24 _ d (by omega)]
  unfold u32; omega

/-! ## The write cursor -/

theorem putBytes_length (bs : List Nat) : ∀ (d : List Nat) (k : Nat),
    (putBytes d k bs).length = d.length := by
  induction bs with
  | nil => intro d k; rfl
  | cons b bs ih => intro d k; simp [putBytes, ih]

theorem putBytes_append (bs cs : List Nat) : ∀ (d : List Nat) (k : Nat),
    putBytes d k (bs ++ cs) = putBytes (putBytes d k bs) (k + bs.length) cs := by
  induction bs with
  | nil => intro d k; simp [putBytes]
  | cons b bs ih =>
    intro d k
    have e : k + (bs.length + 1) = k + 1 + bs.length := by omega
    simp only [List.cons_append, putBytes, List.length_cons, e]
    exact ih (d.set k b) (k + 1)

theorem take_set_succ (d : List Nat) (k b : Nat) (hk : k < d.length) :
    (d.set k b).take (k + 1) = d.take k ++ [b] := by
  rw [List.set_eq_take_append_cons_drop, if_pos hk]
  have hl : (List.take k d).length = k := by simp; omega
  rw [List.take_append_eq_append_take, hl]
  simp [List.take_take]

theorem take_putBytes (bs : List Nat) : ∀ (d : List Nat) (k : Nat),
    k + bs.length ≤ d.length → (putBytes d k bs).take (k + bs.length) = d.take k ++ bs := by
  induction bs with
  | nil => intro d k _; simp [putBytes]
  | cons b bs ih =>
    intro d k hk
    simp only [List.length_cons] at hk
    have h1 := ih (d.set k b) (k + 1) (by simp; omega)
    simp only [putBytes, List.length_cons]
    have e : k + (bs.length + 1) = k + 1 + bs.length := by omega
    rw [e, h1, take_set_succ d k b (by omega)]
    simp

/-- Bytes at or beyond the end of the run are not touched. -/
theorem getD_putBytes_ge (bs : List Nat) : ∀ (d : List Nat) (k j : Nat),
    k + bs.length ≤ j → (putBytes d k bs).getD j 0 = d.getD j 0 := by
  induction bs with
  | nil => intro d k j _; rfl
  | cons b bs ih =>
    intro d k j hj
    simp only [List.length_cons] at hj
    simp only [putBytes]
    rw [ih (d.set k b) (k + 1) j (by omega)]
    simp only [List.getD_eq_getElem?_getD, List.getElem?_set]
    rw [if_neg (by omega)]

theorem write_chars_loop_eq (str : List Nat) : ∀ (n i : Nat) (p : Packet), 0 ≤ p.pos →
    write_chars_loop n i p str =
      { data := putBytes p.data p.pos.toNat ((List.range' i n).map (fun j => str.getD j 0)),
        maxlen := p.maxlen, pos := p.pos + n } := by
  intro n
  induction n with
  | zero => intro i p _; simp [write_chars_loop, putBytes]
  | succ n ih =>
    intro i p hp
    simp only [write_chars_loop]
    rw [ih (i + 1) _ (by simp; omega)]
    have e : (p.pos + 1).toNat = p.pos.toNat + 1 := by omega
    simp only [List.range'_succ, List.map_cons, putBytes, e, Nat.cast_add, Nat.cast_one]
    congr 1; omega

theorem write_chars_eq_put (p : Packet) (str : List Nat) (hp : 0 ≤ p.pos)
    (h0 : 0 ≤ p.maxlen) (h1 : p.maxlen ≤ 2147483647) (hs : str.length ≤ 2147483647) :
    write_chars p str str.length = put p str := by
  unfold write_chars put
  rw [wrapInt32_of_range _ (by omega) (by omega), write_chars_loop_eq str _ _ p hp]
  have e : (List.range' 0 str.length).map (fun j => str.getD j 0) = str := by
    apply List.ext_getElem
    · simp
    · intro n h1 h2
      simp at h1
      simp [List.getD_eq_getElem?_getD, List.getElem?_eq_getElem h1]
  simp only [Int.toNat_ofNat, e]
  by_cases hc : p.pos + str.length ≤ p.maxlen
  · rw [if_neg (by omega), if_pos hc]
  · rw [if_pos (by omega), if_neg hc]

theorem write_char_eq_put (p : Packet) (c : Nat) (hp : 0 ≤ p.pos)
    (h0 : 0 ≤ p.maxlen) (h1 : p.maxlen ≤ 2147483647) :
    write_char p c = put p [c] := by
  have := write_chars_eq_put p [c] hp h0 h1 (by simp)
  simpa [write_char] using this

theorem write_OpusHead_eq_put (p : Packet) (hp : 0 ≤ p.pos)
    (h0 : 0 ≤ p.maxlen) (h1 : p.maxlen ≤ 2147483647) :
    write_chars p OpusHead 8 = put p OpusHead := by
  have := write_chars_eq_put p OpusHead hp h0 h1 (by simp [OpusHead])
  simpa [OpusHead] using this

theorem write_uint16_eq_put (p : Packet) (v : Nat) (hp : 0 ≤ p.pos)
    (h0 : 0 ≤ p.maxlen) (h1 : p.maxlen ≤ 2147483647) :
    write_uint16 p v = put p [v % 256, v / 256 % 256] := by
  unfold write_uint16 put
  rw [wrapInt32_of_range _ (by omega) (by omega)]
  have e1 : (p.pos + 1).toNat = p.pos.toNat + 1 := by omega
  simp only [and_255, Nat.shiftRight_eq_div_pow, e1, putBytes, List.length_cons, List.length_nil]
  by_cases hc : p.pos + 2 ≤ p.maxlen
  · rw [if_neg (by omega), if_pos (by simpa using hc)]; simp
  · rw [if_pos (by omega), if_neg (by simpa using hc)]

theorem write_uint32_eq_put (p : Packet) (v : Nat) (hp : 0 ≤ p.pos)
    (h0 : 0 ≤ p.maxlen) (h1 : p.maxlen ≤ 2147483647) :
    write_uint32 p v =
      put p [v % 256, v / 256 % 256, v / 65536 % 256, v / 16777216 % 256] := by
  unfold write_uint32 put
  rw [wrapInt32_of_range _ (by omega) (by omega)]
  have e1 : (p.pos + 1).toNat = p.pos.toNat + 1 := by omega
  have e2 : (p.pos + 2).toNat = p.pos.toNat + 2 := by omega
  have e3 : (p.pos + 3).toNat = p.pos.toNat + 3 := by omega
  simp only [and_255, Nat.shiftRight_eq_div_pow, e1, e2, e3, putBytes, List.length_cons,
    List.length_nil]
  by_cases hc : p.pos + 4 ≤ p.maxlen
  · rw [if_neg (by omega), if_pos (by simpa using hc)]; simp
  · rw [if_pos (by omega), if_neg (by simpa using hc)]

/-! ## `opus_header_to_packet`: return value and bytes written -/

theorem write_char_wthen (d : List Nat) (len k : Int) (c : Nat) (rest : Packet → Int × Packet)
    (hk : 0 ≤ k) (h0 : 0 ≤ len) (h1 : len ≤ 2147483647) :
    wthen (write_char { data := d, maxlen := len, pos := k } c) rest =
      if k + 1 ≤ len then rest { data := putBytes d k.toNat [c], maxlen := len, pos := k + 1 }
      else (0, { data := d, maxlen := len, pos := k }) := by
  rw [write_char_eq_put _ _ hk h0 h1]
  unfold wthen put
  by_cases hc : k + 1 ≤ len <;> simp [hc]

theorem write_uint16_wthen (d : List Nat) (len k : Int) (v : Nat)
    (rest : Packet → Int × Packet) (hk : 0 ≤ k) (h0 : 0 ≤ len) (h1 : len ≤ 2147483647) :
    wthen (write_uint16 { data := d, maxlen := len, pos := k } v) rest =
      if k + 2 ≤ len then
        rest { data := putBytes d k.toNat [v % 256, v / 256 % 256], maxlen := len, pos := k + 2 }
      else (0, { data := d, maxlen := len, pos := k }) := by
  rw [write_uint16_eq_put _ _ hk h0 h1]
  unfold wthen put
  by_cases hc : k + 2 ≤ len <;> simp [hc]

theorem write_uint32_wthen (d : List Nat) (len k : Int) (v : Nat)
    (rest : Packet → Int × Packet) (hk : 0 ≤ k) (h0 : 0 ≤ len) (h1 : len ≤ 2147483647) :
    wthen (write_uint32 { data := d, maxlen := len, pos := k } v) rest =
      if k + 4 ≤ len then
        rest { data := putBytes d k.toNat
                 [v % 256, v / 256 % 256, v / 65536 % 256, v / 16777216 % 256],
               maxlen := len, pos := k + 4 }
      else (0, { data := d, maxlen := len, pos := k }) := by
  rw [write_uint32_eq_put _ _ hk h0 h1]
  unfold wthen put
  by_cases hc : k + 4 ≤ len <;> simp [hc]

theorem write_OpusHead_wthen (d : List Nat) (len k : Int) (rest : Packet → Int × Packet)
    (hk : 0 ≤ k) (h0 : 0 ≤ len) (h1 : len ≤ 2147483647) :
    wthen (write_chars { data := d, maxlen := len, pos := k } OpusHead 8) rest =
      if k + 8 ≤ len then rest { data := putBytes d k.toNat OpusHead, maxlen := len, pos := k + 8 }
      else (0, { data := d, maxlen := len, pos := k }) := by
  rw [write_OpusHead_eq_put _ hk h0 h1]
  unfold wthen put
  by_cases hc : k + 8 ≤ len <;> simp [hc, OpusHead]

theorem tableBytes_succ (h : OpusHeader) (n i : Nat) :
    tableBytes h (n + 1) i = entryBytes h i ++ tableBytes h n (i + 1) := rfl

/-- The mapping loop of the serializer is one bounds check on the whole table
followed by the stores, when there is room for the table, and fails otherwise. -/
theorem to_packet_loop_spec (h : OpusHeader) : ∀ (n i : Nat) (d : List Nat) (len k : Int),
    0 ≤ k → k ≤ len → len ≤ 2147483647 →
    (k + (tableBytes h n i).length ≤ len →
        to_packet_loop n i { data := d, maxlen := len, pos := k } h =
          (1, { data := putBytes d k.toNat (tableBytes h n i), maxlen := len,
                pos := k + (tableBytes h n i).length })) ∧
    (len < k + (tableBytes h n i).length →
        (to_packet_loop n i { data := d, maxlen := len, pos := k } h).1 = 0) := by
  intro n
  induction n with
  | zero =>
    intro i d len k hk h0 h1
    constructor
    · intro _
      simp [to_packet_loop, tableBytes, putBytes]
    · intro hlt
      simp only [tableBytes, List.length_nil] at hlt
      omega
  | succ n ih =>
    intro i d len k hk h0 h1
    simp (disch := omega) only [to_packet_loop, write_char_wthen]
    rw [tableBytes_succ, putBytes_append, List.length_append]
    by_cases cf : h.mapping i 0 = 1
    · have he : entryBytes h i = [1, h.mapping i 1, h.mapping i 2] := by simp [entryBytes, cf]
      have := ih (i + 1) (putBytes d k.toNat (entryBytes h i)) len (k + 1 + 1 + 1)
      have e1 : (k + 1).toNat = k.toNat + 1 := by omega
      have e2 : (k + 1 + 1).toNat = k.toNat + 1 + 1 := by omega
      have e3 : (k + 1 + 1 + 1).toNat = k.toNat + 3 := by omega
      simp only [he, cf, if_true, putBytes, e1, e2, e3, List.length_cons, List.length_nil] at this ⊢
      constructor
      · intro hle
        rw [if_pos (by omega), if_pos (by omega), if_pos (by omega)]
        rw [(this (by omega) (by omega) h1).1 (by omega)]
        simp only [Prod.mk.injEq, Packet.mk.injEq, true_and]
        push_cast; omega
      · intro hlt
        by_cases c0 : k + 1 ≤ len
        swap
        · rw [if_neg c0]
        rw [if_pos c0]
        by_cases c1 : k + 1 + 1 ≤ len
        swap
        · rw [if_neg c1]
        rw [if_pos c1]
        by_cases c2 : k + 1 + 1 + 1 ≤ len
        swap
        · rw [if_neg c2]
        rw [if_pos c2]
        exact (this (by omega) (by omega) h1).2 (by push_cast at hlt ⊢; omega)
    · have he : entryBytes h i = [h.mapping i 0, h.mapping i 1] := by simp [entryBytes, cf]
      have := ih (i + 1) (putBytes d k.toNat (entryBytes h i)) len (k + 1 + 1)
      have e1 : (k + 1).toNat = k.toNat + 1 := by omega
      have e2 : (k + 1 + 1).toNat = k.toNat + 2 := by omega
      simp only [he, cf, if_false, putBytes, e1, e2, List.length_cons, List.length_nil] at this ⊢
      constructor
      · intro hle
        rw [if_pos (by omega), if_pos (by omega)]
        rw [(this (by omega) (by omega) h1).1 (by omega)]
        simp only [Prod.mk.injEq, Packet.mk.injEq, true_and]
        push_cast; omega
      · intro hlt
        by_cases c0 : k + 1 ≤ len
        swap
        · rw [if_neg c0]
        rw [if_pos c0]
        by_cases c1 : k + 1 + 1 ≤ len
        swap
        · rw [if_neg c1]
        rw [if_pos c1]
        exact (this (by omega) (by omega) h1).2 (by push_cast at hlt ⊢; omega)

theorem emitted_length (h : OpusHeader) :
    (emitted h).length =
      if h.multi_stream = 0 then 17 else 18 + (tableBytes h h.nb_streams 0).length := by
  unfold emitted OpusHead
  by_cases hm : h.multi_stream = 0
  · simp [hm]
  · simp [hm]; omega

theorem putBytes_cons (d : List Nat) (k b : Nat) (bs : List Nat) :
    putBytes d k (b :: bs) = putBytes (putBytes d k [b]) (k + 1) bs := rfl

/-- With room for the whole packet every write succeeds: the return value is
the number of bytes stored and the buffer holds them from offset 0. -/
theorem to_packet_run_ok (h : OpusHeader) (buf : List Nat) (len : Int)
    (h1 : len ≤ 2147483647) (hs : ((emitted h).length : Int) ≤ len) :
    opus_header_to_packet_run h buf len =
      (((emitted h).length : Int),
        { data := putBytes buf 0 (emitted h), maxlen := len, pos := (emitted h).length }) := by
  have hl := emitted_length h
  have h0 : 0 ≤ len := by omega
  have c17 : (17 : Int) ≤ len := by split at hl <;> omega
  unfold opus_header_to_packet_run
  simp only []
  rw [write_OpusHead_wthen _ _ _ _ (by omega) h0 h1, if_pos (by omega),
    write_char_wthen _ _ _ _ _ (by omega) h0 h1, if_pos (by omega),
    write_uint32_wthen _ _ _ _ _ (by omega) h0 h1, if_pos (by omega),
    write_char_wthen _ _ _ _ _ (by omega) h0 h1, if_pos (by omega),
    write_char_wthen _ _ _ _ _ (by omega) h0 h1, if_pos (by omega),
    write_uint16_wthen _ _ _ _ _ (by omega) h0 h1, if_pos (by omega)]
  by_cases hm : h.multi_stream = 0
  · simp only [hm, if_true] at hl
    simp only [ne_eq, hm, not_true_eq_false, if_false, hl]
    simp [emitted, hm, OpusHead, putBytes]
  · simp only [hm, if_false] at hl
    simp only [ne_eq, hm, not_false_eq_true, if_true]
    rw [write_char_wthen _ _ _ _ _ (by omega) h0 h1, if_pos (by omega)]
    rw [(to_packet_loop_spec h h.nb_streams 0 _ len _ (by omega) (by omega) h1).1 (by omega)]
    simp only [wthen, one_ne_zero, if_false, hl]
    simp only [Prod.mk.injEq, Packet.mk.injEq, true_and]
    refine ⟨by push_cast; omega, ?_, by push_cast; omega⟩
    have e : emitted h = OpusHead ++ ([0] ++ ([u32 h.input_sample_rate % 256, u32 h.input_sample_rate / 256 % 256,
          u32 h.input_sample_rate / 65536 % 256, u32 h.input_sample_rate / 16777216 % 256] ++
        ([u8 h.multi_stream] ++ ([u8 h.channels] ++ ([u16 h.preskip % 256, u16 h.preskip / 256 % 256]
          ++ ([u8 h.nb_streams] ++ tableBytes h h.nb_streams 0)))))) := by
      simp [emitted, hm]
    rw [e]
    simp only [putBytes_append]
    simp [OpusHead]

/-- Without room for the whole packet some write fails and the function returns 0. -/
theorem to_packet_run_fail (h : OpusHeader) (buf : List Nat) (len : Int) (h0 : 0 ≤ len)
    (h1 : len ≤ 2147483647) (hs : len < ((emitted h).length : Int)) :
    (opus_header_to_packet_run h buf len).1 = 0 := by
  have hl := emitted_length h
  unfold opus_header_to_packet_run
  simp only []
  rw [write_OpusHead_wthen _ _ _ _ (by omega) h0 h1]
  by_cases c1 : (0 : Int) + 8 ≤ len
  swap
  · rw [if_neg c1]
  rw [if_pos c1, write_char_wthen _ _ _ _ _ (by omega) h0 h1]
  by_cases c2 : (0 : Int) + 8 + 1 ≤ len
  swap
  · rw [if_neg c2]
  rw [if_pos c2, write_uint32_wthen _ _ _ _ _ (by omega) h0 h1]
  by_cases c3 : (0 : Int) + 8 + 1 + 4 ≤ len
  swap
  · rw [if_neg c3]
  rw [if_pos c3, write_char_wthen _ _ _ _ _ (by omega) h0 h1]
  by_cases c4 : (0 : Int) + 8 + 1 + 4 + 1 ≤ len
  swap
  · rw [if_neg c4]
  rw [if_pos c4, write_char_wthen _ _ _ _ _ (by omega) h0 h1]
  by_cases c5 : (0 : Int) + 8 + 1 + 4 + 1 + 1 ≤ len
  swap
  · rw [if_neg c5]
  rw [if_pos c5, write_uint16_wthen _ _ _ _ _ (by omega) h0 h1]
  by_cases c6 : (0 : Int) + 8 + 1 + 4 + 1 + 1 + 2 ≤ len
  swap
  · rw [if_neg c6]
  rw [if_pos c6]
  by_cases hm : h.multi_stream = 0
  · simp only [hm, if_true] at hl
    omega
  · simp only [hm, if_false] at hl
    simp only [ne_eq, hm, not_false_eq_true, if_true]
    rw [write_char_wthen _ _ _ _ _ (by omega) h0 h1]
    by_cases c7 : (0 : Int) + 8 + 1 + 4 + 1 + 1 + 2 + 1 ≤ len
    swap
    · rw [if_neg c7]
    rw [if_pos c7]
    have := (to_packet_loop_spec h h.nb_streams 0
      (putBytes
        (putBytes
          (putBytes
            (putBytes
              (putBytes (putBytes (putBytes buf (0 : Int).toNat OpusHead) ((0 : Int) + 8).toNat [0])
                ((0 : Int) + 8 + 1).toNat
                [u32 h.input_sample_rate % 256, u32 h.input_sample_rate / 256 % 256,
                  u32 h.input_sample_rate / 65536 % 256,
                  u32 h.input_sample_rate / 16777216 % 256])
              ((0 : Int) + 8 + 1 + 4).toNat [u8 h.multi_stream])
            ((0 : Int) + 8 + 1 + 4 + 1).toNat [u8 h.channels])
          ((0 : Int) + 8 + 1 + 4 + 1 + 1).toNat [u16 h.preskip % 256, u16 h.preskip / 256 % 256])
        ((0 : Int) + 8 + 1 + 4 + 1 + 1 + 2).toNat [u8 h.nb_streams])
      len ((0 : Int) + 8 + 1 + 4 + 1 + 1 + 2 + 1) (by omega) (by omega) h1).2
      (by omega)
    simp only [wthen, this, if_true]

theorem tableBytes_length (h : OpusHeader) : ∀ (n i : Nat),
    (tableBytes h n i).length =
      ((List.range' i n).map (fun j => if h.mapping j 0 = 1 then 3 else 2)).sum := by
  intro n
  induction n with
  | zero => intro i; rfl
  | succ n ih =>
    intro i
    rw [tableBytes_succ, List.length_append, ih (i + 1), List.range'_succ]
    simp only [List.map_cons, List.sum_cons, entryBytes]
    split <;> simp

theorem emitted_length_eq_packetSize (h : OpusHeader) : (emitted h).length = packetSize h := by
  rw [emitted_length, packetSize, tableBytes_length, List.range_eq_range']

theorem emitted_eq_wireLayout (h : OpusHeader) (hr : h.inRange) : emitted h = wireLayout h := by
  obtain ⟨_, h2, h3, h4, h5, h6, _⟩ := hr
  unfold emitted wireLayout u8 u16 u32
  rw [Nat.mod_eq_of_lt h2, Nat.mod_eq_of_lt h3, Nat.mod_eq_of_lt h4, Nat.mod_eq_of_lt h5,
    Nat.mod_eq_of_lt h6]

/-! ## The read cursor -/

theorem read_char_eq (d : List Nat) (len k : Int) (c : Nat)
    (h0 : 0 ≤ len) (h1 : len ≤ 2147483647) :
    read_char { data := d, maxlen := len, pos := k } c =
      if k + 1 ≤ len then (1, { data := d, maxlen := len, pos := k + 1 }, d.getD k.toNat 0)
      else (0, { data := d, maxlen := len, pos := k }, c) := by
  unfold read_char read_chars
  simp only []
  rw [wrapInt32_of_range _ (by omega) (by omega)]
  by_cases hc : k + 1 ≤ len
  · rw [if_neg (by omega), if_pos hc]
    simp [read_chars_loop]
  · rw [if_pos (by omega), if_neg hc]
    simp

theorem read_uint16_eq (d : List Nat) (len k : Int) (v : Nat)
    (h0 : 0 ≤ len) (h1 : len ≤ 2147483647) :
    read_uint16 { data := d, maxlen := len, pos := k } v =
      ((if k + 2 ≤ len then
        (1, { data := d, maxlen := len, pos := k + 2 },
          u16 (u16 (d.getD k.toNat 0) ||| (u16 (d.getD (k + 1).toNat 0) <<< 8)))
      else (0, { data := d, maxlen := len, pos := k }, v)) : Int × ROPacket × Nat) := by
  unfold read_uint16
  simp only []
  rw [wrapInt32_of_range _ (by omega) (by omega)]
  by_cases hc : k + 2 ≤ len
  · rw [if_neg (by omega), if_pos hc]
  · rw [if_pos (by omega), if_neg hc]

theorem read_uint32_eq (d : List Nat) (len k : Int) (v : Nat)
    (h0 : 0 ≤ len) (h1 : len ≤ 2147483647) :
    read_uint32 { data := d, maxlen := len, pos := k } v =
      ((if k + 4 ≤ len then
        (1, { data := d, maxlen := len, pos := k + 4 },
          u32 (u32 (u32 (u32 (d.getD k.toNat 0) ||| u32 (u32 (d.getD (k + 1).toNat 0) <<< 8)) |||
            u32 (u32 (d.getD (k + 2).toNat 0) <<< 16)) |||
            u32 (u32 (d.getD (k + 3).toNat 0) <<< 24)))
      else (0, { data := d, maxlen := len, pos := k }, v)) : Int × ROPacket × Nat) := by
  unfold read_uint32
  simp only []
  rw [wrapInt32_of_range _ (by omega) (by omega)]
  by_cases hc : k + 4 ≤ len
  · rw [if_neg (by omega), if_pos hc]
  · rw [if_pos (by omega), if_neg hc]

theorem read_char_rthen (d : List Nat) (len k : Int) (c : Nat) (h : OpusHeader)
    (rest : ROPacket → Nat → Int × ROPacket × OpusHeader)
    (h0 : 0 ≤ len) (h1 : len ≤ 2147483647) :
    rthen (read_char { data := d, maxlen := len, pos := k } c) h rest =
      if k + 1 ≤ len then rest { data := d, maxlen := len, pos := k + 1 } (d.getD k.toNat 0)
      else (0, { data := d, maxlen := len, pos := k }, h) := by
  rw [read_char_eq _ _ _ _ h0 h1]
  unfold rthen
  by_cases hc : k + 1 ≤ len <;> simp [hc]

theorem read_uint16_rthen (d : List Nat) (len k : Int) (v : Nat) (h : OpusHeader)
    (rest : ROPacket → Nat → Int × ROPacket × OpusHeader)
    (h0 : 0 ≤ len) (h1 : len ≤ 2147483647) :
    rthen (read_uint16 { data := d, maxlen := len, pos := k } v) h rest =
      if k + 2 ≤ len then
        rest { data := d, maxlen := len, pos := k + 2 }
          (u16 (u16 (d.getD k.toNat 0) ||| (u16 (d.getD (k + 1).toNat 0) <<< 8)))
      else (0, { data := d, maxlen := len, pos := k }, h) := by
  rw [read_uint16_eq _ _ _ _ h0 h1]
  unfold rthen
  by_cases hc : k + 2 ≤ len <;> simp [hc]

theorem read_uint32_rthen (d : List Nat) (len k : Int) (v : Nat) (h : OpusHeader)
    (rest : ROPacket → Nat → Int × ROPacket × OpusHeader)
    (h0 : 0 ≤ len) (h1 : len ≤ 2147483647) :
    rthen (read_uint32 { data := d, maxlen := len, pos := k } v) h rest =
      if k + 4 ≤ len then
        rest { data := d, maxlen := len, pos := k + 4 }
          (u32 (u32 (u32 (u32 (d.getD k.toNat 0) ||| u32 (u32 (d.getD (k + 1).toNat 0) <<< 8)) |||
            u32 (u32 (d.getD (k + 2).toNat 0) <<< 16)) |||
            u32 (u32 (d.getD (k + 3).toNat 0) <<< 24)))
      else (0, { data := d, maxlen := len, pos := k }, h) := by
  rw [read_uint32_eq _ _ _ _ h0 h1]
  unfold rthen
  by_cases hc : k + 4 ≤ len <;> simp [hc]

/-- The fixed fields take nine bytes: with fewer left the reads fail. -/
theorem parse_fields_short (d : List Nat) (len k : Int) (h : OpusHeader)
    (h0 : 0 ≤ len) (h1 : len ≤ 2147483647) (hs : len < k + 9) :
    (parse_fields { data := d, maxlen := len, pos := k } h).1 = 0 := by
  unfold parse_fields
  rw [read_char_rthen _ _ _ _ _ _ h0 h1]
  by_cases c1 : k + 1 ≤ len
  swap
  · rw [if_neg c1]
  rw [if_pos c1]
  rw [read_uint32_rthen _ _ _ _ _ _ h0 h1]
  by_cases c2 : k + 1 + 4 ≤ len
  swap
  · rw [if_neg c2]
  rw [if_pos c2]
  rw [read_char_rthen _ _ _ _ _ _ h0 h1]
  by_cases c3 : k + 1 + 4 + 1 ≤ len
  swap
  · rw [if_neg c3]
  rw [if_pos c3]
  rw [read_char_rthen _ _ _ _ _ _ h0 h1]
  by_cases c4 : k + 1 + 4 + 1 + 1 ≤ len
  swap
  · rw [if_neg c4]
  rw [if_pos c4]
  rw [read_uint16_rthen _ _ _ _ _ _ h0 h1]
  rw [if_neg (by omega)]

/-! ## The mapping loop of the parser, one iteration at a time -/

theorem setMapping_version (h : OpusHeader) (i j v : Nat) :
    (h.setMapping i j v).version = h.version := rfl

theorem setMapping_mapping (h : OpusHeader) (i j v r c : Nat) :
    (h.setMapping i j v).mapping r c = if r = i ∧ c = j then v else h.mapping r c := rfl

theorem setMapping_flag (h : OpusHeader) (i a : Nat) :
    (h.setMapping i 0 a).mapping i 0 = a := by
  simp [OpusHeader.setMapping]

theorem setMapping_left (h : OpusHeader) (i a : Nat) :
    (h.setMapping i 0 a).mapping i 1 = h.mapping i 1 := by
  simp [OpusHeader.setMapping]

theorem setMapping_flag_left (h : OpusHeader) (i a l : Nat) :
    ((h.setMapping i 0 a).setMapping i 1 l).mapping i 0 = a := by
  simp [OpusHeader.setMapping]

theorem setMapping_right (h : OpusHeader) (i a l : Nat) :
    ((h.setMapping i 0 a).setMapping i 1 l).mapping i 2 = h.mapping i 2 := by
  simp [OpusHeader.setMapping]

/-- One iteration of the mapping loop of the parser on a cursor at offset `k`. -/
theorem parse_mapping_loop_succ (n i : Nat) (b : List Nat) (len : Int) (k : Nat)
    (h : OpusHeader) (h0 : 0 ≤ len) (h1 : len ≤ 2147483647) :
    parse_mapping_loop (n + 1) i { data := b, maxlen := len, pos := (k : Int) } h =
      if ((k + 1 : Nat) : Int) ≤ len then
        if h.version = 0 ∧ b.getD k 0 > 1 then
          (0, { data := b, maxlen := len, pos := ((k + 1 : Nat) : Int) },
            h.setMapping i 0 (b.getD k 0))
        else if ((k + 2 : Nat) : Int) ≤ len then
          if b.getD k 0 = 1 then
            if ((k + 3 : Nat) : Int) ≤ len then
              parse_mapping_loop n (i + 1)
                { data := b, maxlen := len, pos := ((k + 3 : Nat) : Int) }
                (((h.setMapping i 0 (b.getD k 0)).setMapping i 1 (b.getD (k + 1) 0)).setMapping
                  i 2 (b.getD (k + 2) 0))
            else
              (0, { data := b, maxlen := len, pos := ((k + 2 : Nat) : Int) },
                (h.setMapping i 0 (b.getD k 0)).setMapping i 1 (b.getD (k + 1) 0))
          else
            parse_mapping_loop n (i + 1)
              { data := b, maxlen := len, pos := ((k + 2 : Nat) : Int) }
              ((h.setMapping i 0 (b.getD k 0)).setMapping i 1 (b.getD (k + 1) 0))
        else
          (0, { data := b, maxlen := len, pos := ((k + 1 : Nat) : Int) },
            h.setMapping i 0 (b.getD k 0))
      else (0, { data := b, maxlen := len, pos := (k : Int) }, h) := by
  have e1 : (k : Int) + 1 = ((k + 1 : Nat) : Int) := by push_cast; rfl
  have e2 : ((k + 1 : Nat) : Int) + 1 = ((k + 2 : Nat) : Int) := by push_cast; omega
  have e3 : ((k + 2 : Nat) : Int) + 1 = ((k + 3 : Nat) : Int) := by push_cast; omega
  rw [parse_mapping_loop, read_char_rthen _ _ _ _ _ _ h0 h1, e1]
  by_cases c1 : ((k + 1 : Nat) : Int) ≤ len
  swap
  · rw [if_neg c1, if_neg c1]
  rw [if_pos c1, if_pos c1]
  simp only [Int.toNat_ofNat, setMapping_version, setMapping_flag, setMapping_left]
  by_cases cv : h.version = 0 ∧ b.getD k 0 > 1
  · rw [if_pos cv, if_pos cv]
  rw [if_neg cv, if_neg cv, read_char_rthen _ _ _ _ _ _ h0 h1, e2]
  by_cases c2 : ((k + 2 : Nat) : Int) ≤ len
  swap
  · rw [if_neg c2, if_neg c2]
  rw [if_pos c2, if_pos c2]
  simp only [Int.toNat_ofNat, setMapping_flag_left, setMapping_right]
  by_cases cf : b.getD k 0 = 1
  swap
  · rw [if_neg cf, if_neg cf]
  rw [if_pos cf, if_pos cf, read_char_rthen _ _ _ _ _ _ h0 h1, e3]
  by_cases c3 : ((k + 3 : Nat) : Int) ≤ len
  swap
  · rw [if_neg c3, if_neg c3]
  rw [if_pos c3, if_pos c3]
  simp only [Int.toNat_ofNat]

theorem entryWidth_cases (b : List Nat) (k : Nat) : entryWidth b k = 2 ∨ entryWidth b k = 3 := by
  unfold entryWidth; split <;> simp

/-- An iteration that does not return early reads one whole entry and goes on
with the next one. -/
theorem parse_mapping_loop_step (n i : Nat) (b : List Nat) (len : Int) (k : Nat)
    (h : OpusHeader) (h0 : 0 ≤ len) (h1 : len ≤ 2147483647)
    (hw : ((k + entryWidth b k : Nat) : Int) ≤ len)
    (hf : ¬(h.version = 0 ∧ b.getD k 0 > 1)) :
    parse_mapping_loop (n + 1) i { data := b, maxlen := len, pos := (k : Int) } h =
      parse_mapping_loop n (i + 1)
        { data := b, maxlen := len, pos := ((k + entryWidth b k : Nat) : Int) }
        (afterEntry h i b k) := by
  rw [parse_mapping_loop_succ n i b len k h h0 h1]
  unfold entryWidth at hw ⊢
  unfold afterEntry
  by_cases cf : b.getD k 0 = 1
  · simp only [cf, if_true] at hw ⊢
    rw [if_pos (by omega), if_neg (by simp [cf]), if_pos (by omega), if_pos hw]
  · simp only [cf, if_false] at hw ⊢
    rw [if_pos (by omega), if_neg hf, if_pos hw]

/-- An iteration of a loop that ends with success has read one whole entry,
whose flag was acceptable. -/
theorem parse_mapping_loop_step_ok (n i : Nat) (b : List Nat) (len : Int) (k : Nat)
    (h : OpusHeader) (h0 : 0 ≤ len) (h1 : len ≤ 2147483647)
    (hok : (parse_mapping_loop (n + 1) i { data := b, maxlen := len, pos := (k : Int) } h).1 ≠ 0) :
    ((k + entryWidth b k : Nat) : Int) ≤ len ∧ ¬(h.version = 0 ∧ b.getD k 0 > 1) := by
  rw [parse_mapping_loop_succ n i b len k h h0 h1] at hok
  unfold entryWidth
  by_cases c1 : ((k + 1 : Nat) : Int) ≤ len
  swap
  · rw [if_neg c1] at hok; exact absurd rfl hok
  rw [if_pos c1] at hok
  by_cases cv : h.version = 0 ∧ b.getD k 0 > 1
  · rw [if_pos cv] at hok; exact absurd rfl hok
  rw [if_neg cv] at hok
  by_cases c2 : ((k + 2 : Nat) : Int) ≤ len
  swap
  · rw [if_neg c2] at hok; exact absurd rfl hok
  rw [if_pos c2] at hok
  by_cases cf : b.getD k 0 = 1
  · rw [if_pos cf] at hok ⊢
    by_cases c3 : ((k + 3 : Nat) : Int) ≤ len
    · exact ⟨c3, cv⟩
    · rw [if_neg c3] at hok; exact absurd rfl hok
  · rw [if_neg cf]
    exact ⟨c2, cv⟩

theorem sameScalars_refl (h : OpusHeader) : sameScalars h h := by
  simp [sameScalars]

theorem sameScalars_trans (h h' h'' : OpusHeader) (a : sameScalars h h')
    (c : sameScalars h' h'') : sameScalars h h'' := by
  obtain ⟨a1, a2, a3, a4, a5, a6⟩ := a
  obtain ⟨c1, c2, c3, c4, c5, c6⟩ := c
  exact ⟨c1.trans a1, c2.trans a2, c3.trans a3, c4.trans a4, c5.trans a5, c6.trans a6⟩

theorem sameScalars_afterEntry (h : OpusHeader) (i : Nat) (b : List Nat) (k : Nat) :
    sameScalars h (afterEntry h i b k) := by
  unfold afterEntry sameScalars
  split <;> simp [OpusHeader.setMapping]

theorem afterEntry_other_row (h : OpusHeader) (i : Nat) (b : List Nat) (k r c : Nat)
    (hr : r ≠ i) : (afterEntry h i b k).mapping r c = h.mapping r c := by
  unfold afterEntry
  split <;> simp [OpusHeader.setMapping, hr]

theorem afterEntry_flag (h : OpusHeader) (i : Nat) (b : List Nat) (k : Nat) :
    (afterEntry h i b k).mapping i 0 = b.getD k 0 := by
  unfold afterEntry
  split <;> simp [OpusHeader.setMapping]

theorem afterEntry_left (h : OpusHeader) (i : Nat) (b : List Nat) (k : Nat) :
    (afterEntry h i b k).mapping i 1 = b.getD (k + 1) 0 := by
  unfold afterEntry
  split <;> simp [OpusHeader.setMapping]

theorem afterEntry_right (h : OpusHeader) (i : Nat) (b : List Nat) (k : Nat)
    (hf : b.getD k 0 = 1) : (afterEntry h i b k).mapping i 2 = b.getD (k + 2) 0 := by
  unfold afterEntry
  rw [if_pos hf]
  simp [OpusHeader.setMapping]

theorem entryOffset_succ (b : List Nat) (k j : Nat) :
    entryOffset b k (j + 1) = entryOffset b (k + entryWidth b k) j := rfl

/-- What a mapping loop that ends with success has done: the cursor stands
after the last entry, inside the input; only the mapping rows `i, i+1, ...` of
the header were written, each with the bytes of its entry; and for version 0
every flag byte met was 0 or 1. -/
theorem parse_mapping_loop_ok (b : List Nat) (len : Int) (h0 : 0 ≤ len)
    (h1 : len ≤ 2147483647) : ∀ (n i k : Nat) (h : OpusHeader), (k : Int) ≤ len →
    (parse_mapping_loop n i { data := b, maxlen := len, pos := (k : Int) } h).1 ≠ 0 →
    (parse_mapping_loop n i { data := b, maxlen := len, pos := (k : Int) } h).1 = 1 ∧
    (parse_mapping_loop n i { data := b, maxlen := len, pos := (k : Int) } h).2.1 =
      { data := b, maxlen := len, pos := ((entryOffset b k n : Nat) : Int) } ∧
    ((entryOffset b k n : Nat) : Int) ≤ len ∧
    sameScalars h (parse_mapping_loop n i { data := b, maxlen := len, pos := (k : Int) } h).2.2 ∧
    (∀ r c, r < i →
      (parse_mapping_loop n i { data := b, maxlen := len, pos := (k : Int) } h).2.2.mapping r c =
        h.mapping r c) ∧
    (∀ j, j < n →
      (parse_mapping_loop n i { data := b, maxlen := len, pos := (k : Int) } h).2.2.mapping
          (i + j) 0 = b.getD (entryOffset b k j) 0 ∧
      (parse_mapping_loop n i { data := b, maxlen := len, pos := (k : Int) } h).2.2.mapping
          (i + j) 1 = b.getD (entryOffset b k j + 1) 0 ∧
      (b.getD (entryOffset b k j) 0 = 1 →
        (parse_mapping_loop n i { data := b, maxlen := len, pos := (k : Int) } h).2.2.mapping
          (i + j) 2 = b.getD (entryOffset b k j + 2) 0)) ∧
    (h.version = 0 → ∀ j, j < n → b.getD (entryOffset b k j) 0 ≤ 1) := by
  intro n
  induction n with
  | zero =>
    intro i k h hk _
    simp only [parse_mapping_loop, entryOffset]
    refine ⟨trivial, trivial, hk, sameScalars_refl h, fun _ _ _ => trivial, ?_, ?_⟩
    · intro j hj; omega
    · intro _ j hj; omega
  | succ n ih =>
    intro i k h hk hok
    obtain ⟨hw, hf⟩ := parse_mapping_loop_step_ok n i b len k h h0 h1 hok
    rw [parse_mapping_loop_step n i b len k h h0 h1 hw hf] at hok ⊢
    obtain ⟨g1, g2, g3, g4, g5, g6, g7⟩ :=
      ih (i + 1) (k + entryWidth b k) (afterEntry h i b k) hw hok
    have hv : (afterEntry h i b k).version = h.version := (sameScalars_afterEntry h i b k).1
    refine ⟨g1, ?_, ?_, ?_, ?_, ?_, ?_⟩
    · rw [g2, entryOffset_succ]
    · rw [entryOffset_succ]; exact g3
    · exact sameScalars_trans _ _ _ (sameScalars_afterEntry h i b k) g4
    · intro r c hr
      rw [g5 r c (by omega), afterEntry_other_row h i b k r c (by omega)]
    · intro j hj
      cases j with
      | zero =>
        simp only [Nat.add_zero, entryOffset]
        rw [g5 i 0 (by omega), g5 i 1 (by omega), g5 i 2 (by omega), afterEntry_flag,
          afterEntry_left]
        exact ⟨rfl, rfl, fun hfl => afterEntry_right h i b k hfl⟩
      | succ j =>
        have := g6 j (by omega)
        rw [show i + (j + 1) = i + 1 + j by omega, entryOffset_succ]
        exact this
    · intro hv0 j hj
      cases j with
      | zero =>
        simp only [entryOffset]
        by_contra hc
        exact hf ⟨hv0, by omega⟩
      | succ j =>
        rw [entryOffset_succ]
        exact g7 (by rw [hv]; exact hv0) j (by omega)

/-! ## Reading a longer input -/

theorem getD_append_left (b t : List Nat) (j : Nat) (hj : j < b.length) :
    (b ++ t).getD j 0 = b.getD j 0 :=
  List.getD_append b t 0 j hj

theorem entryWidth_append (b t : List Nat) (k : Nat) (hk : k < b.length) :
    entryWidth (b ++ t) k = entryWidth b k := by
  unfold entryWidth
  rw [getD_append_left b t k hk]

theorem afterEntry_append (h : OpusHeader) (i : Nat) (b t : List Nat) (k : Nat)
    (hk : k + entryWidth b k ≤ b.length) :
    afterEntry h i (b ++ t) k = afterEntry h i b k := by
  unfold entryWidth at hk
  unfold afterEntry
  by_cases cf : b.getD k 0 = 1
  · simp only [cf, if_true] at hk
    rw [getD_append_left b t k (by omega), getD_append_left b t (k + 1) (by omega),
      getD_append_left b t (k + 2) (by omega)]
  · simp only [cf, if_false] at hk
    rw [getD_append_left b t k (by omega), getD_append_left b t (k + 1) (by omega),
      if_neg cf, if_neg cf]

/-- A mapping loop that ends with success on an input does the same on every
longer input that starts with it. -/
theorem parse_mapping_loop_append (b t : List Nat) (len len' : Int) (h0 : 0 ≤ len)
    (hb : len ≤ (b.length : Int)) (hl : len ≤ len') (h1 : len' ≤ 2147483647) :
    ∀ (n i k : Nat) (h : OpusHeader),
    (parse_mapping_loop n i { data := b, maxlen := len, pos := (k : Int) } h).1 ≠ 0 →
    parse_mapping_loop n i { data := b ++ t, maxlen := len', pos := (k : Int) } h =
      (1, { data := b ++ t, maxlen := len',
            pos := (parse_mapping_loop n i { data := b, maxlen := len, pos := (k : Int) } h).2.1.pos },
        (parse_mapping_loop n i { data := b, maxlen := len, pos := (k : Int) } h).2.2) := by
  intro n
  induction n with
  | zero =>
    intro i k h _
    simp only [parse_mapping_loop]
  | succ n ih =>
    intro i k h hok
    obtain ⟨hw, hf⟩ := parse_mapping_loop_step_ok n i b len k h h0 (by omega) hok
    have hwb : k + entryWidth b k ≤ b.length := by
      have : ((k + entryWidth b k : Nat) : Int) ≤ (b.length : Int) := by omega
      exact_mod_cast this
    have hk : k < b.length := by
      rcases entryWidth_cases b k with e | e <;> omega
    have hw' : ((k + entryWidth (b ++ t) k : Nat) : Int) ≤ len' := by
      rw [entryWidth_append b t k hk]; omega
    have hf' : ¬(h.version = 0 ∧ (b ++ t).getD k 0 > 1) := by
      rw [getD_append_left b t k hk]; exact hf
    rw [parse_mapping_loop_step n i b len k h h0 (by omega) hw hf] at hok ⊢
    rw [parse_mapping_loop_step n i (b ++ t) len' k h (by omega) h1 hw' hf',
      entryWidth_append b t k hk, afterEntry_append h i b t k hwb]
    exact ih (i + 1) (k + entryWidth b k) (afterEntry h i b k) hok

/-! ## The fixed fields -/

/-- With nine bytes left the fixed-field reads succeed; the mapping table, if
any, is read next. -/
theorem parse_fields_eq (d : List Nat) (len : Int) (k : Nat) (h : OpusHeader)
    (h0 : 0 ≤ len) (h1 : len ≤ 2147483647) (hk : ((k + 9 : Nat) : Int) ≤ len) :
    parse_fields { data := d, maxlen := len, pos := (k : Int) } h =
      if d.getD (k + 5) 0 ≠ 0 then
        if ((k + 10 : Nat) : Int) ≤ len then
          parse_mapping_loop (d.getD (k + 9) 0) 0
            { data := d, maxlen := len, pos := ((k + 10 : Nat) : Int) }
            { fixedFields h d k with nb_streams := d.getD (k + 9) 0 }
        else (0, { data := d, maxlen := len, pos := ((k + 9 : Nat) : Int) }, fixedFields h d k)
      else (1, { data := d, maxlen := len, pos := ((k + 9 : Nat) : Int) }, fixedFields h d k) := by
  have e1 : ((k : Int) + 1).toNat = k + 1 := by omega
  have e2 : ((k : Int) + 1 + 1).toNat = k + 2 := by omega
  have e3 : ((k : Int) + 1 + 2).toNat = k + 3 := by omega
  have e4 : ((k : Int) + 1 + 3).toNat = k + 4 := by omega
  have e5 : ((k : Int) + 1 + 4).toNat = k + 5 := by omega
  have e6 : ((k : Int) + 1 + 4 + 1).toNat = k + 6 := by omega
  have e7 : ((k : Int) + 1 + 4 + 1 + 1).toNat = k + 7 := by omega
  have e8 : ((k : Int) + 1 + 4 + 1 + 1 + 1).toNat = k + 8 := by omega
  have e9 : ((k : Int) + 1 + 4 + 1 + 1 + 2).toNat = k + 9 := by omega
  have f9 : (k : Int) + 1 + 4 + 1 + 1 + 2 = ((k + 9 : Nat) : Int) := by push_cast; omega
  have f10 : (k : Int) + 1 + 4 + 1 + 1 + 2 + 1 = ((k + 10 : Nat) : Int) := by push_cast; omega
  unfold parse_fields
  rw [read_char_rthen _ _ _ _ _ _ h0 h1, if_pos (by omega),
    read_uint32_rthen _ _ _ _ _ _ h0 h1, if_pos (by omega),
    read_char_rthen _ _ _ _ _ _ h0 h1, if_pos (by omega),
    read_char_rthen _ _ _ _ _ _ h0 h1, if_pos (by omega),
    read_uint16_rthen _ _ _ _ _ _ h0 h1, if_pos (by omega)]
  simp only [Int.toNat_ofNat, e1, e2, e3, e4, e5, e6, e7, e8, e9]
  by_cases hm : d.getD (k + 5) 0 = 0
  · simp only [ne_eq, hm, not_true_eq_false, if_false, f9]
    simp only [fixedFields, hm]
  · simp only [ne_eq, hm, not_false_eq_true, if_true]
    rw [read_char_rthen _ _ _ _ _ _ h0 h1]
    simp only [e9, f9, f10]
    rfl

/-! ## The tag -/

theorem strcmp_cons (a c : Nat) (as cs : List Nat) :
    strcmp (a :: as) (c :: cs) = 0 ↔ a = c ∧ (a = 0 ∨ strcmp as cs = 0) := by
  rw [strcmp]
  by_cases hac : a = c
  · subst hac
    by_cases ha : a = 0
    · simp [ha]
    · simp [ha]
  · have : (a : Int) - (c : Int) ≠ 0 := by omega
    simp [hac, this]

/-- The comparison of the local array with the literal succeeds exactly when
the first eight characters are the tag. -/
theorem strcmp_tag (a0 a1 a2 a3 a4 a5 a6 a7 : Nat) :
    strcmp [a0, a1, a2, a3, a4, a5, a6, a7, 0] OpusHeadZ = 0 ↔
      [a0, a1, a2, a3, a4, a5, a6, a7] = OpusHead := by
  simp only [OpusHeadZ, OpusHead, List.cons_append, List.nil_append, strcmp_cons]
  constructor
  · rintro ⟨r0, h0⟩
    rcases h0 with h0 | ⟨r1, h0⟩
    · omega
    rcases h0 with h0 | ⟨r2, h0⟩
    · omega
    rcases h0 with h0 | ⟨r3, h0⟩
    · omega
    rcases h0 with h0 | ⟨r4, h0⟩
    · omega
    rcases h0 with h0 | ⟨r5, h0⟩
    · omega
    rcases h0 with h0 | ⟨r6, h0⟩
    · omega
    rcases h0 with h0 | ⟨r7, h0⟩
    · omega
    simp [r0, r1, r2, r3, r4, r5, r6, r7]
  · intro he
    simp only [List.cons.injEq, and_true] at he
    obtain ⟨r0, r1, r2, r3, r4, r5, r6, r7⟩ := he
    subst r0 r1 r2 r3 r4 r5 r6 r7
    simp

theorem take8_eq (b : List Nat) (h8 : 8 ≤ b.length) :
    b.take 8 = [b.getD 0 0, b.getD 1 0, b.getD 2 0, b.getD 3 0, b.getD 4 0, b.getD 5 0,
      b.getD 6 0, b.getD 7 0] := by
  rcases b with _ | ⟨x0, b⟩
  · simp at h8
  rcases b with _ | ⟨x1, b⟩
  · simp at h8
  rcases b with _ | ⟨x2, b⟩
  · simp at h8
  rcases b with _ | ⟨x3, b⟩
  · simp at h8
  rcases b with _ | ⟨x4, b⟩
  · simp at h8
  rcases b with _ | ⟨x5, b⟩
  · simp at h8
  rcases b with _ | ⟨x6, b⟩
  · simp at h8
  rcases b with _ | ⟨x7, b⟩
  · simp at h8
  simp

theorem tag_array (str0 : Nat → Nat) :
    ((List.range 9).map str0).set 8 0 =
      [str0 0, str0 1, str0 2, str0 3, str0 4, str0 5, str0 6, str0 7, 0] := rfl

/-- The eight-byte read of the tag into the nine-cell local array. -/
theorem read_tag_eq (b : List Nat) (len : Int) (s0 s1 s2 s3 s4 s5 s6 s7 s8 : Nat)
    (h0 : 0 ≤ len) (h1 : len ≤ 2147483647) :
    read_chars { data := b, maxlen := len, pos := 0 } [s0, s1, s2, s3, s4, s5, s6, s7, s8] 8 =
      ((if 8 ≤ len then
        (1, { data := b, maxlen := len, pos := 8 },
          [b.getD 0 0, b.getD 1 0, b.getD 2 0, b.getD 3 0, b.getD 4 0, b.getD 5 0,
            b.getD 6 0, b.getD 7 0, s8])
      else (0, { data := b, maxlen := len, pos := 0 }, [s0, s1, s2, s3, s4, s5, s6, s7, s8])) :
        Int × ROPacket × List Nat) := by
  unfold read_chars
  simp only []
  rw [wrapInt32_of_range _ (by omega) (by omega)]
  by_cases hc : 8 ≤ len
  · rw [if_neg (by omega), if_pos hc]
    simp [read_chars_loop]
  · rw [if_pos (by omega), if_neg hc]

/-! ## `opus_header_parse` as a whole -/

/-- An input shorter than the tag is rejected, whatever the local array held:
either the comparison fails, or the reads start over at offset 0 and run out
of input before the ninth byte. -/
theorem parse_run_short (b : List Nat) (len : Int) (h : OpusHeader) (str0 : Nat → Nat)
    (h0 : 0 ≤ len) (hs : len < 8) :
    (opus_header_parse_run b len h str0).1 = 0 := by
  unfold opus_header_parse_run
  simp only []
  rw [tag_array, read_tag_eq _ _ _ _ _ _ _ _ _ _ _ h0 (by omega),
    if_neg (show ¬ (8 : Int) ≤ len by omega)]
  by_cases hc : strcmp [str0 0, str0 1, str0 2, str0 3, str0 4, str0 5, str0 6, str0 7, 0]
      OpusHeadZ ≠ 0
  · rw [if_pos hc]
  · rw [if_neg hc]
    have := parse_fields_short b len 0 h h0 (by omega) (by omega)
    rw [if_pos this]

/-- An input of eight bytes or more that does not start with the tag is rejected. -/
theorem parse_run_bad_tag (b : List Nat) (len : Int) (h : OpusHeader) (str0 : Nat → Nat)
    (h1 : len ≤ 2147483647) (h8 : 8 ≤ len) (hb : 8 ≤ b.length) (ht : b.take 8 ≠ OpusHead) :
    (opus_header_parse_run b len h str0).1 = 0 := by
  unfold opus_header_parse_run
  simp only []
  rw [tag_array, read_tag_eq _ _ _ _ _ _ _ _ _ _ _ (by omega) h1, if_pos h8]
  rw [take8_eq b hb] at ht
  have hc := (not_congr (strcmp_tag _ _ _ _ _ _ _ _)).2 ht
  rw [if_pos hc]

/-- On an input that starts with the tag, the fields are read from offset 8 and
the trailing-data test follows. -/
theorem parse_run_tag (b : List Nat) (len : Int) (h : OpusHeader) (str0 : Nat → Nat)
    (h1 : len ≤ 2147483647) (h8 : 8 ≤ len) (hb : 8 ≤ b.length) (ht : b.take 8 = OpusHead) :
    opus_header_parse_run b len h str0 =
      if (parse_fields { data := b, maxlen := len, pos := ((8 : Nat) : Int) } h).1 = 0 then
        (0, (parse_fields { data := b, maxlen := len, pos := ((8 : Nat) : Int) } h).2.1,
          (parse_fields { data := b, maxlen := len, pos := ((8 : Nat) : Int) } h).2.2)
      else if (parse_fields { data := b, maxlen := len, pos := ((8 : Nat) : Int) } h).2.2.version = 0 ∧
          (parse_fields { data := b, maxlen := len, pos := ((8 : Nat) : Int) } h).2.1.pos ≠ len then
        (0, (parse_fields { data := b, maxlen := len, pos := ((8 : Nat) : Int) } h).2.1,
          (parse_fields { data := b, maxlen := len, pos := ((8 : Nat) : Int) } h).2.2)
      else
        (1, (parse_fields { data := b, maxlen := len, pos := ((8 : Nat) : Int) } h).2.1,
          (parse_fields { data := b, maxlen := len, pos := ((8 : Nat) : Int) } h).2.2) := by
  unfold opus_header_parse_run
  simp only []
  rw [tag_array, read_tag_eq _ _ _ _ _ _ _ _ _ _ _ (by omega) h1, if_pos h8]
  rw [take8_eq b hb] at ht
  have hc := (strcmp_tag _ _ _ _ _ _ _ _).2 ht
  rw [if_neg (by rw [hc]; simp)]
  rfl

/-- A successful parse has read the tag and the nine bytes of the fixed fields. -/
theorem parse_run_ok_imp (b : List Nat) (h : OpusHeader) (str0 : Nat → Nat)
    (h1 : (b.length : Int) ≤ 2147483647)
    (hok : (opus_header_parse_run b (b.length : Int) h str0).1 ≠ 0) :
    17 ≤ b.length ∧ b.take 8 = OpusHead ∧
    (parse_fields { data := b, maxlen := (b.length : Int), pos := ((8 : Nat) : Int) } h).1 ≠ 0 := by
  have h8 : 8 ≤ b.length := by
    by_contra hc
    exact hok (parse_run_short b _ h str0 (by omega) (by omega))
  have ht : b.take 8 = OpusHead := by
    by_contra hc
    exact hok (parse_run_bad_tag b _ h str0 h1 (by omega) h8 hc)
  rw [parse_run_tag b _ h str0 h1 (by omega) h8 ht] at hok
  have hf : (parse_fields { data := b, maxlen := (b.length : Int), pos := ((8 : Nat) : Int) } h).1
      ≠ 0 := by
    intro hc
    rw [if_pos hc] at hok
    exact hok rfl
  refine ⟨?_, ht, hf⟩
  by_contra hc
  exact hf (parse_fields_short b _ 8 h (by omega) h1 (by push_cast; omega))

/-- What a successful run of the field reads from offset 8 has done. -/
theorem parse_fields_ok (b : List Nat) (len : Int) (h : OpusHeader)
    (h1 : len ≤ 2147483647) (h17 : 17 ≤ len)
    (hok : (parse_fields { data := b, maxlen := len, pos := ((8 : Nat) : Int) } h).1 ≠ 0) :
    (parse_fields { data := b, maxlen := len, pos := ((8 : Nat) : Int) } h).1 = 1 ∧
    sameScalars { fixedFields h b 8 with
        nb_streams := if b.getD 13 0 = 0 then h.nb_streams else b.getD 17 0 }
      (parse_fields { data := b, maxlen := len, pos := ((8 : Nat) : Int) } h).2.2 ∧
    (b.getD 13 0 = 0 →
      (parse_fields { data := b, maxlen := len, pos := ((8 : Nat) : Int) } h).2.1 =
        { data := b, maxlen := len, pos := 17 }) ∧
    (b.getD 13 0 ≠ 0 →
      (parse_fields { data := b, maxlen := len, pos := ((8 : Nat) : Int) } h).2.1 =
        { data := b, maxlen := len, pos := ((entryOffset b 18 (b.getD 17 0) : Nat) : Int) } ∧
      ((entryOffset b 18 (b.getD 17 0) : Nat) : Int) ≤ len ∧
      (∀ j, j < b.getD 17 0 →
        (parse_fields { data := b, maxlen := len, pos := ((8 : Nat) : Int) } h).2.2.mapping j 0 =
          b.getD (entryOffset b 18 j) 0 ∧
        (parse_fields { data := b, maxlen := len, pos := ((8 : Nat) : Int) } h).2.2.mapping j 1 =
          b.getD (entryOffset b 18 j + 1) 0 ∧
        (b.getD (entryOffset b 18 j) 0 = 1 →
          (parse_fields { data := b, maxlen := len, pos := ((8 : Nat) : Int) } h).2.2.mapping j 2 =
            b.getD (entryOffset b 18 j + 2) 0)) ∧
      (b.getD 8 0 = 0 → ∀ j, j < b.getD 17 0 → b.getD (entryOffset b 18 j) 0 ≤ 1)) := by
  have hk : (((8 : Nat) + 9 : Nat) : Int) ≤ len := by push_cast; omega
  rw [parse_fields_eq b len 8 h (by omega) h1 hk] at hok ⊢
  simp only [Nat.reduceAdd] at hok ⊢
  by_cases hm : b.getD 13 0 = 0
  · simp only [ne_eq, hm, not_true_eq_false, if_false, if_true]
    refine ⟨trivial, ?_, ?_, ?_⟩
    · simp [sameScalars, fixedFields]
    · intro _; rfl
    · intro hc; exact hc.elim
  · simp only [ne_eq, hm, not_false_eq_true, if_true, if_false] at hok ⊢
    by_cases c18 : ((18 : Nat) : Int) ≤ len
    swap
    · rw [if_neg c18] at hok; exact absurd rfl hok
    rw [if_pos c18] at hok ⊢
    obtain ⟨g1, g2, g3, g4, _, g6, g7⟩ :=
      parse_mapping_loop_ok b len (by omega) h1 (b.getD 17 0) 0 18 _ c18 hok
    refine ⟨g1, g4, ?_, ?_⟩
    · intro hc; exact hc.elim
    · intro _
      refine ⟨g2, g3, ?_, ?_⟩
      · intro j hj
        have := g6 j hj
        simpa using this
      · intro hv j hj
        exact g7 hv j hj

theorem fixedFields_append (h : OpusHeader) (b t : List Nat) (k : Nat)
    (hk : k + 9 ≤ b.length) : fixedFields h (b ++ t) k = fixedFields h b k := by
  unfold fixedFields
  rw [getD_append_left b t k (by omega), getD_append_left b t (k + 1) (by omega),
    getD_append_left b t (k + 2) (by omega), getD_append_left b t (k + 3) (by omega),
    getD_append_left b t (k + 4) (by omega), getD_append_left b t (k + 5) (by omega),
    getD_append_left b t (k + 6) (by omega), getD_append_left b t (k + 7) (by omega),
    getD_append_left b t (k + 8) (by omega)]

/-- Field reads that end with success on an input do the same on every longer
input that starts with it. -/
theorem parse_fields_append (b t : List Nat) (len len' : Int) (h : OpusHeader)
    (h0 : 0 ≤ len) (hb : len ≤ (b.length : Int)) (hl : len ≤ len') (h1 : len' ≤ 2147483647)
    (hok : (parse_fields { data := b, maxlen := len, pos := ((8 : Nat) : Int) } h).1 ≠ 0) :
    parse_fields { data := b ++ t, maxlen := len', pos := ((8 : Nat) : Int) } h =
      (1, { data := b ++ t, maxlen := len',
            pos := (parse_fields { data := b, maxlen := len, pos := ((8 : Nat) : Int) } h).2.1.pos },
        (parse_fields { data := b, maxlen := len, pos := ((8 : Nat) : Int) } h).2.2) := by
  have h17 : 17 ≤ len := by
    by_contra hc
    exact hok (parse_fields_short b len _ h h0 (by omega) (by push_cast; omega))
  have hk : (((8 : Nat) + 9 : Nat) : Int) ≤ len := by push_cast; omega
  have hk' : (((8 : Nat) + 9 : Nat) : Int) ≤ len' := by push_cast; omega
  have hbl : 17 ≤ b.length := by omega
  rw [parse_fields_eq b len 8 h h0 (by omega) hk] at hok ⊢
  rw [parse_fields_eq (b ++ t) len' 8 h (by omega) h1 hk',
    fixedFields_append h b t 8 (by omega), getD_append_left b t (8 + 5) (by omega)]
  by_cases hm : b.getD (8 + 5) 0 = 0
  · simp only [ne_eq, hm, not_true_eq_false, if_false]
  · simp only [ne_eq, hm, not_false_eq_true, if_true] at hok ⊢
    by_cases c18 : (((8 : Nat) + 10 : Nat) : Int) ≤ len
    swap
    · rw [if_neg c18] at hok; exact absurd rfl hok
    rw [if_pos c18] at hok ⊢
    rw [if_pos (by omega), getD_append_left b t (8 + 9) (by push_cast at c18; omega)]
    exact parse_mapping_loop_append b t len len' h0 hb hl h1 _ _ _ _ hok

/-- Whether the mapping loop ends with success, and where it leaves the cursor,
depends on the header only through its version. -/
theorem parse_mapping_loop_indep (b : List Nat) (len : Int) (h0 : 0 ≤ len)
    (h1 : len ≤ 2147483647) : ∀ (n i i' k : Nat) (h h' : OpusHeader),
    h.version = h'.version →
    (parse_mapping_loop n i { data := b, maxlen := len, pos := (k : Int) } h).1 =
      (parse_mapping_loop n i' { data := b, maxlen := len, pos := (k : Int) } h').1 ∧
    (parse_mapping_loop n i { data := b, maxlen := len, pos := (k : Int) } h).2.1 =
      (parse_mapping_loop n i' { data := b, maxlen := len, pos := (k : Int) } h').2.1 := by
  intro n
  induction n with
  | zero => intro i i' k h h' _; exact ⟨rfl, rfl⟩
  | succ n ih =>
    intro i i' k h h' hv
    rw [parse_mapping_loop_succ n i b len k h h0 h1,
      parse_mapping_loop_succ n i' b len k h' h0 h1, hv]
    by_cases c1 : ((k + 1 : Nat) : Int) ≤ len
    swap
    · rw [if_neg c1, if_neg c1]; exact ⟨rfl, rfl⟩
    rw [if_pos c1, if_pos c1]
    by_cases cv : h'.version = 0 ∧ b.getD k 0 > 1
    · rw [if_pos cv, if_pos cv]; exact ⟨rfl, rfl⟩
    rw [if_neg cv, if_neg cv]
    by_cases c2 : ((k + 2 : Nat) : Int) ≤ len
    swap
    · rw [if_neg c2, if_neg c2]; exact ⟨rfl, rfl⟩
    rw [if_pos c2, if_pos c2]
    by_cases cf : b.getD k 0 = 1
    · rw [if_pos cf, if_pos cf]
      by_cases c3 : ((k + 3 : Nat) : Int) ≤ len
      · rw [if_pos c3, if_pos c3]
        exact ih _ _ _ _ _ hv
      · rw [if_neg c3, if_neg c3]; exact ⟨rfl, rfl⟩
    · rw [if_neg cf, if_neg cf]
      exact ih _ _ _ _ _ hv

/-- Whether the field reads end with success, and where they leave the cursor,
does not depend on the caller's header. -/
theorem parse_fields_indep (b : List Nat) (len : Int) (h h' : OpusHeader)
    (h0 : 0 ≤ len) (h1 : len ≤ 2147483647) :
    (parse_fields { data := b, maxlen := len, pos := ((8 : Nat) : Int) } h).1 =
      (parse_fields { data := b, maxlen := len, pos := ((8 : Nat) : Int) } h').1 ∧
    ((parse_fields { data := b, maxlen := len, pos := ((8 : Nat) : Int) } h).1 ≠ 0 →
      (parse_fields { data := b, maxlen := len, pos := ((8 : Nat) : Int) } h).2.1 =
        (parse_fields { data := b, maxlen := len, pos := ((8 : Nat) : Int) } h').2.1) := by
  by_cases h17 : 17 ≤ len
  swap
  · rw [parse_fields_short b len _ h h0 h1 (by push_cast; omega),
      parse_fields_short b len _ h' h0 h1 (by push_cast; omega)]
    exact ⟨rfl, fun hc => absurd rfl hc⟩
  have hk : (((8 : Nat) + 9 : Nat) : Int) ≤ len := by push_cast; omega
  rw [parse_fields_eq b len 8 h h0 h1 hk, parse_fields_eq b len 8 h' h0 h1 hk]
  by_cases hm : b.getD (8 + 5) 0 = 0
  · simp only [ne_eq, hm, not_true_eq_false, if_false, not_false_eq_true, true_and,
      one_ne_zero, implies_true]
  · simp only [ne_eq, hm, not_false_eq_true, if_true]
    by_cases c18 : (((8 : Nat) + 10 : Nat) : Int) ≤ len
    swap
    · simp only [if_neg c18, not_true_eq_false, true_and, false_implies]
    simp only [if_pos c18]
    obtain ⟨e1, e2⟩ := parse_mapping_loop_indep b len h0 h1 (b.getD (8 + 9) 0) 0 0 (8 + 10)
      { fixedFields h b 8 with nb_streams := b.getD (8 + 9) 0 }
      { fixedFields h' b 8 with nb_streams := b.getD (8 + 9) 0 } rfl
    exact ⟨e1, fun _ => e2⟩

/-- The version the field reads store is the byte at offset 8. -/
theorem parse_fields_version (b : List Nat) (len : Int) (h : OpusHeader)
    (h0 : 0 ≤ len) (h1 : len ≤ 2147483647)
    (hok : (parse_fields { data := b, maxlen := len, pos := ((8 : Nat) : Int) } h).1 ≠ 0) :
    (parse_fields { data := b, maxlen := len, pos := ((8 : Nat) : Int) } h).2.2.version =
      b.getD 8 0 := by
  have h17 : 17 ≤ len := by
    by_contra hc
    exact hok (parse_fields_short b len _ h h0 h1 (by push_cast; omega))
  exact (parse_fields_ok b len h h1 h17 hok).2.1.1

/-- The return code of the parser does not depend on what the caller's header
or the local array held before the call. -/
theorem parse_run_indep (b : List Nat) (len : Int) (h h' : OpusHeader) (str0 str0' : Nat → Nat)
    (h0 : 0 ≤ len) (h1 : len ≤ 2147483647) (hb : len ≤ (b.length : Int)) :
    (opus_header_parse_run b len h str0).1 = (opus_header_parse_run b len h' str0').1 := by
  by_cases h8 : 8 ≤ len
  swap
  · rw [parse_run_short b len h str0 h0 (by omega), parse_run_short b len h' str0' h0 (by omega)]
  have hb8 : 8 ≤ b.length := by omega
  by_cases ht : b.take 8 = OpusHead
  swap
  · rw [parse_run_bad_tag b len h str0 h1 h8 hb8 ht, parse_run_bad_tag b len h' str0' h1 h8 hb8 ht]
  rw [parse_run_tag b len h str0 h1 h8 hb8 ht, parse_run_tag b len h' str0' h1 h8 hb8 ht]
  obtain ⟨e1, e2⟩ := parse_fields_indep b len h h' h0 h1
  by_cases hf : (parse_fields { data := b, maxlen := len, pos := ((8 : Nat) : Int) } h).1 = 0
  · rw [if_pos hf, if_pos (e1 ▸ hf)]
  · have hf' : (parse_fields { data := b, maxlen := len, pos := ((8 : Nat) : Int) } h').1 ≠ 0 :=
      e1 ▸ hf
    rw [if_neg hf, if_neg hf', parse_fields_version b len h h0 h1 hf,
      parse_fields_version b len h' h0 h1 hf', e2 hf]
    by_cases c : b.getD 8 0 = 0 ∧
        (parse_fields { data := b, maxlen := len, pos := ((8 : Nat) : Int) } h').2.1.pos ≠ len
    · rw [if_pos c, if_pos c]
    · rw [if_neg c, if_neg c]

/-! ## Facts about the concrete inputs -/

theorem exampleHeader_inRange : exampleHeader.inRange := by
  refine ⟨by decide, by decide, by decide, by decide, by decide, by decide, ?_⟩
  intro i j
  show exampleMapping i j < 256
  unfold exampleMapping
  split <;> decide

/-! ## Properties of `opus_header_to_packet` -/

/-- C2. For a capacity `len` that is a non-negative `int`, `opus_header_to_packet`
returns `packetSize h` (17 for family 0, else 18 plus 3 per entry with flag 1
and 2 per other entry among the first `nb_streams`) when `len` is at least that
size, and returns 0 when `len` is smaller; the size is positive, so a successful
return is never 0. -/
theorem to_packet_return_value (h : OpusHeader) (buf : List Nat) (len : Int)
    (h0 : 0 ≤ len) (h1 : len ≤ 2147483647) :
    0 < packetSize h ∧
    ((packetSize h : Int) ≤ len → (opus_header_to_packet h buf len).1 = (packetSize h : Int)) ∧
    (len < (packetSize h : Int) → (opus_header_to_packet h buf len).1 = 0) := by
  have hs := emitted_length_eq_packetSize h
  refine ⟨?_, ?_, ?_⟩
  · rw [← hs, emitted_length]; split <;> omega
  · intro hle
    unfold opus_header_to_packet
    simp only []
    rw [to_packet_run_ok h buf len h1 (by rw [hs]; exact hle), hs]
  · intro hlt
    unfold opus_header_to_packet
    simp only []
    exact to_packet_run_fail h buf len h0 h1 (by rw [hs]; exact hlt)

/-- Witness of C2: the multistream example with capacity 30. -/
theorem to_packet_return_value_witness :
    (0 : Int) ≤ 30 ∧ (30 : Int) ≤ 2147483647 ∧
    (0 < packetSize exampleHeader ∧
    ((packetSize exampleHeader : Int) ≤ 30 →
      (opus_header_to_packet exampleHeader exampleBuffer 30).1 = (packetSize exampleHeader : Int)) ∧
    ((30 : Int) < (packetSize exampleHeader : Int) →
      (opus_header_to_packet exampleHeader exampleBuffer 30).1 = 0)) :=
  ⟨by decide, by decide,
    to_packet_return_value exampleHeader exampleBuffer 30 (by decide) (by decide)⟩

/-- C3. When `opus_header_to_packet` succeeds on a header whose fields hold
values of their declared widths, into a buffer that really has the declared
capacity, the bytes it returns as written are exactly the wire layout: tag,
version byte 0 whatever `h.version` is, sample rate least significant byte
first, family, channel count, pre-skip low byte first and, for a nonzero
family, the stream count and the entries (flag, left, and right only for flag 1). -/
theorem to_packet_wire_layout (h : OpusHeader) (buf : List Nat) (len : Int)
    (hr : h.inRange) (h0 : 0 ≤ len) (h1 : len ≤ 2147483647) (hb : len ≤ (buf.length : Int))
    (hok : (opus_header_to_packet h buf len).1 ≠ 0) :
    (opus_header_to_packet h buf len).2.take (opus_header_to_packet h buf len).1.toNat =
      wireLayout h := by
  have hle : ((emitted h).length : Int) ≤ len := by
    by_contra hc
    exact hok (to_packet_run_fail h buf len h0 h1 (by omega))
  unfold opus_header_to_packet
  simp only []
  rw [to_packet_run_ok h buf len h1 hle]
  simp only [Int.toNat_ofNat]
  have := take_putBytes (emitted h) buf 0 (by omega)
  simp only [Nat.zero_add, List.take_zero, List.nil_append] at this
  rw [this, emitted_eq_wireLayout h hr]

/-- Witness of C3: the multistream example written into a 30-byte buffer. -/
theorem to_packet_wire_layout_witness :
    exampleHeader.inRange ∧ (0 : Int) ≤ 30 ∧ (30 : Int) ≤ 2147483647 ∧
    (30 : Int) ≤ (exampleBuffer.length : Int) ∧
    (opus_header_to_packet exampleHeader exampleBuffer 30).1 ≠ 0 ∧
    (opus_header_to_packet exampleHeader exampleBuffer 30).2.take
        (opus_header_to_packet exampleHeader exampleBuffer 30).1.toNat =
      wireLayout exampleHeader :=
  ⟨exampleHeader_inRange, by decide, by decide, by decide, by decide,
    to_packet_wire_layout exampleHeader exampleBuffer 30 exampleHeader_inRange (by decide)
      (by decide) (by decide) (by decide)⟩

/-! ## Properties of `opus_header_parse` -/

theorem getD_lt_of_bytes (b : List Nat) (hb : ∀ x ∈ b, x < 256) (j : Nat) : b.getD j 0 < 256 := by
  rw [List.getD_eq_getElem?_getD]
  by_cases hj : j < b.length
  · rw [List.getElem?_eq_getElem hj]
    exact hb _ (List.getElem_mem hj)
  · rw [List.getElem?_eq_none (by omega)]
    decide

/-- On an input that starts with the tag the parser returns the cursor and the
header the field reads left. -/
theorem parse_run_tag_snd (b : List Nat) (len : Int) (h : OpusHeader) (str0 : Nat → Nat)
    (h1 : len ≤ 2147483647) (h8 : 8 ≤ len) (hb : 8 ≤ b.length) (ht : b.take 8 = OpusHead) :
    (opus_header_parse_run b len h str0).2 =
      (parse_fields { data := b, maxlen := len, pos := ((8 : Nat) : Int) } h).2 := by
  rw [parse_run_tag b len h str0 h1 h8 hb ht]
  split
  · rfl
  · split <;> rfl

/-- A successful parse passed the trailing-data test. -/
theorem parse_run_ok_final (b : List Nat) (len : Int) (h : OpusHeader) (str0 : Nat → Nat)
    (h1 : len ≤ 2147483647) (h8 : 8 ≤ len) (hb : 8 ≤ b.length) (ht : b.take 8 = OpusHead)
    (hok : (opus_header_parse_run b len h str0).1 ≠ 0) :
    (opus_header_parse_run b len h str0).1 = 1 ∧
    ¬((parse_fields { data := b, maxlen := len, pos := ((8 : Nat) : Int) } h).2.2.version = 0 ∧
      (parse_fields { data := b, maxlen := len, pos := ((8 : Nat) : Int) } h).2.1.pos ≠ len) := by
  rw [parse_run_tag b len h str0 h1 h8 hb ht] at hok ⊢
  split at hok
  · exact absurd rfl hok
  · rename_i hf
    rw [if_neg hf]
    split at hok
    · exact absurd rfl hok
    · rename_i hc
      rw [if_neg hc]
      exact ⟨rfl, hc⟩

/-- Field reads that pass the trailing-data test make the parse succeed. -/
theorem parse_run_of_fields (b : List Nat) (len : Int) (h : OpusHeader) (str0 : Nat → Nat)
    (h1 : len ≤ 2147483647) (h8 : 8 ≤ len) (hb : 8 ≤ b.length) (ht : b.take 8 = OpusHead)
    (hf : (parse_fields { data := b, maxlen := len, pos := ((8 : Nat) : Int) } h).1 ≠ 0)
    (hc : ¬((parse_fields { data := b, maxlen := len, pos := ((8 : Nat) : Int) } h).2.2.version = 0 ∧
      (parse_fields { data := b, maxlen := len, pos := ((8 : Nat) : Int) } h).2.1.pos ≠ len)) :
    (opus_header_parse_run b len h str0).1 = 1 := by
  rw [parse_run_tag b len h str0 h1 h8 hb ht, if_neg hf, if_neg hc]

/-- Field reads that fail the trailing-data test make the parse fail. -/
theorem parse_run_of_trailing (b : List Nat) (len : Int) (h : OpusHeader) (str0 : Nat → Nat)
    (h1 : len ≤ 2147483647) (h8 : 8 ≤ len) (hb : 8 ≤ b.length) (ht : b.take 8 = OpusHead)
    (hc : (parse_fields { data := b, maxlen := len, pos := ((8 : Nat) : Int) } h).2.2.version = 0 ∧
      (parse_fields { data := b, maxlen := len, pos := ((8 : Nat) : Int) } h).2.1.pos ≠ len) :
    (opus_header_parse_run b len h str0).1 = 0 := by
  rw [parse_run_tag b len h str0 h1 h8 hb ht]
  by_cases hf : (parse_fields { data := b, maxlen := len, pos := ((8 : Nat) : Int) } h).1 = 0
  · rw [if_pos hf]
  · rw [if_neg hf, if_pos hc]

/-- Successful field reads leave the cursor inside the input. -/
theorem parse_fields_pos_le (b : List Nat) (len : Int) (h : OpusHeader)
    (h0 : 0 ≤ len) (h1 : len ≤ 2147483647)
    (hok : (parse_fields { data := b, maxlen := len, pos := ((8 : Nat) : Int) } h).1 ≠ 0) :
    (parse_fields { data := b, maxlen := len, pos := ((8 : Nat) : Int) } h).2.1.pos ≤ len := by
  have h17 : 17 ≤ len := by
    by_contra hc
    exact hok (parse_fields_short b len _ h h0 h1 (by push_cast; omega))
  obtain ⟨_, _, g3, g4⟩ := parse_fields_ok b len h h1 h17 hok
  by_cases hm : b.getD 13 0 = 0
  · rw [g3 hm]; exact h17
  · rw [(g4 hm).1]; exact (g4 hm).2.1

theorem take8_append (b t : List Nat) (h8 : 8 ≤ b.length) : (b ++ t).take 8 = b.take 8 :=
  List.take_append_of_le_length h8

/-- C4. Whenever `opus_header_parse` succeeds on a sequence of bytes `b`, the
header it leaves has `version = b[8]`, `input_sample_rate = b[9] + 2^8 b[10] +
2^16 b[11] + 2^24 b[12]`, `multi_stream = b[13]`, `channels = b[14]`,
`preskip = b[15] + 2^8 b[16]` and, when `b[13]` is nonzero, `nb_streams = b[17]`
and row `i` of the mapping holds the flag byte, the left channel and (for flag
1) the right channel of the `i`-th entry, the entries lying one after the other
from offset 18 on. -/
theorem parse_decodes_fields (b : List Nat) (h : OpusHeader) (str0 : Nat → Nat)
    (hlen : b.length ≤ 2147483647) (hbytes : ∀ x ∈ b, x < 256)
    (hok : (opus_header_parse b (b.length : Int) h str0).1 ≠ 0) :
    (opus_header_parse b (b.length : Int) h str0).2.version = b.getD 8 0 ∧
    (opus_header_parse b (b.length : Int) h str0).2.input_sample_rate =
      b.getD 9 0 + 2 ^ 8 * b.getD 10 0 + 2 ^ 16 * b.getD 11 0 + 2 ^ 24 * b.getD 12 0 ∧
    (opus_header_parse b (b.length : Int) h str0).2.multi_stream = b.getD 13 0 ∧
    (opus_header_parse b (b.length : Int) h str0).2.channels = b.getD 14 0 ∧
    (opus_header_parse b (b.length : Int) h str0).2.preskip =
      b.getD 15 0 + 2 ^ 8 * b.getD 16 0 ∧
    (b.getD 13 0 ≠ 0 →
      (opus_header_parse b (b.length : Int) h str0).2.nb_streams = b.getD 17 0 ∧
      ∀ i, i < b.getD 17 0 →
        (opus_header_parse b (b.length : Int) h str0).2.mapping i 0 =
          b.getD (entryOffset b 18 i) 0 ∧
        (opus_header_parse b (b.length : Int) h str0).2.mapping i 1 =
          b.getD (entryOffset b 18 i + 1) 0 ∧
        (b.getD (entryOffset b 18 i) 0 = 1 →
          (opus_header_parse b (b.length : Int) h str0).2.mapping i 2 =
            b.getD (entryOffset b 18 i + 2) 0)) := by
  have h1 : (b.length : Int) ≤ 2147483647 := by omega
  have hok' : (opus_header_parse_run b (b.length : Int) h str0).1 ≠ 0 := hok
  obtain ⟨h17, ht, hf⟩ := parse_run_ok_imp b h str0 h1 hok'
  have hsnd := parse_run_tag_snd b (b.length : Int) h str0 h1 (by omega) (by omega) ht
  have hh : (opus_header_parse b (b.length : Int) h str0).2 =
      (parse_fields { data := b, maxlen := (b.length : Int), pos := ((8 : Nat) : Int) } h).2.2 := by
    unfold opus_header_parse
    simp only []
    rw [hsnd]
  obtain ⟨_, ⟨s1, s2, s3, s4, s5, s6⟩, _, g4⟩ :=
    parse_fields_ok b (b.length : Int) h h1 (by omega) hf
  rw [hh]
  simp only [fixedFields, Nat.reduceAdd] at s1 s2 s3 s4 s5 s6
  refine ⟨s1, ?_, s3, s4, ?_, ?_⟩
  · rw [s2, le32_eq _ _ _ _ (getD_lt_of_bytes b hbytes _) (getD_lt_of_bytes b hbytes _)
      (getD_lt_of_bytes b hbytes _) (getD_lt_of_bytes b hbytes _)]
    norm_num
  · rw [s5, le16_eq _ _ (getD_lt_of_bytes b hbytes _) (getD_lt_of_bytes b hbytes _)]
    norm_num
  · intro hm
    refine ⟨?_, (g4 hm).2.2.1⟩
    rw [s6, if_neg hm]

/-- Witness of C4: the 23 bytes of the multistream example. -/
theorem parse_decodes_fields_witness :
    examplePacket.length ≤ 2147483647 ∧ (∀ x ∈ examplePacket, x < 256) ∧
    (opus_header_parse examplePacket (examplePacket.length : Int) staleHeader blankStr).1 ≠ 0 ∧
    (opus_header_parse examplePacket (examplePacket.length : Int) staleHeader blankStr).2.preskip =
      examplePacket.getD 15 0 + 2 ^ 8 * examplePacket.getD 16 0 :=
  ⟨by decide, by decide, by decide,
    (parse_decodes_fields examplePacket staleHeader blankStr (by decide) (by decide)
      (by decide)).2.2.2.2.1⟩

/-- C5. An input of at least eight bytes whose first eight bytes are not the
ASCII bytes of "OpusHead" is rejected by `opus_header_parse`, whatever follows
them (a zero byte among the eight is no exception). -/
theorem parse_rejects_bad_magic (b : List Nat) (h : OpusHeader) (str0 : Nat → Nat)
    (hlen : b.length ≤ 2147483647) (h8 : 8 ≤ b.length) (ht : b.take 8 ≠ OpusHead) :
    (opus_header_parse b (b.length : Int) h str0).1 = 0 :=
  parse_run_bad_tag b (b.length : Int) h str0 (by omega) (by omega) h8 ht

/-- Witness of C5: seventeen bytes whose tag has a zero byte in the middle, with
a local array that spelled the tag before the call. -/
theorem parse_rejects_bad_magic_witness :
    zeroTagPacket.length ≤ 2147483647 ∧ 8 ≤ zeroTagPacket.length ∧
    zeroTagPacket.take 8 ≠ OpusHead ∧
    (opus_header_parse zeroTagPacket (zeroTagPacket.length : Int) staleHeader tagStr).1 = 0 :=
  ⟨by decide, by decide, by decide,
    parse_rejects_bad_magic zeroTagPacket staleHeader tagStr (by decide) (by decide) (by decide)⟩

/-- An input of fewer than eight bytes, the empty one included, makes
`opus_header_parse` return 0 whatever the local tag array held before the call
(the return value only: where the failure is detected depends on that array). -/
theorem parse_rejects_truncated_tag (b : List Nat) (h : OpusHeader) (str0 : Nat → Nat)
    (hs : b.length < 8) :
    (opus_header_parse b (b.length : Int) h str0).1 = 0 :=
  parse_run_short b (b.length : Int) h str0 (by omega) (by omega)

/-- An instance of the rejection of short inputs: the first seven bytes of the
tag, with a local array that spelled the whole tag before the call. -/
theorem parse_rejects_truncated_tag_witness :
    (OpusHead.take 7).length < 8 ∧
    (opus_header_parse (OpusHead.take 7) ((OpusHead.take 7).length : Int) staleHeader tagStr).1
      = 0 :=
  ⟨by decide, parse_rejects_truncated_tag (OpusHead.take 7) staleHeader tagStr (by decide)⟩

/-- The parse of an input followed by more bytes, from a successful parse of
the input: the field reads end at the same offset with the same header. -/
theorem parse_fields_of_append (b t : List Nat) (h : OpusHeader) (str0 : Nat → Nat)
    (hlen : (b ++ t).length ≤ 2147483647)
    (hok : (opus_header_parse_run b (b.length : Int) h str0).1 ≠ 0) :
    17 ≤ b.length ∧ (b ++ t).take 8 = OpusHead ∧
    parse_fields { data := b ++ t, maxlen := ((b ++ t).length : Int), pos := ((8 : Nat) : Int) } h =
      (1, { data := b ++ t, maxlen := ((b ++ t).length : Int),
            pos := (opus_header_parse_run b (b.length : Int) h str0).2.1.pos },
        (opus_header_parse_run b (b.length : Int) h str0).2.2) := by
  have hl : (b ++ t).length = b.length + t.length := List.length_append b t
  have h1 : (b.length : Int) ≤ 2147483647 := by omega
  obtain ⟨h17, ht, hf⟩ := parse_run_ok_imp b h str0 h1 hok
  have hsnd := parse_run_tag_snd b (b.length : Int) h str0 h1 (by omega) (by omega) ht
  refine ⟨h17, ?_, ?_⟩
  · rw [take8_append b t (by omega)]; exact ht
  · rw [hsnd]
    exact parse_fields_append b t (b.length : Int) ((b ++ t).length : Int) h (by omega)
      (le_refl _) (by omega) (by omega) hf

/-- C8. For an input whose version byte is 0, `opus_header_parse` succeeds only
with the read cursor at the end of the input; and an input obtained by
appending one or more bytes to an accepted version-0 input is rejected,
whatever the caller's header and the local array hold at either call. -/
theorem parse_no_trailing_bytes_v0 (b t : List Nat) (h h' : OpusHeader)
    (str0 str0' : Nat → Nat) (hlen : (b ++ t).length ≤ 2147483647)
    (hv : b.getD 8 0 = 0)
    (hok : (opus_header_parse b (b.length : Int) h str0).1 ≠ 0) :
    (opus_header_parse_run b (b.length : Int) h str0).2.1.pos = (b.length : Int) ∧
    (t ≠ [] → (opus_header_parse (b ++ t) ((b ++ t).length : Int) h' str0').1 = 0) := by
  have hl : (b ++ t).length = b.length + t.length := List.length_append b t
  have h1 : (b.length : Int) ≤ 2147483647 := by omega
  have hok' : (opus_header_parse_run b (b.length : Int) h str0).1 ≠ 0 := hok
  obtain ⟨h17, ht, hf⟩ := parse_run_ok_imp b h str0 h1 hok'
  have hsnd := parse_run_tag_snd b (b.length : Int) h str0 h1 (by omega) (by omega) ht
  have hfin := (parse_run_ok_final b (b.length : Int) h str0 h1 (by omega) (by omega) ht hok').2
  have hver := parse_fields_version b (b.length : Int) h (by omega) h1 hf
  have hpos : (opus_header_parse_run b (b.length : Int) h str0).2.1.pos = (b.length : Int) := by
    rw [hsnd]
    by_contra hc
    exact hfin ⟨by rw [hver]; exact hv, hc⟩
  refine ⟨hpos, ?_⟩
  intro hne
  have htl : 0 < t.length := List.length_pos.2 hne
  obtain ⟨_, ht', hf'⟩ := parse_fields_of_append b t h str0 hlen hok'
  show (opus_header_parse_run (b ++ t) ((b ++ t).length : Int) h' str0').1 = 0
  rw [parse_run_indep (b ++ t) _ h' h str0' str0 (by omega) (by omega) (le_refl _)]
  apply parse_run_of_trailing (b ++ t) _ h str0 (by omega) (by omega) (by omega) ht'
  rw [hf']
  simp only []
  rw [hpos, hsnd, hver]
  exact ⟨hv, by omega⟩

/-- Witness of C8: the 17-byte version-0 packet, and the same followed by one byte. -/
theorem parse_no_trailing_bytes_v0_witness :
    (version0Packet ++ [99]).length ≤ 2147483647 ∧ version0Packet.getD 8 0 = 0 ∧
    (opus_header_parse version0Packet (version0Packet.length : Int) staleHeader blankStr).1 ≠ 0 ∧
    ((opus_header_parse_run version0Packet (version0Packet.length : Int) staleHeader
        blankStr).2.1.pos = (version0Packet.length : Int) ∧
     (([99] : List Nat) ≠ [] →
      (opus_header_parse (version0Packet ++ [99]) ((version0Packet ++ [99]).length : Int)
        exampleHeader tagStr).1 = 0)) :=
  ⟨by decide, by decide, by decide,
    parse_no_trailing_bytes_v0 version0Packet [99] staleHeader exampleHeader blankStr tagStr
      (by decide) (by decide) (by decide)⟩

/-- C9. When `opus_header_parse` succeeds on an input whose version byte is
nonzero, it also succeeds on that input followed by any bytes, and leaves the
same header. -/
theorem parse_tolerates_trailing_bytes (b t : List Nat) (h : OpusHeader) (str0 : Nat → Nat)
    (hlen : (b ++ t).length ≤ 2147483647) (hv : b.getD 8 0 ≠ 0)
    (hok : (opus_header_parse b (b.length : Int) h str0).1 ≠ 0) :
    (opus_header_parse (b ++ t) ((b ++ t).length : Int) h str0).1 = 1 ∧
    (opus_header_parse (b ++ t) ((b ++ t).length : Int) h str0).2 =
      (opus_header_parse b (b.length : Int) h str0).2 := by
  have hl : (b ++ t).length = b.length + t.length := List.length_append b t
  have h1 : (b.length : Int) ≤ 2147483647 := by omega
  have hok' : (opus_header_parse_run b (b.length : Int) h str0).1 ≠ 0 := hok
  obtain ⟨h17, ht, hf⟩ := parse_run_ok_imp b h str0 h1 hok'
  have hsnd := parse_run_tag_snd b (b.length : Int) h str0 h1 (by omega) (by omega) ht
  have hver := parse_fields_version b (b.length : Int) h (by omega) h1 hf
  obtain ⟨_, ht', hf'⟩ := parse_fields_of_append b t h str0 hlen hok'
  have hsnd' := parse_run_tag_snd (b ++ t) ((b ++ t).length : Int) h str0 (by omega) (by omega)
    (by omega) ht'
  constructor
  · show (opus_header_parse_run (b ++ t) ((b ++ t).length : Int) h str0).1 = 1
    apply parse_run_of_fields (b ++ t) _ h str0 (by omega) (by omega) (by omega) ht'
    · rw [hf']; exact one_ne_zero
    · rw [hf']
      simp only []
      rw [hsnd, hver]
      exact fun hc => hv hc.1
  · show (opus_header_parse_run (b ++ t) ((b ++ t).length : Int) h str0).2.2 =
      (opus_header_parse_run b (b.length : Int) h str0).2.2
    rw [hsnd', hf']

/-- Witness of C9: the 17-byte version-1 packet followed by two bytes. -/
theorem parse_tolerates_trailing_bytes_witness :
    (version1Packet ++ [5, 6]).length ≤ 2147483647 ∧ version1Packet.getD 8 0 ≠ 0 ∧
    (opus_header_parse version1Packet (version1Packet.length : Int) staleHeader blankStr).1 ≠ 0 ∧
    (opus_header_parse (version1Packet ++ [5, 6]) ((version1Packet ++ [5, 6]).length : Int)
      staleHeader blankStr).1 = 1 ∧
    (opus_header_parse (version1Packet ++ [5, 6]) ((version1Packet ++ [5, 6]).length : Int)
      staleHeader blankStr).2 =
      (opus_header_parse version1Packet (version1Packet.length : Int) staleHeader blankStr).2 :=
  ⟨by decide, by decide, by decide,
    parse_tolerates_trailing_bytes version1Packet [5, 6] staleHeader blankStr (by decide)
      (by decide) (by decide)⟩

/-- C10. An input with version byte 0 and a nonzero family byte in which one of
the first `b[17]` mapping entries has a flag byte other than 0 or 1 is rejected
by `opus_header_parse`; this holds with the correct tag as without it. -/
theorem parse_rejects_bad_flag (b : List Nat) (h : OpusHeader) (str0 : Nat → Nat) (i : Nat)
    (hlen : b.length ≤ 2147483647) (hv : b.getD 8 0 = 0)
    (hm : b.getD 13 0 ≠ 0) (hi : i < b.getD 17 0)
    (hflag : 1 < b.getD (entryOffset b 18 i) 0) :
    (opus_header_parse b (b.length : Int) h str0).1 = 0 := by
  by_contra hok
  have h1 : (b.length : Int) ≤ 2147483647 := by omega
  have hok' : (opus_header_parse_run b (b.length : Int) h str0).1 ≠ 0 := hok
  obtain ⟨h17, _, hf⟩ := parse_run_ok_imp b h str0 h1 hok'
  obtain ⟨_, _, _, g4⟩ := parse_fields_ok b (b.length : Int) h h1 (by omega) hf
  have := (g4 hm).2.2.2 hv i hi
  omega

/-- Witness of C10: a version-0 packet whose single mapping entry has flag byte 2. -/
theorem parse_rejects_bad_flag_witness :
    badFlagPacket.length ≤ 2147483647 ∧
    badFlagPacket.getD 8 0 = 0 ∧ badFlagPacket.getD 13 0 ≠ 0 ∧ 0 < badFlagPacket.getD 17 0 ∧
    1 < badFlagPacket.getD (entryOffset badFlagPacket 18 0) 0 ∧
    (opus_header_parse badFlagPacket (badFlagPacket.length : Int) staleHeader blankStr).1 = 0 :=
  ⟨by decide, by decide, by decide, by decide, by decide,
    parse_rejects_bad_flag badFlagPacket staleHeader blankStr 0 (by decide) (by decide)
      (by decide) (by decide) (by decide)⟩

/-- What the parser does on a short input when the local array spelled the tag
before the call: the failed tag read leaves the array as it was, the comparison
passes, the reads start over at offset 0 and store the first bytes of the input
into the caller's header, and the call fails at the pre-skip read, with the
cursor at offset 7. -/
theorem short_input_with_stale_tag :
    (opus_header_parse_run (OpusHead.take 7) 7 staleHeader tagStr).1 = 0 ∧
    (opus_header_parse_run (OpusHead.take 7) 7 staleHeader tagStr).2.1.pos = 7 ∧
    (opus_header_parse_run (OpusHead.take 7) 7 staleHeader tagStr).2.2.version = 79 ∧
    (opus_header_parse_run (OpusHead.take 7) 7 staleHeader blankStr).2.1.pos = 0 ∧
    (opus_header_parse_run (OpusHead.take 7) 7 staleHeader blankStr).2.2.version = 7 := by
  decide

/-- C7, counterexample. The 18 bytes made of the 17-byte version-1 packet and one
more byte are accepted, and so are their first 17 bytes: a truncation of an
accepted input that is accepted too. -/
theorem truncation_safety_counterexample :
    (opus_header_parse (version1Packet ++ [99]) ((version1Packet ++ [99]).length : Int)
      staleHeader blankStr).1 = 1 ∧
    17 < (version1Packet ++ [99]).length ∧
    (opus_header_parse ((version1Packet ++ [99]).take 17)
      (((version1Packet ++ [99]).take 17).length : Int) staleHeader blankStr).1 = 1 := by
  decide

/-- C7, amended. When `opus_header_parse` succeeds on an input, it fails on the
first `k` bytes of that input for every `k` smaller than the offset at which
its read cursor ended; and for an input whose version byte is 0 that offset is
the length of the input, so that every shorter prefix is rejected. -/
theorem truncation_safety_consumed (b : List Nat) (h h' : OpusHeader) (str0 str0' : Nat → Nat)
    (hlen : b.length ≤ 2147483647)
    (hok : (opus_header_parse b (b.length : Int) h str0).1 ≠ 0) :
    (b.getD 8 0 = 0 →
      (opus_header_parse_run b (b.length : Int) h str0).2.1.pos = (b.length : Int)) ∧
    (∀ k : Nat, (k : Int) < (opus_header_parse_run b (b.length : Int) h str0).2.1.pos →
      (opus_header_parse (b.take k) ((b.take k).length : Int) h' str0').1 = 0) := by
  have h1 : (b.length : Int) ≤ 2147483647 := by omega
  have hok' : (opus_header_parse_run b (b.length : Int) h str0).1 ≠ 0 := hok
  obtain ⟨h17, ht, hf⟩ := parse_run_ok_imp b h str0 h1 hok'
  have hsnd := parse_run_tag_snd b (b.length : Int) h str0 h1 (by omega) (by omega) ht
  have hfin := (parse_run_ok_final b (b.length : Int) h str0 h1 (by omega) (by omega) ht hok').2
  have hver := parse_fields_version b (b.length : Int) h (by omega) h1 hf
  have hple := parse_fields_pos_le b (b.length : Int) h (by omega) h1 hf
  constructor
  · intro hv
    rw [hsnd]
    by_contra hc
    exact hfin ⟨by rw [hver]; exact hv, hc⟩
  · intro k hk
    rw [hsnd] at hk
    have hkb : k < b.length := by omega
    have hkl : (b.take k).length = k := by rw [List.length_take]; omega
    show (opus_header_parse_run (b.take k) ((b.take k).length : Int) h' str0').1 = 0
    rw [parse_run_indep (b.take k) _ h' h str0' str0 (by omega) (by omega) (le_refl _)]
    by_contra hc
    have hsplit : b.take k ++ b.drop k = b := List.take_append_drop k b
    obtain ⟨h17', ht', hf'⟩ := parse_run_ok_imp (b.take k) h str0 (by omega) hc
    have hsnd' := parse_run_tag_snd (b.take k) ((b.take k).length : Int) h str0 (by omega)
      (by omega) (by omega) ht'
    have hple' := parse_fields_pos_le (b.take k) ((b.take k).length : Int) h (by omega)
      (by omega) hf'
    have happ := (parse_fields_of_append (b.take k) (b.drop k) h str0
      (by rw [hsplit]; exact hlen) hc).2.2
    rw [hsplit, hsnd'] at happ
    rw [happ] at hk
    simp only [] at hk
    omega

/-- Witness of C7, amended: the 23 bytes of the multistream example, cut to 22. -/
theorem truncation_safety_consumed_witness :
    examplePacket.length ≤ 2147483647 ∧
    (opus_header_parse examplePacket (examplePacket.length : Int) staleHeader blankStr).1 ≠ 0 ∧
    (opus_header_parse (examplePacket.take 22) ((examplePacket.take 22).length : Int)
      exampleHeader tagStr).1 = 0 :=
  ⟨by decide, by decide,
    (truncation_safety_consumed examplePacket staleHeader exampleHeader blankStr tagStr
      (by decide) (by decide)).2 22 (by decide)⟩

/-! ## Parsing what the serializer wrote -/

theorem getD_of_drop (b : List Nat) (k j : Nat) : (b.drop k).getD j 0 = b.getD (k + j) 0 := by
  simp [List.getD_eq_getElem?_getD, List.getElem?_drop]

theorem drop_append_facts (b xs ys : List Nat) (k : Nat) (hd : b.drop k = xs ++ ys)
    (hx : 0 < xs.length) :
    k + xs.length ≤ b.length ∧ b.drop (k + xs.length) = ys ∧
    ∀ j, b.getD (k + j) 0 = (xs ++ ys).getD j 0 := by
  have hl : (b.drop k).length = xs.length + ys.length := by rw [hd, List.length_append]
  rw [List.length_drop] at hl
  refine ⟨by omega, ?_, ?_⟩
  · rw [← List.drop_drop, hd, List.drop_left]
  · intro j
    rw [← getD_of_drop, hd]

/-- On an input whose bytes from offset `k` on are the wire image of the
entries `i, i+1, ...` of a header `src` with acceptable flags, the mapping loop
ends with success at the end of the input and has stored those entries. -/
theorem parse_mapping_loop_of_table (src : OpusHeader) (b : List Nat)
    (h1 : b.length ≤ 2147483647) : ∀ (n i k : Nat) (g : OpusHeader),
    b.drop k = tableBytes src n i → k ≤ b.length →
    (∀ j, i ≤ j → j < i + n → src.mapping j 0 ≤ 1) →
    (parse_mapping_loop n i { data := b, maxlen := (b.length : Int), pos := (k : Int) } g).1 = 1 ∧
    (parse_mapping_loop n i { data := b, maxlen := (b.length : Int), pos := (k : Int) } g).2.1.pos
      = (b.length : Int) ∧
    (∀ j, i ≤ j → j < i + n →
      (parse_mapping_loop n i { data := b, maxlen := (b.length : Int), pos := (k : Int) }
          g).2.2.mapping j 0 = src.mapping j 0 ∧
      (parse_mapping_loop n i { data := b, maxlen := (b.length : Int), pos := (k : Int) }
          g).2.2.mapping j 1 = src.mapping j 1 ∧
      (src.mapping j 0 = 1 →
        (parse_mapping_loop n i { data := b, maxlen := (b.length : Int), pos := (k : Int) }
          g).2.2.mapping j 2 = src.mapping j 2)) := by
  intro n
  induction n with
  | zero =>
    intro i k g hd hk _
    have : (b.drop k).length = 0 := by rw [hd]; rfl
    rw [List.length_drop] at this
    have hkb : k = b.length := by omega
    simp only [parse_mapping_loop]
    refine ⟨trivial, by rw [hkb], ?_⟩
    intro j h1 h2; omega
  | succ n ih =>
    intro i k g hd hk hfl
    rw [tableBytes_succ] at hd
    have hpos : 0 < (entryBytes src i).length := by
      unfold entryBytes; split <;> simp
    obtain ⟨hle, hdrop, hget⟩ := drop_append_facts b _ _ k hd hpos
    have hflag : b.getD k 0 = src.mapping i 0 := by
      have := hget 0
      unfold entryBytes at this
      split at this <;> simpa using this
    have hleft : b.getD (k + 1) 0 = src.mapping i 1 := by
      have := hget 1
      unfold entryBytes at this
      split at this <;> simpa using this
    have hright : src.mapping i 0 = 1 → b.getD (k + 2) 0 = src.mapping i 2 := by
      intro hs
      have := hget 2
      unfold entryBytes at this
      rw [if_pos hs] at this
      simpa using this
    have hwid : entryWidth b k = (entryBytes src i).length := by
      unfold entryWidth entryBytes
      rw [hflag]
      split <;> rfl
    have hw : ((k + entryWidth b k : Nat) : Int) ≤ (b.length : Int) := by
      rw [hwid]; exact_mod_cast hle
    have hf : ¬(g.version = 0 ∧ b.getD k 0 > 1) := by
      rw [hflag]
      have := hfl i (le_refl _) (by omega)
      intro hc
      omega
    rw [parse_mapping_loop_step n i b _ k g (by omega) (by omega) hw hf]
    have hd' : b.drop (k + entryWidth b k) = tableBytes src n (i + 1) := by
      rw [hwid]; exact hdrop
    obtain ⟨g1, g2, g3⟩ := ih (i + 1) (k + entryWidth b k) (afterEntry g i b k) hd'
      (by rw [hwid]; exact hle) (fun j hj1 hj2 => hfl j (by omega) (by omega))
    have hok : (parse_mapping_loop n (i + 1)
        { data := b, maxlen := (b.length : Int), pos := ((k + entryWidth b k : Nat) : Int) }
        (afterEntry g i b k)).1 ≠ 0 := by rw [g1]; exact one_ne_zero
    obtain ⟨_, _, _, _, g5, _, _⟩ := parse_mapping_loop_ok b (b.length : Int) (by omega)
      (by omega) n (i + 1) (k + entryWidth b k) (afterEntry g i b k) hw hok
    refine ⟨g1, g2, ?_⟩
    intro j hj1 hj2
    by_cases hji : j = i
    · subst hji
      rw [g5 j 0 (by omega), g5 j 1 (by omega), g5 j 2 (by omega), afterEntry_flag,
        afterEntry_left, hflag, hleft]
      refine ⟨rfl, rfl, ?_⟩
      intro hs
      rw [afterEntry_right g j b k (by rw [hflag]; exact hs), hright hs]
    · exact g3 j (by omega) (by omega)

theorem wireLayout_cons (h : OpusHeader) :
    wireLayout h =
      79 :: 112 :: 117 :: 115 :: 72 :: 101 :: 97 :: 100 :: 0 ::
      (h.input_sample_rate % 256) :: (h.input_sample_rate / 256 % 256) ::
      (h.input_sample_rate / 65536 % 256) :: (h.input_sample_rate / 16777216 % 256) ::
      h.multi_stream :: h.channels :: (h.preskip % 256) :: (h.preskip / 256 % 256) ::
      (if h.multi_stream ≠ 0 then h.nb_streams :: tableBytes h h.nb_streams 0 else []) := by
  simp [wireLayout, OpusHead]

theorem le32_bytes (r : Nat) (hr : r < 4294967296) :
    u32 (u32 (u32 (u32 (r % 256) ||| u32 (u32 (r / 256 % 256) <<< 8)) |||
      u32 (u32 (r / 65536 % 256) <<< 16)) ||| u32 (u32 (r / 16777216 % 256) <<< 24)) = r := by
  rw [le32_eq _ _ _ _ (by omega) (by omega) (by omega) (by omega)]
  omega

theorem le16_bytes (r : Nat) (hr : r < 65536) :
    u16 (u16 (r % 256) ||| (u16 (r / 256 % 256) <<< 8)) = r := by
  rw [le16_eq _ _ (by omega) (by omega)]
  omega

/-- The parser on the wire layout of a header with version-0 flags: it
succeeds, with the cursor at the end, and the header it leaves has the fields
of the header that was laid out. -/
theorem parse_wireLayout (h g : OpusHeader) (str0 : Nat → Nat) (hr : h.inRange)
    (hlen : (wireLayout h).length ≤ 2147483647)
    (hfl : h.multi_stream ≠ 0 → ∀ j, j < h.nb_streams → h.mapping j 0 ≤ 1) :
    (opus_header_parse (wireLayout h) ((wireLayout h).length : Int) g str0).1 = 1 ∧
    (opus_header_parse (wireLayout h) ((wireLayout h).length : Int) g str0).2.version = 0 ∧
    (opus_header_parse (wireLayout h) ((wireLayout h).length : Int) g str0).2.input_sample_rate =
      h.input_sample_rate ∧
    (opus_header_parse (wireLayout h) ((wireLayout h).length : Int) g str0).2.multi_stream =
      h.multi_stream ∧
    (opus_header_parse (wireLayout h) ((wireLayout h).length : Int) g str0).2.channels =
      h.channels ∧
    (opus_header_parse (wireLayout h) ((wireLayout h).length : Int) g str0).2.preskip =
      h.preskip ∧
    (h.multi_stream ≠ 0 →
      (opus_header_parse (wireLayout h) ((wireLayout h).length : Int) g str0).2.nb_streams =
        h.nb_streams ∧
      ∀ j, j < h.nb_streams →
        (opus_header_parse (wireLayout h) ((wireLayout h).length : Int) g str0).2.mapping j 0 =
          h.mapping j 0 ∧
        (opus_header_parse (wireLayout h) ((wireLayout h).length : Int) g str0).2.mapping j 1 =
          h.mapping j 1 ∧
        (h.mapping j 0 = 1 →
          (opus_header_parse (wireLayout h) ((wireLayout h).length : Int) g str0).2.mapping j 2 =
            h.mapping j 2)) := by
  obtain ⟨_, r2, r3, r4, r5, r6, _⟩ := hr
  have hc := wireLayout_cons h
  have h17 : 17 ≤ (wireLayout h).length := by rw [hc]; simp
  have ht : (wireLayout h).take 8 = OpusHead := by rw [hc]; rfl
  have e8 : (wireLayout h).getD 8 0 = 0 := by rw [hc]; rfl
  have e13 : (wireLayout h).getD 13 0 = h.multi_stream := by rw [hc]; rfl
  have hff : fixedFields g (wireLayout h) 8 =
      { g with version := 0, input_sample_rate := h.input_sample_rate,
               multi_stream := h.multi_stream, channels := h.channels, preskip := h.preskip } := by
    unfold fixedFields
    rw [hc]
    simp only [List.getD_cons_succ, List.getD_cons_zero, Nat.reduceAdd]
    rw [le32_bytes _ r2, le16_bytes _ r5]
  have h1 : ((wireLayout h).length : Int) ≤ 2147483647 := by omega
  have hk : (((8 : Nat) + 9 : Nat) : Int) ≤ ((wireLayout h).length : Int) := by
    push_cast; omega
  have hpf := parse_fields_eq (wireLayout h) ((wireLayout h).length : Int) 8 g (by omega) h1 hk
  simp only [Nat.reduceAdd] at hpf
  rw [e13, hff] at hpf
  -- success of the field reads, final cursor, and the mapping rows
  have key : (parse_fields ⟨wireLayout h, ((wireLayout h).length : Int), ((8 : Nat) : Int)⟩ g).1 = 1 ∧
      (parse_fields ⟨wireLayout h, ((wireLayout h).length : Int), ((8 : Nat) : Int)⟩ g).2.1.pos = ((wireLayout h).length : Int) ∧
      (h.multi_stream ≠ 0 → ∀ j, j < h.nb_streams →
        (parse_fields ⟨wireLayout h, ((wireLayout h).length : Int), ((8 : Nat) : Int)⟩ g).2.2.mapping j 0 = h.mapping j 0 ∧
        (parse_fields ⟨wireLayout h, ((wireLayout h).length : Int), ((8 : Nat) : Int)⟩ g).2.2.mapping j 1 = h.mapping j 1 ∧
        (h.mapping j 0 = 1 →
          (parse_fields ⟨wireLayout h, ((wireLayout h).length : Int), ((8 : Nat) : Int)⟩ g).2.2.mapping j 2 = h.mapping j 2)) := by
    rw [hpf]
    by_cases hm : h.multi_stream = 0
    · have hl : (wireLayout h).length = 17 := by rw [hc]; simp [hm]
      simp only [ne_eq, hm, not_true_eq_false, if_false, hl, false_implies, and_true]
    · have hl : 18 ≤ (wireLayout h).length := by rw [hc]; simp [hm]
      have e17 : (wireLayout h).getD 17 0 = h.nb_streams := by rw [hc]; simp [hm]
      have hd : (wireLayout h).drop 18 = tableBytes h h.nb_streams 0 := by rw [hc]; simp [hm]
      simp only [ne_eq, hm, not_false_eq_true, if_true, true_implies]
      rw [if_pos (by omega), e17]
      obtain ⟨g1, g2, g3⟩ := parse_mapping_loop_of_table h (wireLayout h) hlen h.nb_streams 0 18
        { version := 0, input_sample_rate := h.input_sample_rate,
          multi_stream := h.multi_stream, channels := h.channels, preskip := h.preskip,
          nb_streams := h.nb_streams, mapping := g.mapping }
        hd hl (fun j _ hj => hfl hm j (by omega))
      exact ⟨g1, g2, fun j hj => g3 j (Nat.zero_le j) (by omega)⟩
  obtain ⟨k1, k2, k3⟩ := key
  have hf : (parse_fields ⟨wireLayout h, ((wireLayout h).length : Int), ((8 : Nat) : Int)⟩ g).1 ≠ 0 := by rw [k1]; exact one_ne_zero
  have hsnd := parse_run_tag_snd (wireLayout h) ((wireLayout h).length : Int) g str0 h1
    (by omega) (by omega) ht
  have hh : (opus_header_parse (wireLayout h) ((wireLayout h).length : Int) g str0).2 =
      (parse_fields ⟨wireLayout h, ((wireLayout h).length : Int), ((8 : Nat) : Int)⟩ g).2.2 := by
    unfold opus_header_parse
    simp only []
    rw [hsnd]
  obtain ⟨_, ⟨s1, s2, s3, s4, s5, s6⟩, _, _⟩ :=
    parse_fields_ok (wireLayout h) ((wireLayout h).length : Int) g h1 (by omega) hf
  rw [hff] at s1 s2 s3 s4 s5 s6
  simp only [e13] at s6
  rw [hh]
  refine ⟨?_, s1, s2, s3, s4, s5, ?_⟩
  · show (opus_header_parse_run (wireLayout h) ((wireLayout h).length : Int) g str0).1 = 1
    apply parse_run_of_fields _ _ g str0 h1 (by omega) (by omega) ht hf
    intro hcn
    exact hcn.2 k2
  · intro hm
    refine ⟨?_, k3 hm⟩
    rw [s6, if_neg hm, hc]
    simp [hm]

/-- C1. Round trip. For a header `h` of version 0 whose fields hold values of
their declared widths and whose first `nb_streams` mapping entries (when the
family is nonzero) have flag 0 or 1, and a destination that has room for the
packet, `opus_header_to_packet` returns `n > 0` and `opus_header_parse` on the
`n` bytes written succeeds and leaves a header equal to `h` on `version`,
`input_sample_rate`, `multi_stream`, `channels`, `preskip` and, when the family
is nonzero, on `nb_streams` and on the flag, the left channel and (for a stereo
entry) the right channel of each of the first `nb_streams` mapping entries. -/
theorem round_trip (h g : OpusHeader) (buf : List Nat) (len : Int) (str0 : Nat → Nat)
    (hr : h.inRange) (hv : h.version = 0)
    (hfl : h.multi_stream ≠ 0 → ∀ j, j < h.nb_streams → h.mapping j 0 ≤ 1)
    (h1 : len ≤ 2147483647) (hb : len ≤ (buf.length : Int))
    (hcap : (packetSize h : Int) ≤ len) :
    0 < (opus_header_to_packet h buf len).1 ∧
    (roundTrip h buf len g str0).1 = 1 ∧
    (roundTrip h buf len g str0).2.version = h.version ∧
    (roundTrip h buf len g str0).2.input_sample_rate = h.input_sample_rate ∧
    (roundTrip h buf len g str0).2.multi_stream = h.multi_stream ∧
    (roundTrip h buf len g str0).2.channels = h.channels ∧
    (roundTrip h buf len g str0).2.preskip = h.preskip ∧
    (h.multi_stream ≠ 0 →
      (roundTrip h buf len g str0).2.nb_streams = h.nb_streams ∧
      ∀ j, j < h.nb_streams →
        (roundTrip h buf len g str0).2.mapping j 0 = h.mapping j 0 ∧
        (roundTrip h buf len g str0).2.mapping j 1 = h.mapping j 1 ∧
        (h.mapping j 0 = 1 → (roundTrip h buf len g str0).2.mapping j 2 = h.mapping j 2)) := by
  have hs := emitted_length_eq_packetSize h
  have hw := emitted_eq_wireLayout h hr
  have hle : ((emitted h).length : Int) ≤ len := by rw [hs]; exact hcap
  have hrun := to_packet_run_ok h buf len h1 hle
  have hret : (opus_header_to_packet h buf len).1 = ((wireLayout h).length : Int) := by
    unfold opus_header_to_packet
    simp only []
    rw [hrun, hw]
  have htake : (opus_header_to_packet h buf len).2.take (wireLayout h).length = wireLayout h := by
    unfold opus_header_to_packet
    simp only []
    rw [hrun]
    have := take_putBytes (emitted h) buf 0 (by omega)
    simp only [Nat.zero_add, List.take_zero, List.nil_append] at this
    rw [← hw]
    simp only []
    exact this
  have hrt : roundTrip h buf len g str0 =
      opus_header_parse (wireLayout h) ((wireLayout h).length : Int) g str0 := by
    have key : ∀ (n : Int) (d : List Nat), n = ((wireLayout h).length : Int) →
        d.take (wireLayout h).length = wireLayout h →
        opus_header_parse (d.take n.toNat) n g str0 =
          opus_header_parse (wireLayout h) ((wireLayout h).length : Int) g str0 := by
      intro n d hn hd
      subst hn
      rw [Int.toNat_ofNat, hd]
    exact key _ _ hret htake
  have hpos : 0 < (wireLayout h).length := by rw [wireLayout_cons]; simp
  have hlen : (wireLayout h).length ≤ 2147483647 := by rw [← hw]; omega
  obtain ⟨p1, p2, p3, p4, p5, p6, p7⟩ := parse_wireLayout h g str0 hr hlen hfl
  rw [hrt, hret]
  exact ⟨by exact_mod_cast hpos, p1, by rw [p2, hv], p3, p4, p5, p6, p7⟩

/-- Witness of C1: the multistream example, serialized into a 30-byte buffer
and parsed back over a stale header. -/
theorem round_trip_witness :
    exampleHeader.inRange ∧ exampleHeader.version = 0 ∧
    (exampleHeader.multi_stream ≠ 0 →
      ∀ j, j < exampleHeader.nb_streams → exampleHeader.mapping j 0 ≤ 1) ∧
    (30 : Int) ≤ 2147483647 ∧ (30 : Int) ≤ (exampleBuffer.length : Int) ∧
    (packetSize exampleHeader : Int) ≤ 30 ∧
    0 < (opus_header_to_packet exampleHeader exampleBuffer 30).1 ∧
    (roundTrip exampleHeader exampleBuffer 30 staleHeader blankStr).1 = 1 ∧
    (roundTrip exampleHeader exampleBuffer 30 staleHeader blankStr).2.version =
      exampleHeader.version ∧
    (roundTrip exampleHeader exampleBuffer 30 staleHeader blankStr).2.input_sample_rate =
      exampleHeader.input_sample_rate ∧
    (roundTrip exampleHeader exampleBuffer 30 staleHeader blankStr).2.multi_stream =
      exampleHeader.multi_stream ∧
    (roundTrip exampleHeader exampleBuffer 30 staleHeader blankStr).2.channels =
      exampleHeader.channels ∧
    (roundTrip exampleHeader exampleBuffer 30 staleHeader blankStr).2.preskip =
      exampleHeader.preskip ∧
    (exampleHeader.multi_stream ≠ 0 →
      (roundTrip exampleHeader exampleBuffer 30 staleHeader blankStr).2.nb_streams =
        exampleHeader.nb_streams ∧
      ∀ j, j < exampleHeader.nb_streams →
        (roundTrip exampleHeader exampleBuffer 30 staleHeader blankStr).2.mapping j 0 =
          exampleHeader.mapping j 0 ∧
        (roundTrip exampleHeader exampleBuffer 30 staleHeader blankStr).2.mapping j 1 =
          exampleHeader.mapping j 1 ∧
        (exampleHeader.mapping j 0 = 1 →
          (roundTrip exampleHeader exampleBuffer 30 staleHeader blankStr).2.mapping j 2 =
            exampleHeader.mapping j 2)) :=
  ⟨exampleHeader_inRange, by decide, by decide, by decide, by decide, by decide,
    round_trip exampleHeader staleHeader exampleBuffer 30 blankStr exampleHeader_inRange
      (by decide) (by decide) (by decide) (by decide) (by decide)⟩

/-! ## Capacity and size of the packet -/

/-- A capacity below 8 that is far enough from the least `int` for the
subtraction of the first bounds check to stay in range makes the write of the
tag fail. -/
theorem to_packet_run_below_tag (h : OpusHeader) (buf : List Nat) (len : Int)
    (hlo : -2147483640 ≤ len) (h8 : len < 8) :
    (opus_header_to_packet_run h buf len).1 = 0 := by
  unfold opus_header_to_packet_run wthen write_chars
  simp only []
  rw [wrapInt32_of_range _ (by omega) (by omega), if_pos (show (0 : Int) > len - 8 by omega)]
  rfl

/-- C11, counterexample. The single-stream header is written into a capacity of
17, which is below 19: the call returns 17, not 0. -/
theorem capacity_rejection_counterexample :
    (17 : Int) < 19 ∧ (opus_header_to_packet monoHeader exampleBuffer 17).1 = 17 := by
  decide

/-- C11, amended. For every header and every capacity below 17 (the tag, the
version byte, the rate, the family, the channel count and the pre-skip take
8 + 1 + 4 + 1 + 1 + 2 = 17 bytes), `opus_header_to_packet` returns 0; this
covers every capacity from 0 to 16 and the negative ones for which the
subtraction of the first bounds check stays in the range of `int`. -/
theorem capacity_rejection_17 (h : OpusHeader) (buf : List Nat) (len : Int)
    (hlo : -2147483640 ≤ len) (h17 : len < 17) :
    (opus_header_to_packet h buf len).1 = 0 := by
  show (opus_header_to_packet_run h buf len).1 = 0
  by_cases h8 : len < 8
  · exact to_packet_run_below_tag h buf len hlo h8
  · apply to_packet_run_fail h buf len (by omega) (by omega)
    rw [emitted_length]
    split <;> omega

/-- Witness of C11, amended: the single-stream header and capacity 16. -/
theorem capacity_rejection_17_witness :
    (-2147483640 : Int) ≤ 16 ∧ (16 : Int) < 17 ∧
    (opus_header_to_packet monoHeader exampleBuffer 16).1 = 0 :=
  ⟨by decide, by decide, capacity_rejection_17 monoHeader exampleBuffer 16 (by decide) (by decide)⟩

/-- C12, counterexample. The multistream example written into a 30-byte buffer
returns 23, not 24. -/
theorem multistream_size_counterexample :
    (opus_header_to_packet exampleHeader exampleBuffer 30).1 = 23 ∧
    (opus_header_to_packet exampleHeader exampleBuffer 30).1 ≠ 24 := by
  decide

/-- C12, amended. Serializing the multistream example (version 0, 48000 Hz,
family 1, three channels, pre-skip 312, two streams: stereo with left 0 and
right 1, mono with left 2) into any buffer with a capacity of at least 23
returns 23: the packet has 17 + 1 + 3 + 2 = 23 bytes. -/
theorem multistream_size_23 (buf : List Nat) (len : Int) (h23 : 23 ≤ len)
    (h1 : len ≤ 2147483647) :
    (opus_header_to_packet exampleHeader buf len).1 = 23 := by
  show (opus_header_to_packet_run exampleHeader buf len).1 = 23
  have hl : (emitted exampleHeader).length = 23 := by decide
  rw [to_packet_run_ok exampleHeader buf len h1 (by rw [hl]; exact h23), hl]
  rfl

/-- Witness of C12, amended: a 30-byte buffer with capacity 25. -/
theorem multistream_size_23_witness :
    (23 : Int) ≤ 25 ∧ (25 : Int) ≤ 2147483647 ∧
    (opus_header_to_packet exampleHeader exampleBuffer 25).1 = 23 :=
  ⟨by decide, by decide, multistream_size_23 exampleBuffer 25 (by decide) (by decide)⟩

/-! ## Parsing after serializing, without a precondition on the version -/

/-- C13, counterexample. The header of family 1 whose single entry has flag 2 is
serialized with success (20 bytes), and the parser rejects these 20 bytes: the
version byte written is 0, for which a flag above 1 is refused. -/
theorem reparse_counterexample :
    (opus_header_to_packet flag2Header exampleBuffer 30).1 = 20 ∧
    (roundTrip flag2Header exampleBuffer 30 staleHeader blankStr).1 = 0 := by
  decide

/-- C13, amended. For every header, of any version, whose fields hold values of
their declared widths and whose first `nb_streams` mapping entries (when the
family is nonzero) have flag 0 or 1, and every capacity for which
`opus_header_to_packet` succeeds returning `n`, `opus_header_parse` on the `n`
bytes written succeeds. -/
theorem reparse_succeeds (h g : OpusHeader) (buf : List Nat) (len : Int) (str0 : Nat → Nat)
    (hr : h.inRange)
    (hfl : h.multi_stream ≠ 0 → ∀ j, j < h.nb_streams → h.mapping j 0 ≤ 1)
    (h0 : 0 ≤ len) (h1 : len ≤ 2147483647) (hb : len ≤ (buf.length : Int))
    (hok : (opus_header_to_packet h buf len).1 ≠ 0) :
    (roundTrip h buf len g str0).1 = 1 := by
  have hw := emitted_eq_wireLayout h hr
  have hle : ((emitted h).length : Int) ≤ len := by
    by_contra hc
    exact hok (to_packet_run_fail h buf len h0 h1 (by omega))
  have hrun := to_packet_run_ok h buf len h1 hle
  have hret : (opus_header_to_packet h buf len).1 = ((wireLayout h).length : Int) := by
    unfold opus_header_to_packet
    simp only []
    rw [hrun, hw]
  have htake : (opus_header_to_packet h buf len).2.take (wireLayout h).length = wireLayout h := by
    unfold opus_header_to_packet
    simp only []
    rw [hrun]
    have := take_putBytes (emitted h) buf 0 (by omega)
    simp only [Nat.zero_add, List.take_zero, List.nil_append] at this
    rw [← hw]
    simp only []
    exact this
  have hrt : roundTrip h buf len g str0 =
      opus_header_parse (wireLayout h) ((wireLayout h).length : Int) g str0 := by
    have key : ∀ (n : Int) (d : List Nat), n = ((wireLayout h).length : Int) →
        d.take (wireLayout h).length = wireLayout h →
        opus_header_parse (d.take n.toNat) n g str0 =
          opus_header_parse (wireLayout h) ((wireLayout h).length : Int) g str0 := by
      intro n d hn hd
      subst hn
      rw [Int.toNat_ofNat, hd]
    exact key _ _ hret htake
  have hlen : (wireLayout h).length ≤ 2147483647 := by rw [← hw]; omega
  rw [hrt]
  exact (parse_wireLayout h g str0 hr hlen hfl).1

/-- Witness of C13, amended: the multistream example with its version set to 3. -/
theorem reparse_succeeds_witness :
    ({ exampleHeader with version := 3 } : OpusHeader).inRange ∧
    (exampleHeader.multi_stream ≠ 0 →
      ∀ j, j < exampleHeader.nb_streams → exampleHeader.mapping j 0 ≤ 1) ∧
    (0 : Int) ≤ 30 ∧ (30 : Int) ≤ 2147483647 ∧ (30 : Int) ≤ (exampleBuffer.length : Int) ∧
    (opus_header_to_packet { exampleHeader with version := 3 } exampleBuffer 30).1 ≠ 0 ∧
    (roundTrip { exampleHeader with version := 3 } exampleBuffer 30 staleHeader blankStr).1 = 1 :=
  ⟨⟨by decide, exampleHeader_inRange.2⟩, by decide, by decide, by decide, by decide, by decide,
    reparse_succeeds { exampleHeader with version := 3 } staleHeader exampleBuffer 30 blankStr
      ⟨by decide, exampleHeader_inRange.2⟩ (by decide) (by decide) (by decide) (by decide)
      (by decide)⟩

/-! ## The caller's header after a failed parse -/

/-- C14, counterexample. The parser rejects the packet whose mapping entry has
flag 2, and has by then overwritten the caller's header: its version, 7 before
the call, is 0 after it, and its sample rate is the one of the packet. -/
theorem no_partial_object_counterexample :
    (opus_header_parse badFlagPacket (badFlagPacket.length : Int) staleHeader blankStr).1 = 0 ∧
    staleHeader.version = 7 ∧
    (opus_header_parse badFlagPacket (badFlagPacket.length : Int) staleHeader blankStr).2.version
      = 0 ∧
    (opus_header_parse badFlagPacket (badFlagPacket.length : Int) staleHeader
      blankStr).2.input_sample_rate = 48000 := by
  decide

/-- C14, amended. On an input of at least eight bytes that does not start with
the tag, and on the input that is the eight bytes of the tag and nothing more,
`opus_header_parse` fails and leaves the caller's header exactly as it was:
these are the failures detected before the first store into the header. -/
theorem header_kept_on_early_failure (b : List Nat) (h : OpusHeader) (str0 : Nat → Nat)
    (h8 : 8 ≤ b.length) (hc : b.take 8 ≠ OpusHead ∨ b.length = 8)
    (hlen : b.length ≤ 2147483647) :
    opus_header_parse b (b.length : Int) h str0 = (0, h) := by
  by_cases ht : b.take 8 = OpusHead
  · have hl : b.length = 8 := by
      rcases hc with hc | hc
      · exact absurd ht hc
      · exact hc
    unfold opus_header_parse
    simp only []
    rw [parse_run_tag b _ h str0 (by omega) (by omega) h8 ht]
    have hpf : parse_fields { data := b, maxlen := (b.length : Int), pos := ((8 : Nat) : Int) } h =
        (0, { data := b, maxlen := (b.length : Int), pos := ((8 : Nat) : Int) }, h) := by
      unfold parse_fields
      rw [read_char_rthen _ _ _ _ _ _ (by omega) (by omega), if_neg (by push_cast; omega)]
    rw [hpf]
    rfl
  · unfold opus_header_parse opus_header_parse_run
    simp only []
    rw [tag_array, read_tag_eq _ _ _ _ _ _ _ _ _ _ _ (by omega) (by omega),
      if_pos (show (8 : Int) ≤ (b.length : Int) by omega)]
    rw [take8_eq b h8] at ht
    have hs := (not_congr (strcmp_tag _ _ _ _ _ _ _ _)).2 ht
    rw [if_pos hs]

/-- Witness of C14, amended: seventeen bytes whose tag has a zero byte in it. -/
theorem header_kept_on_early_failure_witness :
    8 ≤ zeroTagPacket.length ∧ (zeroTagPacket.take 8 ≠ OpusHead ∨ zeroTagPacket.length = 8) ∧
    zeroTagPacket.length ≤ 2147483647 ∧
    opus_header_parse zeroTagPacket (zeroTagPacket.length : Int) staleHeader tagStr =
      (0, staleHeader) :=
  ⟨by decide, by decide, by decide,
    header_kept_on_early_failure zeroTagPacket staleHeader tagStr (by decide) (by decide)
      (by decide)⟩

/-! ## What the serializer reads of the header -/

/-- The mapping loop of the serializer reads, of each row it visits, the flag,
the left channel and, for flag 1 only, the right channel. -/
theorem to_packet_loop_congr (h h' : OpusHeader) : ∀ (n i : Nat) (p : Packet),
    (∀ j, i ≤ j → j < i + n →
      h.mapping j 0 = h'.mapping j 0 ∧ h.mapping j 1 = h'.mapping j 1 ∧
      (h.mapping j 0 = 1 → h.mapping j 2 = h'.mapping j 2)) →
    to_packet_loop n i p h = to_packet_loop n i p h' := by
  intro n
  induction n with
  | zero => intro i p _; rfl
  | succ n ih =>
    intro i p hag
    obtain ⟨a0, a1, a2⟩ := hag i (le_refl _) (by omega)
    have hrec : ∀ q, to_packet_loop n (i + 1) q h = to_packet_loop n (i + 1) q h' :=
      fun q => ih (i + 1) q (fun j hj1 hj2 => hag j (by omega) (by omega))
    simp only [to_packet_loop]
    rw [← a0, ← a1]
    by_cases cf : h.mapping i 0 = 1
    · simp only [cf, if_true, hrec, ← a2 cf]
    · simp only [cf, if_false, hrec]

/-- C19. Two headers that agree on `input_sample_rate`, `multi_stream`,
`channels` and `preskip` and, when the family is nonzero, on `nb_streams`, on
the flag and the left channel of each of the first `nb_streams` entries and on
the right channel of each of these entries whose flag is 1, make
`opus_header_to_packet` return the same value and leave the same buffer, for
every buffer and capacity: the version, the right channel of the other
entries, the entries from `nb_streams` on and, for family 0, the stream count
and the whole table are not read. -/
theorem to_packet_ignores_absent_fields (h h' : OpusHeader) (buf : List Nat) (len : Int)
    (hrate : h.input_sample_rate = h'.input_sample_rate)
    (hfam : h.multi_stream = h'.multi_stream) (hch : h.channels = h'.channels)
    (hpre : h.preskip = h'.preskip)
    (htab : h.multi_stream ≠ 0 →
      h.nb_streams = h'.nb_streams ∧
      ∀ j, j < h.nb_streams →
        h.mapping j 0 = h'.mapping j 0 ∧ h.mapping j 1 = h'.mapping j 1 ∧
        (h.mapping j 0 = 1 → h.mapping j 2 = h'.mapping j 2)) :
    opus_header_to_packet h buf len = opus_header_to_packet h' buf len := by
  unfold opus_header_to_packet opus_header_to_packet_run
  simp only []
  rw [← hrate, ← hfam, ← hch, ← hpre]
  by_cases hm : h.multi_stream = 0
  · simp only [ne_eq, hm, not_true_eq_false, if_false]
  · obtain ⟨hnb, hmap⟩ := htab hm
    have hloop : ∀ q, to_packet_loop h.nb_streams 0 q h = to_packet_loop h.nb_streams 0 q h' :=
      fun q => to_packet_loop_congr h h' h.nb_streams 0 q
        (fun j _ hj => hmap j (by omega))
    simp only [ne_eq, hm, not_false_eq_true, if_true, ← hnb, hloop]

/-- Witness of C19: the multistream example against a header of version 9 with
another right channel in its mono entry and a third entry. -/
theorem to_packet_ignores_absent_fields_witness :
    opus_header_to_packet exampleHeader exampleBuffer 30 =
      opus_header_to_packet
        { exampleHeader with
          version := 9
          mapping := fun r c => if r = 1 ∧ c = 2 then 5 else if r = 2 then 6
            else exampleMapping r c }
        exampleBuffer 30 :=
  to_packet_ignores_absent_fields exampleHeader _ exampleBuffer 30 rfl rfl rfl rfl
    (fun _ => ⟨rfl, by decide⟩)

/-! ## The serializer stays inside the declared capacity -/

theorem frame_refl (p : Packet) (h0 : 0 ≤ p.pos) (h1 : p.pos ≤ p.maxlen) : Frame p p :=
  ⟨rfl, rfl, fun _ _ => rfl, h0, h1⟩

theorem frame_trans (p q r : Packet) (a : Frame p q) (c : Frame q r) : Frame p r := by
  obtain ⟨a1, a2, a3, _, _⟩ := a
  obtain ⟨c1, c2, c3, c4, c5⟩ := c
  refine ⟨c1.trans a1, c2.trans a2, ?_, c4, c5⟩
  intro j hj
  rw [c3 j (by rw [a1]; exact hj), a3 j hj]

theorem put_frame (p : Packet) (bs : List Nat) (h0 : 0 ≤ p.pos) (h1 : p.pos ≤ p.maxlen) :
    Frame p (put p bs).2 := by
  unfold put
  by_cases hc : p.pos + bs.length ≤ p.maxlen
  · rw [if_pos hc]
    refine ⟨rfl, putBytes_length bs _ _, ?_, ?_, hc⟩
    · intro j hj
      exact getD_putBytes_ge bs p.data p.pos.toNat j (by omega)
    · show 0 ≤ p.pos + (bs.length : Int)
      omega
  · rw [if_neg hc]
    exact frame_refl p h0 h1

theorem wthen_frame (p0 : Packet) (r : Int × Packet) (rest : Packet → Int × Packet)
    (hr : Frame p0 r.2) (hrest : ∀ q, Frame p0 q → Frame p0 (rest q).2) :
    Frame p0 (wthen r rest).2 := by
  unfold wthen
  split
  · exact hr
  · exact hrest r.2 hr

theorem write_char_frame (p0 q : Packet) (c : Nat) (hm : p0.maxlen ≤ 2147483647)
    (hq : Frame p0 q) : Frame p0 (write_char q c).2 := by
  have hq' := hq
  obtain ⟨q1, _, _, q4, q5⟩ := hq'
  rw [write_char_eq_put q c q4 (by omega) (by omega)]
  exact frame_trans p0 q _ hq (put_frame q [c] q4 q5)

theorem write_uint16_frame (p0 q : Packet) (v : Nat) (hm : p0.maxlen ≤ 2147483647)
    (hq : Frame p0 q) : Frame p0 (write_uint16 q v).2 := by
  have hq' := hq
  obtain ⟨q1, _, _, q4, q5⟩ := hq'
  rw [write_uint16_eq_put q v q4 (by omega) (by omega)]
  exact frame_trans p0 q _ hq (put_frame q _ q4 q5)

theorem write_uint32_frame (p0 q : Packet) (v : Nat) (hm : p0.maxlen ≤ 2147483647)
    (hq : Frame p0 q) : Frame p0 (write_uint32 q v).2 := by
  have hq' := hq
  obtain ⟨q1, _, _, q4, q5⟩ := hq'
  rw [write_uint32_eq_put q v q4 (by omega) (by omega)]
  exact frame_trans p0 q _ hq (put_frame q _ q4 q5)

theorem write_OpusHead_frame (p0 q : Packet) (hm : p0.maxlen ≤ 2147483647)
    (hq : Frame p0 q) : Frame p0 (write_chars q OpusHead 8).2 := by
  have hq' := hq
  obtain ⟨q1, _, _, q4, q5⟩ := hq'
  rw [write_OpusHead_eq_put q q4 (by omega) (by omega)]
  exact frame_trans p0 q _ hq (put_frame q _ q4 q5)

theorem to_packet_loop_frame (p0 : Packet) (h : OpusHeader) (hm : p0.maxlen ≤ 2147483647) :
    ∀ (n i : Nat) (q : Packet), Frame p0 q → Frame p0 (to_packet_loop n i q h).2 := by
  intro n
  induction n with
  | zero => intro i q hq; exact hq
  | succ n ih =>
    intro i q hq
    simp only [to_packet_loop]
    apply wthen_frame p0 _ _ (write_char_frame p0 q _ hm hq)
    intro q1 hq1
    apply wthen_frame p0 _ _ (write_char_frame p0 q1 _ hm hq1)
    intro q2 hq2
    split
    · apply wthen_frame p0 _ _ (write_char_frame p0 q2 _ hm hq2)
      intro q3 hq3
      exact ih (i + 1) q3 hq3
    · exact ih (i + 1) q2 hq2

/-- Whatever the outcome, the cursor of the serializer at its return is a later
state of the initial one. -/
theorem to_packet_run_frame (h : OpusHeader) (buf : List Nat) (len : Int) (h0 : 0 ≤ len)
    (h1 : len ≤ 2147483647) :
    Frame { data := buf, maxlen := len, pos := 0 } (opus_header_to_packet_run h buf len).2 := by
  have hp : Frame { data := buf, maxlen := len, pos := 0 } { data := buf, maxlen := len, pos := 0 } :=
    frame_refl _ (le_refl _) h0
  unfold opus_header_to_packet_run
  simp only []
  apply wthen_frame _ _ _ (write_OpusHead_frame _ _ h1 hp)
  intro q1 hq1
  apply wthen_frame _ _ _ (write_char_frame _ q1 _ h1 hq1)
  intro q2 hq2
  apply wthen_frame _ _ _ (write_uint32_frame _ q2 _ h1 hq2)
  intro q3 hq3
  apply wthen_frame _ _ _ (write_char_frame _ q3 _ h1 hq3)
  intro q4 hq4
  apply wthen_frame _ _ _ (write_char_frame _ q4 _ h1 hq4)
  intro q5 hq5
  apply wthen_frame _ _ _ (write_uint16_frame _ q5 _ h1 hq5)
  intro q6 hq6
  split
  · apply wthen_frame _ _ _ (write_char_frame _ q6 _ h1 hq6)
    intro q7 hq7
    apply wthen_frame _ _ _ (to_packet_loop_frame _ h h1 _ _ q7 hq7)
    intro q8 hq8
    exact hq8
  · exact hq6

/-- C20. For every header, buffer and capacity `len >= 0`,
`opus_header_to_packet` leaves the length of the buffer and every byte at an
index `>= len` as they were, whether it succeeds or fails; and when it succeeds
returning `n`, it leaves every byte at an index `>= n` as it was. -/
theorem to_packet_keeps_outside_bytes (h : OpusHeader) (buf : List Nat) (len : Int)
    (h0 : 0 ≤ len) (h1 : len ≤ 2147483647) :
    (opus_header_to_packet h buf len).2.length = buf.length ∧
    (∀ j : Nat, len ≤ (j : Int) →
      (opus_header_to_packet h buf len).2.getD j 0 = buf.getD j 0) ∧
    ((opus_header_to_packet h buf len).1 ≠ 0 →
      ∀ j : Nat, (opus_header_to_packet h buf len).1 ≤ (j : Int) →
        (opus_header_to_packet h buf len).2.getD j 0 = buf.getD j 0) := by
  obtain ⟨_, f2, f3, _, _⟩ := to_packet_run_frame h buf len h0 h1
  refine ⟨f2, f3, ?_⟩
  intro hok j hj
  have hle : ((emitted h).length : Int) ≤ len := by
    by_contra hc
    exact hok (to_packet_run_fail h buf len h0 h1 (by omega))
  have hrun := to_packet_run_ok h buf len h1 hle
  unfold opus_header_to_packet at hj ⊢
  simp only [] at hj ⊢
  rw [hrun] at hj ⊢
  simp only [] at hj ⊢
  exact getD_putBytes_ge (emitted h) buf 0 j (by omega)

/-- Witness of C20: the multistream example with capacity 20, where the call
fails after having written 20 bytes, and the byte at index 20 is as before. -/
theorem to_packet_keeps_outside_bytes_witness :
    (0 : Int) ≤ 20 ∧ (20 : Int) ≤ 2147483647 ∧
    (opus_header_to_packet exampleHeader exampleBuffer 20).1 = 0 ∧
    (opus_header_to_packet exampleHeader exampleBuffer 20).2.length = exampleBuffer.length ∧
    (opus_header_to_packet exampleHeader exampleBuffer 20).2.getD 20 0 =
      exampleBuffer.getD 20 0 :=
  ⟨by decide, by decide, by decide,
    (to_packet_keeps_outside_bytes exampleHeader exampleBuffer 20 (by decide) (by decide)).1,
    (to_packet_keeps_outside_bytes exampleHeader exampleBuffer 20 (by decide) (by decide)).2.1 20
      (by decide)⟩

/-! ## The write cursor, operation by operation -/

/-- Stores of a run of bytes inside a buffer replace exactly the bytes of the
run. -/
theorem putBytes_eq_splice (bs : List Nat) : ∀ (d : List Nat) (k : Nat),
    k + bs.length ≤ d.length →
    putBytes d k bs = d.take k ++ bs ++ d.drop (k + bs.length) := by
  induction bs with
  | nil => intro d k _; simp [putBytes]
  | cons b bs ih =>
    intro d k hk
    simp only [List.length_cons] at hk
    simp only [putBytes, List.length_cons]
    rw [ih (d.set k b) (k + 1) (by simp; omega), take_set_succ d k b (by omega),
      List.drop_set_of_lt b d (by omega)]
    have e : k + 1 + bs.length = k + (bs.length + 1) := by omega
    rw [e]
    simp

theorem put_ok (p : Packet) (bs : List Nat) (h : p.pos + bs.length ≤ p.maxlen) :
    put p bs = (1, { data := putBytes p.data p.pos.toNat bs, maxlen := p.maxlen,
                     pos := p.pos + bs.length }) := by
  unfold put; rw [if_pos h]

theorem put_fail (p : Packet) (bs : List Nat) (h : p.maxlen < p.pos + bs.length) :
    put p bs = (0, p) := by
  unfold put; rw [if_neg (by omega)]

theorem range_map_getD_take (str : List Nat) (nb : Nat) (hnb : nb ≤ str.length) :
    (List.range' 0 nb).map (fun j => str.getD j 0) = str.take nb := by
  apply List.ext_getElem
  · simp; omega
  · intro n h1 h2
    simp at h1
    simp [List.getD_eq_getElem?_getD, List.getElem?_eq_getElem (show n < str.length by omega)]

theorem write_chars_take_eq_put (p : Packet) (str : List Nat) (nb : Nat) (hp : 0 ≤ p.pos)
    (h0 : 0 ≤ p.maxlen) (h1 : p.maxlen ≤ 2147483647) (hnb : nb ≤ str.length)
    (hs : nb ≤ 2147483647) :
    write_chars p str (nb : Int) = put p (str.take nb) := by
  unfold write_chars put
  rw [wrapInt32_of_range _ (by omega) (by omega), write_chars_loop_eq str _ _ p hp]
  have hl : (str.take nb).length = nb := by rw [List.length_take]; omega
  simp only [Int.toNat_ofNat, range_map_getD_take str nb hnb, hl]
  by_cases hc : p.pos + (nb : Int) ≤ p.maxlen
  · rw [if_neg (by omega), if_pos hc]
  · rw [if_pos (by omega), if_neg hc]

/-- C15. For a write cursor with `0 <= pos <= maxlen` over a buffer that has the
declared capacity, each write operation of width `w` (`write_uint32`: 4,
`write_uint16`: 2, `write_chars`: `nb_chars >= 0`) returns 0 and leaves the
buffer and the offset as they were when `maxlen - pos < w`; otherwise it returns
1, the offset advances by `w`, the `w` bytes at the old offset hold the value
(least significant byte first for the integers, the first `nb_chars` characters
of `str` for `write_chars`), and the other bytes of the buffer are as before. -/
theorem write_cursor_contract (p : Packet) (val : Nat) (str : List Nat) (nb : Nat)
    (h0 : 0 ≤ p.pos) (h1 : p.pos ≤ p.maxlen) (hm : p.maxlen ≤ 2147483647)
    (hb : p.maxlen ≤ (p.data.length : Int)) (hnb : nb ≤ str.length) (hs : nb ≤ 2147483647) :
    (p.maxlen - p.pos < 4 → write_uint32 p val = (0, p)) ∧
    (4 ≤ p.maxlen - p.pos →
      write_uint32 p val =
        (1, { data := p.data.take p.pos.toNat ++
                [val % 256, val / 256 % 256, val / 65536 % 256, val / 16777216 % 256] ++
                p.data.drop (p.pos.toNat + 4),
              maxlen := p.maxlen, pos := p.pos + 4 })) ∧
    (p.maxlen - p.pos < 2 → write_uint16 p val = (0, p)) ∧
    (2 ≤ p.maxlen - p.pos →
      write_uint16 p val =
        (1, { data := p.data.take p.pos.toNat ++ [val % 256, val / 256 % 256] ++
                p.data.drop (p.pos.toNat + 2),
              maxlen := p.maxlen, pos := p.pos + 2 })) ∧
    (p.maxlen - p.pos < (nb : Int) → write_chars p str (nb : Int) = (0, p)) ∧
    ((nb : Int) ≤ p.maxlen - p.pos →
      write_chars p str (nb : Int) =
        (1, { data := p.data.take p.pos.toNat ++ str.take nb ++ p.data.drop (p.pos.toNat + nb),
              maxlen := p.maxlen, pos := p.pos + (nb : Int) })) := by
  have hl : (str.take nb).length = nb := by rw [List.length_take]; omega
  rw [write_uint32_eq_put p val h0 (by omega) hm, write_uint16_eq_put p val h0 (by omega) hm,
    write_chars_take_eq_put p str nb h0 (by omega) hm hnb hs]
  refine ⟨?_, ?_, ?_, ?_, ?_, ?_⟩
  · intro hc
    exact put_fail p _ (by simp only [List.length_cons, List.length_nil]; omega)
  · intro hc
    rw [put_ok p _ (by simp only [List.length_cons, List.length_nil]; omega),
      putBytes_eq_splice _ _ _ (by simp only [List.length_cons, List.length_nil]; omega)]
    rfl
  · intro hc
    exact put_fail p _ (by simp only [List.length_cons, List.length_nil]; omega)
  · intro hc
    rw [put_ok p _ (by simp only [List.length_cons, List.length_nil]; omega),
      putBytes_eq_splice _ _ _ (by simp only [List.length_cons, List.length_nil]; omega)]
    rfl
  · intro hc
    exact put_fail p _ (by rw [hl]; omega)
  · intro hc
    rw [put_ok p _ (by rw [hl]; omega), putBytes_eq_splice _ _ _ (by rw [hl]; omega), hl]

/-- Witness of C15: a cursor at offset 3 of the 30-byte buffer with capacity 6,
the value 48000 and the tag as the characters to write. -/
theorem write_cursor_contract_witness :
    (write_uint32 { data := exampleBuffer, maxlen := 6, pos := 3 } 48000).1 = 0 ∧
    write_uint16 { data := exampleBuffer, maxlen := 6, pos := 3 } 48000 =
      (1, { data := exampleBuffer.take 3 ++ [48000 % 256, 48000 / 256 % 256] ++
              exampleBuffer.drop (3 + 2),
            maxlen := 6, pos := 3 + 2 }) :=
  ⟨congrArg Prod.fst
      ((write_cursor_contract { data := exampleBuffer, maxlen := 6, pos := 3 } 48000 OpusHead 8
        (by decide) (by decide) (by decide) (by decide) (by decide) (by decide)).1 (by decide)),
    (write_cursor_contract { data := exampleBuffer, maxlen := 6, pos := 3 } 48000 OpusHead 8
        (by decide) (by decide) (by decide) (by decide) (by decide) (by decide)).2.2.2.1
      (by decide)⟩

/-! ## The bounds check in 32-bit arithmetic -/

/-- C16, counterexample. With offset 0 and the least `int` as capacity, which is
smaller than the width 4, the subtraction `maxlen - 4` leaves the 32-bit range;
evaluated with wraparound it is positive, and the checks of `write_uint32` and
of `read_uint32` let the access proceed. -/
theorem signed_check_counterexample :
    (-2147483648 : Int) < 4 ∧
    wrapInt32 (-2147483648 - 4) = 2147483644 ∧
    (write_uint32 { data := exampleBuffer, maxlen := -2147483648, pos := 0 } 48000).1 = 1 ∧
    (read_uint32 { data := examplePacket, maxlen := -2147483648, pos := 0 } 0).1 = 1 := by
  decide

/-- C16, amended. For every cursor operation of width `w` (read or write,
16-bit, 32-bit, or `w` raw bytes), with offset 0, and every capacity `maxlen`
smaller than `w` for which `maxlen - w` is not below the least `int` (every
capacity from `INT_MIN + w` to `w - 1`, zero and the negative ones among them),
the check `pos > maxlen - w` reports failure: the operation returns 0 and
leaves the cursor, the buffer and the destination as they were. -/
theorem signed_check_in_range (d : List Nat) (maxlen : Int) (val : Nat) (str : List Nat)
    (w : Nat) :
    (maxlen < 4 → -2147483648 ≤ maxlen - 4 →
      write_uint32 { data := d, maxlen := maxlen, pos := 0 } val =
        (0, { data := d, maxlen := maxlen, pos := 0 }) ∧
      read_uint32 { data := d, maxlen := maxlen, pos := 0 } val =
        (0, { data := d, maxlen := maxlen, pos := 0 }, val)) ∧
    (maxlen < 2 → -2147483648 ≤ maxlen - 2 →
      write_uint16 { data := d, maxlen := maxlen, pos := 0 } val =
        (0, { data := d, maxlen := maxlen, pos := 0 }) ∧
      read_uint16 { data := d, maxlen := maxlen, pos := 0 } val =
        (0, { data := d, maxlen := maxlen, pos := 0 }, val)) ∧
    (maxlen < (w : Int) → -2147483648 ≤ maxlen - (w : Int) →
      write_chars { data := d, maxlen := maxlen, pos := 0 } str (w : Int) =
        (0, { data := d, maxlen := maxlen, pos := 0 }) ∧
      read_chars { data := d, maxlen := maxlen, pos := 0 } str (w : Int) =
        (0, { data := d, maxlen := maxlen, pos := 0 }, str)) := by
  refine ⟨?_, ?_, ?_⟩
  · intro h1 h2
    unfold write_uint32 read_uint32
    simp only []
    rw [wrapInt32_of_range _ h2 (by omega), if_pos (show (0 : Int) > maxlen - 4 by omega),
      if_pos (show (0 : Int) > maxlen - 4 by omega)]
    exact ⟨rfl, rfl⟩
  · intro h1 h2
    unfold write_uint16 read_uint16
    simp only []
    rw [wrapInt32_of_range _ h2 (by omega), if_pos (show (0 : Int) > maxlen - 2 by omega),
      if_pos (show (0 : Int) > maxlen - 2 by omega)]
    exact ⟨rfl, rfl⟩
  · intro h1 h2
    unfold write_chars read_chars
    simp only []
    rw [wrapInt32_of_range _ h2 (by omega),
      if_pos (show (0 : Int) > maxlen - (w : Int) by omega),
      if_pos (show (0 : Int) > maxlen - (w : Int) by omega)]
    exact ⟨rfl, rfl⟩

/-- Witness of C16, amended: capacity -5 and the widths 4, 2 and 8. -/
theorem signed_check_in_range_witness :
    (-5 : Int) < 4 ∧ (-2147483648 : Int) ≤ -5 - 4 ∧
    (write_uint32 { data := exampleBuffer, maxlen := -5, pos := 0 } 48000 =
        (0, { data := exampleBuffer, maxlen := -5, pos := 0 }) ∧
      read_uint32 { data := exampleBuffer, maxlen := -5, pos := 0 } 48000 =
        (0, { data := exampleBuffer, maxlen := -5, pos := 0 }, 48000)) ∧
    (write_chars { data := exampleBuffer, maxlen := -5, pos := 0 } OpusHead ((8 : Nat) : Int) =
        (0, { data := exampleBuffer, maxlen := -5, pos := 0 }) ∧
      read_chars { data := exampleBuffer, maxlen := -5, pos := 0 } OpusHead ((8 : Nat) : Int) =
        (0, { data := exampleBuffer, maxlen := -5, pos := 0 }, OpusHead)) :=
  ⟨by decide, by decide,
    (signed_check_in_range exampleBuffer (-5) 48000 OpusHead 8).1 (by decide) (by decide),
    (signed_check_in_range exampleBuffer (-5) 48000 OpusHead 8).2.2 (by decide) (by decide)⟩

/-! ## The value of a nonzero family byte -/

theorem getD_set_ne (b : List Nat) (m j v : Nat) (hj : m ≠ j) :
    (b.set m v).getD j 0 = b.getD j 0 := by
  simp only [List.getD_eq_getElem?_getD, List.getElem?_set_ne hj]

theorem getD_set_self (b : List Nat) (m v : Nat) (hm : m < b.length) :
    (b.set m v).getD m 0 = v := by
  simp only [List.getD_eq_getElem?_getD, List.getElem?_set_self hm, Option.getD_some]

/-- The mapping loop on two inputs that agree from the cursor on, with two
headers that differ in `multi_stream` only: same outcome, same final offset,
and headers that still differ in `multi_stream` only. -/
theorem parse_mapping_loop_family (b b' : List Nat) (len : Int) (m' : Nat) (h0 : 0 ≤ len)
    (h1 : len ≤ 2147483647) : ∀ (n i k : Nat) (h : OpusHeader),
    (∀ j, k ≤ j → b'.getD j 0 = b.getD j 0) →
    (parse_mapping_loop n i { data := b', maxlen := len, pos := (k : Int) }
        { h with multi_stream := m' }).1 =
      (parse_mapping_loop n i { data := b, maxlen := len, pos := (k : Int) } h).1 ∧
    (parse_mapping_loop n i { data := b', maxlen := len, pos := (k : Int) }
        { h with multi_stream := m' }).2.1.pos =
      (parse_mapping_loop n i { data := b, maxlen := len, pos := (k : Int) } h).2.1.pos ∧
    (parse_mapping_loop n i { data := b', maxlen := len, pos := (k : Int) }
        { h with multi_stream := m' }).2.2 =
      { (parse_mapping_loop n i { data := b, maxlen := len, pos := (k : Int) } h).2.2 with
        multi_stream := m' } := by
  intro n
  induction n with
  | zero => intro i k h _; exact ⟨rfl, rfl, rfl⟩
  | succ n ih =>
    intro i k h hag
    rw [parse_mapping_loop_succ n i b len k h h0 h1,
      parse_mapping_loop_succ n i b' len k _ h0 h1, hag k (le_refl _), hag (k + 1) (by omega),
      hag (k + 2) (by omega)]
    by_cases c1 : ((k + 1 : Nat) : Int) ≤ len
    swap
    · rw [if_neg c1, if_neg c1]; exact ⟨rfl, rfl, rfl⟩
    rw [if_pos c1, if_pos c1]
    by_cases cv : h.version = 0 ∧ b.getD k 0 > 1
    · rw [if_pos cv, if_pos (show ({ h with multi_stream := m' } : OpusHeader).version = 0 ∧
        b.getD k 0 > 1 from cv)]
      exact ⟨rfl, rfl, rfl⟩
    rw [if_neg cv, if_neg (show ¬(({ h with multi_stream := m' } : OpusHeader).version = 0 ∧
        b.getD k 0 > 1) from cv)]
    by_cases c2 : ((k + 2 : Nat) : Int) ≤ len
    swap
    · rw [if_neg c2, if_neg c2]; exact ⟨rfl, rfl, rfl⟩
    rw [if_pos c2, if_pos c2]
    by_cases cf : b.getD k 0 = 1
    · rw [if_pos cf, if_pos cf]
      by_cases c3 : ((k + 3 : Nat) : Int) ≤ len
      · rw [if_pos c3, if_pos c3]
        exact ih (i + 1) (k + 3)
          (((h.setMapping i 0 (b.getD k 0)).setMapping i 1 (b.getD (k + 1) 0)).setMapping i 2
            (b.getD (k + 2) 0))
          (fun j hj => hag j (by omega))
      · rw [if_neg c3, if_neg c3]; exact ⟨rfl, rfl, rfl⟩
    · rw [if_neg cf, if_neg cf]
      exact ih (i + 1) (k + 2)
        ((h.setMapping i 0 (b.getD k 0)).setMapping i 1 (b.getD (k + 1) 0))
        (fun j hj => hag j (by omega))

/-- The field reads on an input and on the same input with another nonzero
family byte: same outcome and, on success, same final offset and headers that
differ in `multi_stream` only. -/
theorem parse_fields_family (b : List Nat) (len : Int) (g : OpusHeader) (f' : Nat)
    (h0 : 0 ≤ len) (h1 : len ≤ 2147483647) (h17 : 17 ≤ len) (hb : 13 < b.length)
    (hf : b.getD 13 0 ≠ 0) (hf' : f' ≠ 0) :
    (parse_fields ⟨b.set 13 f', len, ((8 : Nat) : Int)⟩ g).1 =
      (parse_fields ⟨b, len, ((8 : Nat) : Int)⟩ g).1 ∧
    (parse_fields ⟨b.set 13 f', len, ((8 : Nat) : Int)⟩ g).2.1.pos =
      (parse_fields ⟨b, len, ((8 : Nat) : Int)⟩ g).2.1.pos ∧
    (parse_fields ⟨b.set 13 f', len, ((8 : Nat) : Int)⟩ g).2.2 =
      { (parse_fields ⟨b, len, ((8 : Nat) : Int)⟩ g).2.2 with multi_stream := f' } := by
  have hk : (((8 : Nat) + 9 : Nat) : Int) ≤ len := by push_cast; omega
  have hff : fixedFields g (b.set 13 f') 8 = { fixedFields g b 8 with multi_stream := f' } := by
    unfold fixedFields
    simp only [Nat.reduceAdd]
    rw [getD_set_ne b 13 8 f' (by decide), getD_set_ne b 13 9 f' (by decide),
      getD_set_ne b 13 10 f' (by decide), getD_set_ne b 13 11 f' (by decide),
      getD_set_ne b 13 12 f' (by decide), getD_set_ne b 13 14 f' (by decide),
      getD_set_ne b 13 15 f' (by decide), getD_set_ne b 13 16 f' (by decide),
      getD_set_self b 13 f' hb]
  rw [parse_fields_eq b len 8 g h0 h1 hk, parse_fields_eq (b.set 13 f') len 8 g h0 h1 hk, hff]
  simp only [Nat.reduceAdd]
  rw [getD_set_self b 13 f' hb, getD_set_ne b 13 17 f' (by decide)]
  rw [if_pos hf, if_pos hf']
  by_cases c18 : ((18 : Nat) : Int) ≤ len
  swap
  · rw [if_neg c18, if_neg c18]
    exact ⟨rfl, rfl, rfl⟩
  rw [if_pos c18, if_pos c18]
  exact parse_mapping_loop_family b (b.set 13 f') len f' h0 h1 (b.getD 17 0) 0 18
    { fixedFields g b 8 with nb_streams := b.getD 17 0 }
    (fun j hj => getD_set_ne b 13 j f' (by omega))

/-- A parse of fewer than 17 bytes fails. -/
theorem parse_run_lt_17 (b : List Nat) (h : OpusHeader) (str0 : Nat → Nat)
    (hlen : b.length ≤ 2147483647) (hs : b.length < 17) :
    (opus_header_parse_run b (b.length : Int) h str0).1 = 0 := by
  by_contra hc
  have := (parse_run_ok_imp b h str0 (by omega) hc).1
  omega

/-- C17. Two inputs that differ only in the family byte (offset 13), both
family bytes being nonzero, are both accepted or both rejected by
`opus_header_parse`, and when they are accepted the two headers are equal in
every field except `multi_stream`. (The second input is the first with the byte
at offset 13 replaced; the caller's header before the call is the same.) -/
theorem parse_family_value_irrelevant (b : List Nat) (f' : Nat) (g : OpusHeader)
    (str0 str0' : Nat → Nat) (hlen : b.length ≤ 2147483647)
    (hf : b.getD 13 0 ≠ 0) (hf' : f' ≠ 0) :
    (opus_header_parse (b.set 13 f') ((b.set 13 f').length : Int) g str0').1 =
      (opus_header_parse b (b.length : Int) g str0).1 ∧
    ((opus_header_parse b (b.length : Int) g str0).1 ≠ 0 →
      (opus_header_parse (b.set 13 f') ((b.set 13 f').length : Int) g str0').2 =
        { (opus_header_parse b (b.length : Int) g str0).2 with multi_stream := f' }) := by
  have hl : (b.set 13 f').length = b.length := List.length_set b 13 f'
  rw [hl]
  show (opus_header_parse_run (b.set 13 f') (b.length : Int) g str0').1 =
      (opus_header_parse_run b (b.length : Int) g str0).1 ∧
    ((opus_header_parse_run b (b.length : Int) g str0).1 ≠ 0 →
      (opus_header_parse_run (b.set 13 f') (b.length : Int) g str0').2.2 =
        { (opus_header_parse_run b (b.length : Int) g str0).2.2 with multi_stream := f' })
  by_cases h17 : 17 ≤ b.length
  swap
  · have e1 := parse_run_lt_17 b g str0 hlen (by omega)
    have e2 := parse_run_lt_17 (b.set 13 f') g str0' (by omega) (by omega)
    rw [hl] at e2
    rw [e1, e2]
    exact ⟨rfl, fun hc => absurd rfl hc⟩
  by_cases ht : b.take 8 = OpusHead
  swap
  · have ht' : (b.set 13 f').take 8 ≠ OpusHead := by
      rw [List.take_set_of_lt f' b (by decide)]; exact ht
    have e1 := parse_run_bad_tag b (b.length : Int) g str0 (by omega) (by omega) (by omega) ht
    have e2 := parse_run_bad_tag (b.set 13 f') (b.length : Int) g str0' (by omega) (by omega)
      (by omega) ht'
    rw [e1, e2]
    exact ⟨rfl, fun hc => absurd rfl hc⟩
  have ht' : (b.set 13 f').take 8 = OpusHead := by
    rw [List.take_set_of_lt f' b (by decide)]; exact ht
  obtain ⟨p1, p2, p3⟩ := parse_fields_family b (b.length : Int) g f' (by omega) (by omega)
    (by omega) (by omega) hf hf'
  have hv : (parse_fields ⟨b.set 13 f', (b.length : Int), ((8 : Nat) : Int)⟩ g).2.2.version =
      (parse_fields ⟨b, (b.length : Int), ((8 : Nat) : Int)⟩ g).2.2.version := by
    rw [p3]
  rw [parse_run_tag b (b.length : Int) g str0 (by omega) (by omega) (by omega) ht,
    parse_run_tag (b.set 13 f') (b.length : Int) g str0' (by omega) (by omega) (by omega) ht',
    p1, p2, hv]
  by_cases c0 : (parse_fields ⟨b, (b.length : Int), ((8 : Nat) : Int)⟩ g).1 = 0
  · rw [if_pos c0, if_pos c0]
    exact ⟨rfl, fun hc => absurd rfl hc⟩
  rw [if_neg c0, if_neg c0]
  by_cases c1 : (parse_fields ⟨b, (b.length : Int), ((8 : Nat) : Int)⟩ g).2.2.version = 0 ∧
      (parse_fields ⟨b, (b.length : Int), ((8 : Nat) : Int)⟩ g).2.1.pos ≠ (b.length : Int)
  · rw [if_pos c1, if_pos c1]
    exact ⟨rfl, fun hc => absurd rfl hc⟩
  · rw [if_neg c1, if_neg c1]
    exact ⟨rfl, fun _ => p3⟩

/-- Witness of C17: the multistream example on the wire, with family 1 and with
family 200. -/
theorem parse_family_value_irrelevant_witness :
    examplePacket.length ≤ 2147483647 ∧ examplePacket.getD 13 0 ≠ 0 ∧ (200 : Nat) ≠ 0 ∧
    (opus_header_parse (examplePacket.set 13 200) ((examplePacket.set 13 200).length : Int)
        staleHeader tagStr).1 =
      (opus_header_parse examplePacket (examplePacket.length : Int) staleHeader blankStr).1 ∧
    ((opus_header_parse examplePacket (examplePacket.length : Int) staleHeader blankStr).1 ≠ 0 →
      (opus_header_parse (examplePacket.set 13 200) ((examplePacket.set 13 200).length : Int)
          staleHeader tagStr).2 =
        { (opus_header_parse examplePacket (examplePacket.length : Int) staleHeader blankStr).2
          with multi_stream := 200 }) :=
  ⟨by decide, by decide, by decide,
    parse_family_value_irrelevant examplePacket 200 staleHeader blankStr tagStr (by decide)
      (by decide) (by decide)⟩

/-! ## Serializing what the parser accepted -/

theorem entryOffset_ge (b : List Nat) : ∀ (n k : Nat), k ≤ entryOffset b k n := by
  intro n
  induction n with
  | zero => intro k; exact le_refl _
  | succ n ih =>
    intro k
    rw [entryOffset_succ]
    have := ih (k + entryWidth b k)
    omega

theorem drop_cons_getD (b : List Nat) (k : Nat) (hk : k < b.length) :
    b.drop k = b.getD k 0 :: b.drop (k + 1) := by
  rw [List.drop_eq_getElem_cons hk, List.getD_eq_getElem?_getD, List.getElem?_eq_getElem hk]
  rfl

theorem take_succ_getD (b : List Nat) (k : Nat) (hk : k < b.length) :
    b.take (k + 1) = b.take k ++ [b.getD k 0] := by
  rw [List.take_succ, List.getD_eq_getElem?_getD, List.getElem?_eq_getElem hk]
  rfl

/-- The bytes of an input from offset `k` on are the wire image of the rows
`i, i+1, ...` of a header that holds the entries found there, followed by what
comes after the last entry. -/
theorem drop_eq_tableBytes (h : OpusHeader) (b : List Nat) : ∀ (n i k : Nat),
    (∀ j, j < n →
      h.mapping (i + j) 0 = b.getD (entryOffset b k j) 0 ∧
      h.mapping (i + j) 1 = b.getD (entryOffset b k j + 1) 0 ∧
      (b.getD (entryOffset b k j) 0 = 1 →
        h.mapping (i + j) 2 = b.getD (entryOffset b k j + 2) 0)) →
    entryOffset b k n ≤ b.length →
    b.drop k = tableBytes h n i ++ b.drop (entryOffset b k n) := by
  intro n
  induction n with
  | zero => intro i k _ _; rfl
  | succ n ih =>
    intro i k hmap hle
    rw [entryOffset_succ] at hle ⊢
    have hge := entryOffset_ge b n (k + entryWidth b k)
    obtain ⟨m0, m1, m2⟩ := hmap 0 (by omega)
    simp only [Nat.add_zero, entryOffset] at m0 m1 m2
    have hrec := ih (i + 1) (k + entryWidth b k)
      (fun j hj => by
        have := hmap (j + 1) (by omega)
        rw [entryOffset_succ, show i + (j + 1) = i + 1 + j by omega] at this
        exact this)
      hle
    rw [tableBytes_succ, List.append_assoc, ← hrec]
    unfold entryWidth at hge hle ⊢
    unfold entryBytes
    rw [m0]
    by_cases cf : b.getD k 0 = 1
    · rw [if_pos cf] at hge hle
      rw [if_pos cf, if_pos cf, m1, m2 cf, drop_cons_getD b k (by omega),
        drop_cons_getD b (k + 1) (by omega), drop_cons_getD b (k + 1 + 1) (by omega)]
      rfl
    · rw [if_neg cf] at hge hle
      rw [if_neg cf, if_neg cf, m1, drop_cons_getD b k (by omega),
        drop_cons_getD b (k + 1) (by omega)]
      rfl

theorem take17_eq (b : List Nat) (h17 : 17 ≤ b.length) :
    b.take 17 = b.take 8 ++ [b.getD 8 0, b.getD 9 0, b.getD 10 0, b.getD 11 0, b.getD 12 0,
      b.getD 13 0, b.getD 14 0, b.getD 15 0, b.getD 16 0] := by
  rw [take_succ_getD b 16 (by omega), take_succ_getD b 15 (by omega),
    take_succ_getD b 14 (by omega), take_succ_getD b 13 (by omega),
    take_succ_getD b 12 (by omega), take_succ_getD b 11 (by omega),
    take_succ_getD b 10 (by omega), take_succ_getD b 9 (by omega),
    take_succ_getD b 8 (by omega)]
  simp

/-- The bytes the serializer stores for the header that a successful parse of a
version-0 sequence of bytes has left are that sequence. -/
theorem emitted_of_parse (b : List Nat) (g : OpusHeader) (str0 : Nat → Nat)
    (hlen : b.length ≤ 2147483647) (hbytes : ∀ x ∈ b, x < 256) (hv : b.getD 8 0 = 0)
    (hok : (opus_header_parse_run b (b.length : Int) g str0).1 ≠ 0) :
    emitted (opus_header_parse_run b (b.length : Int) g str0).2.2 = b := by
  have h1 : (b.length : Int) ≤ 2147483647 := by omega
  obtain ⟨h17, ht, hf⟩ := parse_run_ok_imp b g str0 h1 hok
  have hsnd := parse_run_tag_snd b (b.length : Int) g str0 h1 (by omega) (by omega) ht
  have hfin := (parse_run_ok_final b (b.length : Int) g str0 h1 (by omega) (by omega) ht hok).2
  have hver := parse_fields_version b (b.length : Int) g (by omega) h1 hf
  have hpos : (parse_fields ⟨b, (b.length : Int), ((8 : Nat) : Int)⟩ g).2.1.pos =
      (b.length : Int) := by
    by_contra hc
    exact hfin ⟨by rw [hver]; exact hv, hc⟩
  obtain ⟨_, ⟨_, s2, s3, s4, s5, s6⟩, g3, g4⟩ :=
    parse_fields_ok b (b.length : Int) g h1 (by omega) hf
  simp only [fixedFields, Nat.reduceAdd] at s2 s3 s4 s5 s6
  rw [le32_eq _ _ _ _ (getD_lt_of_bytes b hbytes _) (getD_lt_of_bytes b hbytes _)
    (getD_lt_of_bytes b hbytes _) (getD_lt_of_bytes b hbytes _)] at s2
  rw [le16_eq _ _ (getD_lt_of_bytes b hbytes _) (getD_lt_of_bytes b hbytes _)] at s5
  have b9 := getD_lt_of_bytes b hbytes 9
  have b10 := getD_lt_of_bytes b hbytes 10
  have b11 := getD_lt_of_bytes b hbytes 11
  have b12 := getD_lt_of_bytes b hbytes 12
  have b13 := getD_lt_of_bytes b hbytes 13
  have b14 := getD_lt_of_bytes b hbytes 14
  have b15 := getD_lt_of_bytes b hbytes 15
  have b16 := getD_lt_of_bytes b hbytes 16
  have b17 := getD_lt_of_bytes b hbytes 17
  rw [hsnd]
  have hsplit : b.take 17 ++ b.drop 17 = b := List.take_append_drop 17 b
  have htail : (if (parse_fields ⟨b, (b.length : Int), ((8 : Nat) : Int)⟩ g).2.2.multi_stream ≠ 0
      then u8 (parse_fields ⟨b, (b.length : Int), ((8 : Nat) : Int)⟩ g).2.2.nb_streams ::
        tableBytes (parse_fields ⟨b, (b.length : Int), ((8 : Nat) : Int)⟩ g).2.2
          (parse_fields ⟨b, (b.length : Int), ((8 : Nat) : Int)⟩ g).2.2.nb_streams 0
      else []) = b.drop 17 := by
    rw [s3, s6]
    by_cases hm : b.getD 13 0 = 0
    · have := g3 hm
      rw [this] at hpos
      simp only [] at hpos
      rw [if_neg (by simpa using hm)]
      have hl : b.length = 17 := by omega
      rw [List.drop_of_length_le (by omega)]
    · obtain ⟨c1, c2, c3, _⟩ := g4 hm
      rw [c1] at hpos
      simp only [] at hpos
      have hoff : entryOffset b 18 (b.getD 17 0) = b.length := by exact_mod_cast hpos
      have hge := entryOffset_ge b (b.getD 17 0) 18
      rw [if_pos hm, if_neg hm]
      have hd := drop_eq_tableBytes (parse_fields ⟨b, (b.length : Int), ((8 : Nat) : Int)⟩ g).2.2
        b (b.getD 17 0) 0 18
        (fun j hj => by simpa using c3 j hj) (by omega)
      rw [hoff, List.drop_of_length_le (le_refl _), List.append_nil] at hd
      rw [drop_cons_getD b 17 (by omega), hd]
      unfold u8
      rw [Nat.mod_eq_of_lt b17]
  unfold emitted
  rw [htail, s2, s3, s4, s5]
  have r0 : u32 (b.getD 9 0 + 256 * b.getD 10 0 + 65536 * b.getD 11 0 + 16777216 * b.getD 12 0)
      % 256 = b.getD 9 0 := by unfold u32; omega
  have r1 : u32 (b.getD 9 0 + 256 * b.getD 10 0 + 65536 * b.getD 11 0 + 16777216 * b.getD 12 0)
      / 256 % 256 = b.getD 10 0 := by unfold u32; omega
  have r2 : u32 (b.getD 9 0 + 256 * b.getD 10 0 + 65536 * b.getD 11 0 + 16777216 * b.getD 12 0)
      / 65536 % 256 = b.getD 11 0 := by unfold u32; omega
  have r3 : u32 (b.getD 9 0 + 256 * b.getD 10 0 + 65536 * b.getD 11 0 + 16777216 * b.getD 12 0)
      / 16777216 % 256 = b.getD 12 0 := by unfold u32; omega
  have r4 : u16 (b.getD 15 0 + 256 * b.getD 16 0) % 256 = b.getD 15 0 := by unfold u16; omega
  have r5 : u16 (b.getD 15 0 + 256 * b.getD 16 0) / 256 % 256 = b.getD 16 0 := by
    unfold u16; omega
  have r6 : u8 (b.getD 13 0) = b.getD 13 0 := by unfold u8; omega
  have r7 : u8 (b.getD 14 0) = b.getD 14 0 := by unfold u8; omega
  rw [r0, r1, r2, r3, r4, r5, r6, r7]
  have ht17 := take17_eq b h17
  rw [ht, hv] at ht17
  conv_rhs => rw [← hsplit, ht17]
  simp

/-- C18. For every sequence of bytes `b` whose version byte is 0 and on which
`opus_header_parse` succeeds, `opus_header_to_packet` applied to the header the
parse left, into any buffer with a capacity of at least `length b`, returns
`length b`, and the bytes written are exactly `b`. -/
theorem canonical_encoding (b : List Nat) (g : OpusHeader) (str0 : Nat → Nat) (buf : List Nat)
    (len : Int) (hbytes : ∀ x ∈ b, x < 256) (hv : b.getD 8 0 = 0)
    (hok : (opus_header_parse b (b.length : Int) g str0).1 ≠ 0)
    (hcap : (b.length : Int) ≤ len) (h1 : len ≤ 2147483647) (hb : len ≤ (buf.length : Int)) :
    (opus_header_to_packet (opus_header_parse b (b.length : Int) g str0).2 buf len).1 =
      (b.length : Int) ∧
    (opus_header_to_packet (opus_header_parse b (b.length : Int) g str0).2 buf len).2.take
      b.length = b := by
  have hem : emitted (opus_header_parse b (b.length : Int) g str0).2 = b :=
    emitted_of_parse b g str0 (by omega) hbytes hv hok
  have hrun := to_packet_run_ok (opus_header_parse b (b.length : Int) g str0).2 buf len h1
    (by rw [hem]; exact hcap)
  rw [hem] at hrun
  unfold opus_header_to_packet
  simp only []
  rw [hrun]
  refine ⟨rfl, ?_⟩
  have := take_putBytes b buf 0 (by omega)
  simp only [Nat.zero_add, List.take_zero, List.nil_append] at this
  exact this

/-- Witness of C18: the 23 bytes of the multistream example, parsed over a stale
header and serialized into the 30-byte buffer. -/
theorem canonical_encoding_witness :
    (∀ x ∈ examplePacket, x < 256) ∧ examplePacket.getD 8 0 = 0 ∧
    (opus_header_parse examplePacket (examplePacket.length : Int) staleHeader blankStr).1 ≠ 0 ∧
    (examplePacket.length : Int) ≤ 30 ∧ (30 : Int) ≤ 2147483647 ∧
    (30 : Int) ≤ (exampleBuffer.length : Int) ∧
    (opus_header_to_packet
      (opus_header_parse examplePacket (examplePacket.length : Int) staleHeader blankStr).2
      exampleBuffer 30).1 = (examplePacket.length : Int) ∧
    (opus_header_to_packet
      (opus_header_parse examplePacket (examplePacket.length : Int) staleHeader blankStr).2
      exampleBuffer 30).2.take examplePacket.length = examplePacket :=
  ⟨by decide, by decide, by decide, by decide, by decide, by decide,
    canonical_encoding examplePacket staleHeader blankStr exampleBuffer 30 (by decide)
      (by decide) (by decide) (by decide) (by decide) (by decide)⟩

/-! ## The unchecked read of the tag -/

/-- C6, the code at the failing input. The input is the first seven bytes of
the tag and the local array `str` spelled "OpusHead" before the call. The
eight-byte read of the tag returns 0 and leaves the array as it was; that
return code is not looked at (line 110), the comparison with the literal
passes, and the parse goes on: it reads from offset 0, stores 79 as version,
1215526256 as sample rate, 101 as family and 97 as channel count into the
caller's header, and returns 0 only when the pre-skip read runs out of input,
with the cursor at offset 7. The failure is decided by that later read, not by
the result of the tag read. -/
theorem truncated_tag_read_result_ignored :
    (read_chars { data := OpusHead.take 7, maxlen := 7, pos := 0 }
      (((List.range 9).map tagStr).set 8 0) 8).1 = 0 ∧
    strcmp (read_chars { data := OpusHead.take 7, maxlen := 7, pos := 0 }
      (((List.range 9).map tagStr).set 8 0) 8).2.2 OpusHeadZ = 0 ∧
    (opus_header_parse_run (OpusHead.take 7) 7 staleHeader tagStr).1 = 0 ∧
    (opus_header_parse_run (OpusHead.take 7) 7 staleHeader tagStr).2.1.pos = 7 ∧
    (opus_header_parse_run (OpusHead.take 7) 7 staleHeader tagStr).2.2.version = 79 ∧
    (opus_header_parse_run (OpusHead.take 7) 7 staleHeader tagStr).2.2.input_sample_rate
      = 1215526256 ∧
    (opus_header_parse_run (OpusHead.take 7) 7 staleHeader tagStr).2.2.multi_stream = 101 ∧
    (opus_header_parse_run (OpusHead.take 7) 7 staleHeader tagStr).2.2.channels = 97 ∧
    (opus_header_parse_run (OpusHead.take 7) 7 staleHeader tagStr).2.2.preskip
      = staleHeader.preskip := by
  decide

end OpusTools
